import Mathlib

set_option maxRecDepth 4000

/-!
Verification of the `snad` pattern-rewrite cellular automaton engine
(`src/petri/src/lib.rs`) against its natural-language specification.

The Rust source is shallowly embedded below.  Machine integers are modelled
as `Nat` (for `usize`/`u8`/`u16`) and `Int` (for `isize`), with explicit
two's-complement wrapping (`% 2^64`) at every operation where the source
performs a wrapping operation (`wrapping_add_unsigned`,
`wrapping_sub_unsigned`, release-mode `-`/`+`/`*` overflow, `as usize`,
`as isize` casts, `saturating_add_unsigned`).

Rust panics (out-of-bounds slice indexing, `% 0`) are modelled either with
`Option` (where a claim is about the panic, e.g. `update_cache_single_rule`
on an invalid rule index) or with `List.getD` defaults at sites that are
unreachable in the states the theorems quantify over; every such site is
marked with a comment.
-/

/-! ## Machine-integer arithmetic -/

/-- Two to the 64, the number of `usize`/`isize` values on the 64-bit
targets the program is built for. -/
def U64 : Int := 18446744073709551616

/-- Two to the 63: `isize::MIN` is `-I64`, `isize::MAX` is `I64 - 1`. -/
def I64 : Int := 9223372036854775808

/-- Wrap an integer into the `isize` range `[-2^63, 2^63)`
(two's-complement semantics of Rust's wrapping operations). -/
def w64 (n : Int) : Int := (n + I64) % U64 - I64

/-- Reinterpret an `isize` value as a `usize` (`as usize` cast). -/
def castUsize (n : Int) : Nat := (n % U64).toNat

/-- Reinterpret a `usize` value as an `isize` (`as isize` cast). -/
def castIsize (n : Nat) : Int := w64 n

/-- `isize::wrapping_add_unsigned`. -/
def wrapAddU (a : Int) (b : Nat) : Int := w64 (a + b)

/-- `isize::wrapping_sub_unsigned`. -/
def wrapSubU (a : Int) (b : Nat) : Int := w64 (a - b)

/-- `isize::saturating_add_unsigned` (clamps at `isize::MAX`). -/
def satAddU (a : Int) (b : Nat) : Int := min (a + b) (I64 - 1)

/-- `usize` subtraction as compiled in release mode (wraps on underflow). -/
def usub (a b : Nat) : Nat := castUsize ((a : Int) - (b : Int))

/-- `usize` addition as compiled in release mode (wraps on overflow). -/
def uadd (a b : Nat) : Nat := (a + b) % 18446744073709551616

/-- `usize` multiplication as compiled in release mode (wraps on overflow). -/
def umul (a b : Nat) : Nat := (a * b) % 18446744073709551616

theorem w64_eq_of_bounds (n : Int) (h1 : -I64 ≤ n) (h2 : n < I64) : w64 n = n := by
  unfold w64
  have : n + I64 ≥ 0 := by omega
  have h4 : n + I64 < U64 := by unfold U64 I64 at *; omega
  rw [Int.emod_eq_of_lt this h4]
  omega

theorem w64_mem (n : Int) : -I64 ≤ w64 n ∧ w64 n < I64 := by
  unfold w64
  have h0 : (0:Int) < U64 := by unfold U64; omega
  have hne : (U64 : Int) ≠ 0 := by unfold U64; omega
  have h1 := Int.emod_nonneg (n + I64) hne
  have h2 := Int.emod_lt_of_pos (n + I64) h0
  unfold U64 I64 at *
  omega

theorem w64_emod (n : Int) : w64 n % U64 = n % U64 := by
  unfold w64
  conv_rhs => rw [show n = (n + I64) - I64 by ring]
  rw [Int.sub_emod, Int.sub_emod (n + I64), Int.emod_emod_of_dvd]
  exact dvd_refl U64

theorem castUsize_w64 (n : Int) : castUsize (w64 n) = castUsize n := by
  unfold castUsize
  rw [w64_emod]

theorem usub_eq_of_le (a b : Nat) (hle : b ≤ a) (ha : (a : Int) < U64) :
    usub a b = a - b := by
  unfold usub castUsize
  have h1 : (0:Int) ≤ (a : Int) - b := by omega
  have h2 : (a : Int) - b < U64 := by omega
  rw [Int.emod_eq_of_lt h1 h2]
  omega

theorem castUsize_eq (n : Int) (h1 : 0 ≤ n) (h2 : n < U64) :
    castUsize n = n.toNat := by
  unfold castUsize
  rw [Int.emod_eq_of_lt h1 h2]

/-! ## Data model: cells, groups, world -/

/-- `Cell(pub u16)`: an opaque cell id. -/
structure Cell where
  val : Nat
deriving DecidableEq, Repr

instance : Inhabited Cell := ⟨⟨0⟩⟩

/-- `CellGroup { name, void, cells }`. -/
structure CellGroup where
  name : String
  void : Bool
  cells : List Cell
deriving DecidableEq, Repr

/-- `Default` for `CellGroup` (empty, not void): used where Rust would
panic on an out-of-range group index; the theorems below only exercise
in-range indices. -/
instance : Inhabited CellGroup := ⟨⟨"", false, []⟩⟩

/-- `CellData { name, color }` (display only; never read by the engine). -/
structure CellData where
  name : String
  color : Nat × Nat × Nat
deriving DecidableEq, Repr

/-- `CHUNK_SIZE`. -/
def CHUNK_SIZE : Nat := 32

/-- The world is a single `CHUNK_SIZE × CHUNK_SIZE` grid of cells,
modelled as a total function on `Nat` coordinates; `World::get_cell`
guards the bounds, so values outside `[0,32)²` are never read. -/
def World := Nat → Nat → Cell

/-- `World::get_cell` (via `Chunk::get_cell`): `None` outside the grid. -/
def World.get_cell (w : World) (x y : Nat) : Option Cell :=
  if x ≥ CHUNK_SIZE ∨ y ≥ CHUNK_SIZE then none else some (w x y)

/-- `Dish::set_cell`: bounded write, no-op outside the grid. -/
def World.set_cell (w : World) (x y : Nat) (c : Cell) : World :=
  if x ≥ CHUNK_SIZE ∨ y ≥ CHUNK_SIZE then w
  else fun a b => if a = x ∧ b = y then c else w a b

/-- `World::fill` (via `Chunk::fill`). -/
def World.fill (_ : World) (c : Cell) : World := fun _ _ => c

/-! ## Rules -/

/-- `RuleCellFrom`. -/
inductive RuleCellFrom where
  | any : RuleCellFrom
  | one : Cell → RuleCellFrom
  | group : Nat → RuleCellFrom
deriving DecidableEq, Repr

instance : Inhabited RuleCellFrom := ⟨.any⟩

/-- `RuleCellTo`. -/
inductive RuleCellTo where
  | none : RuleCellTo
  | one : Cell → RuleCellTo
  | groupRandom : Nat → RuleCellTo
  | copy : Nat → Nat → RuleCellTo
deriving DecidableEq, Repr

instance : Inhabited RuleCellTo := ⟨.none⟩

/-- `SubRule`: a `width × height` pattern with an origin, row-major
contents. -/
structure SubRule where
  width : Nat
  height : Nat
  origin_x : Nat
  origin_y : Nat
  contents : List (RuleCellFrom × RuleCellTo)
deriving DecidableEq, Repr

/-- `SubRule::new()`: the default 1×1 `(Any, None)` pattern. -/
def SubRule.new : SubRule :=
  { width := 1, height := 1, origin_x := 0, origin_y := 0
    contents := [(default, default)] }

instance : Inhabited SubRule := ⟨SubRule.new⟩

/-- `SubRule::get`: out-of-rectangle reads return the default
`(Any, None)`.  (In-rectangle reads index `contents[x + width*y]`, which
in Rust panics if `contents` is shorter than `width*height`; we use a
default there, and every theorem about patterns carries the length
invariant `contents.length = width * height` where it matters.) -/
def SubRule.get (s : SubRule) (x y : Nat) : RuleCellFrom × RuleCellTo :=
  if x ≥ s.width ∨ y ≥ s.height then default
  else s.contents.getD (x + s.width * y) default

/-- `Rule`. -/
structure Rule where
  name : String
  base : SubRule
  variants : List SubRule
  enabled : Bool
  flip_x : Bool
  flip_y : Bool
  rotate : Bool
  failrate : Nat
deriving DecidableEq, Repr

/-- `Rule::new()`. -/
def Rule.new : Rule :=
  { name := "new rule", enabled := false, base := SubRule.new
    variants := [SubRule.new], flip_x := false, flip_y := false
    rotate := false, failrate := 0 }

instance : Inhabited Rule := ⟨Rule.new⟩

/-! ## The matcher -/

/-- `World::subrule_matches`.  The Rust loops over `dx` then `dy` with an
early `return false`; wrapping adds and the `as usize` cast are kept
exactly.  A `Group` entry reads `groups[group_id]`, which panics on an
out-of-range index in Rust; here the default (empty, non-void) group is
used, and claims about the matcher carry a group-validity hypothesis. -/
def World.subrule_matches (w : World) (corner_x corner_y : Int)
    (subrule : SubRule) (groups : List CellGroup) : Bool :=
  (List.range subrule.width).all fun dx =>
    (List.range subrule.height).all fun dy =>
      let x := castUsize (wrapAddU corner_x dx)
      let y := castUsize (wrapAddU corner_y dy)
      let cell := w.get_cell x y
      match (subrule.get dx dy).1 with
      | .any => true
      | .one rule_cell => cell = some rule_cell
      | .group group_id =>
        let group := groups.getD group_id default
        match cell with
        | some c => group.cells.contains c
        | none => group.void

/-! ## Specification-side matcher (C3)

These definitions follow the words of the specification / claim C3, for
comparison with `World.subrule_matches` above (which is translated from
the source). -/

/-- Mathematical bounded read on signed coordinates, as the specification
describes `world.get`: `Outside` (i.e. `none`) outside `[0,N) × [0,N)`. -/
def World.getSpec (w : World) (x y : Int) : Option Cell :=
  if 0 ≤ x ∧ x < 32 ∧ 0 ≤ y ∧ y < 32 then some (w x.toNat y.toNat) else none

/-- One pattern entry passes, as the specification words it:
`Any` always passes; `One(cell)` passes iff the read is exactly that cell
(so it fails on `Outside`); `Group(g)` passes iff the read is a cell
contained in `g.cells`, or is `Outside` and `g.void` is set. -/
def entryPassSpec (groups : List CellGroup) (c : Option Cell)
    (f : RuleCellFrom) : Prop :=
  match f with
  | .any => True
  | .one cell => c = some cell
  | .group g =>
    (∃ cc, c = some cc ∧ cc ∈ (groups.getD g default).cells) ∨
      (c = none ∧ (groups.getD g default).void = true)

/-- The matcher according to the specification: every entry passes, the
read for entry `(dx, dy)` being at the mathematical position
`corner + (dx, dy)`. -/
def matcherSpec (w : World) (groups : List CellGroup)
    (corner_x corner_y : Int) (v : SubRule) : Prop :=
  ∀ dx, dx < v.width → ∀ dy, dy < v.height →
    entryPassSpec groups (w.getSpec (corner_x + dx) (corner_y + dy))
      (v.get dx dy).1

theorem get_cell_wrap (w : World) (tx ty : Int)
    (hx1 : -I64 ≤ tx) (hx2 : tx < U64) (hy1 : -I64 ≤ ty) (hy2 : ty < U64) :
    w.get_cell (castUsize (w64 tx)) (castUsize (w64 ty)) = w.getSpec tx ty := by
  rw [castUsize_w64, castUsize_w64]
  unfold World.get_cell World.getSpec castUsize CHUNK_SIZE
  simp only [U64, I64] at hx1 hx2 hy1 hy2
  by_cases hin : 0 ≤ tx ∧ tx < 32 ∧ 0 ≤ ty ∧ ty < 32
  · obtain ⟨h1, h2, h3, h4⟩ := hin
    have ex : tx % U64 = tx := Int.emod_eq_of_lt h1 (by simp only [U64]; omega)
    have ey : ty % U64 = ty := Int.emod_eq_of_lt h3 (by simp only [U64]; omega)
    have hA : ¬((tx % U64).toNat ≥ 32 ∨ (ty % U64).toNat ≥ 32) := by
      rw [ex, ey]; omega
    rw [if_neg hA, if_pos ⟨h1, h2, h3, h4⟩, ex, ey]
  · rw [if_neg hin, if_pos]
    simp only [U64]
    omega

theorem U64_eq_two_I64 : U64 = 2 * I64 := by simp only [U64, I64]; omega

/-- Claim C3: for every world, variant, group table with valid group
indices, and every signed (isize) corner position, the source matcher
`World.subrule_matches` returns true iff every pattern entry passes in
the sense of the specification (`matcherSpec`).  The size hypotheses on
the pattern dimensions hold for every realizable Rust value
(`Vec` lengths are at most `isize::MAX`). -/
theorem subrule_matches_iff_spec (w : World) (groups : List CellGroup)
    (v : SubRule) (cx cy : Int)
    (hx1 : -I64 ≤ cx) (hx2 : cx < I64) (hy1 : -I64 ≤ cy) (hy2 : cy < I64)
    (hw : (v.width : Int) ≤ I64) (hh : (v.height : Int) ≤ I64) :
    (w.subrule_matches cx cy v groups = true ↔ matcherSpec w groups cx cy v) := by
  unfold World.subrule_matches matcherSpec
  simp only [List.all_eq_true, List.mem_range]
  refine forall₂_congr fun dx hdx => forall₂_congr fun dy hdy => ?_
  have hI : (0:Int) < I64 := by simp only [I64]; omega
  have hread : w.get_cell (castUsize (wrapAddU cx dx)) (castUsize (wrapAddU cy dy))
      = w.getSpec (cx + dx) (cy + dy) := by
    unfold wrapAddU
    refine get_cell_wrap w _ _ (by omega) ?_ (by omega) ?_
    · rw [U64_eq_two_I64]; omega
    · rw [U64_eq_two_I64]; omega
  simp only [hread]
  cases hf : (v.get dx dy).1 with
  | any => simp [entryPassSpec, hf]
  | one cell =>
    simp only [entryPassSpec]
    cases hc : w.getSpec (cx + dx) (cy + dy) <;> simp
  | group g =>
    simp only [entryPassSpec]
    cases hc : w.getSpec (cx + dx) (cy + dy) with
    | none => simp
    | some c => simp [List.elem_iff]

/-- The base pattern of the default `fall` rule from `Dish::new()`. -/
def fallSub : SubRule :=
  { width := 1, height := 2, origin_x := 0, origin_y := 0
    contents := [(.one ⟨1⟩, .one ⟨0⟩), (.one ⟨0⟩, .one ⟨1⟩)] }

/-- A sample world: a single sand cell at the top-left corner. -/
def worldSand : World := fun x y => if x = 0 ∧ y = 0 then ⟨1⟩ else ⟨0⟩

/-- Witness for `subrule_matches_iff_spec` at a concrete input. -/
theorem subrule_matches_iff_spec_witness :
    worldSand.subrule_matches 0 0 fallSub [] = true ↔
      matcherSpec worldSand [] 0 0 fallSub :=
  subrule_matches_iff_spec worldSand [] fallSub 0 0
    (by simp only [I64]; omega) (by simp only [I64]; omega)
    (by simp only [I64]; omega) (by simp only [I64]; omega)
    (by simp only [fallSub, I64]; omega) (by simp only [fallSub, I64]; omega)

/-! ## The Dish: cache structures and operations -/

/-- `RuleCache { rule, variant, matches }` (the `matches` field is named
`matchList` here because `matches` is reserved in Lean). -/
structure RuleCache where
  rule : Nat
  variant : Nat
  matchList : List (Int × Int)
deriving DecidableEq, Repr

instance : Inhabited RuleCache := ⟨⟨0, 0, []⟩⟩

/-- `Dish`.  The RNG is not part of the state; operations that draw
random numbers take the draws as explicit arguments. -/
structure Dish where
  world : World
  rules : List Rule
  types : List CellData
  groups : List CellGroup
  cache : List RuleCache
  match_cache : List Nat
  max_rule_width : Nat
  max_rule_height : Nat

/-- `Dish::update_match_cache`: indices of cache entries with nonempty
match lists (`enumerate` + `filter_map`). -/
def Dish.update_match_cache (d : Dish) : Dish :=
  { d with match_cache :=
      d.cache.enum.filterMap fun ic =>
        if ic.2.matchList.isEmpty then none else some ic.1 }

/-- Half-open integer range `[lo, hi)` as a list (a Rust
`for px in lo..hi` loop). -/
def intRange (lo hi : Int) : List Int :=
  (List.range (hi - lo).toNat).map fun (i : Nat) => lo + (i : Int)

/-- The scan shared by `Dish::add_cache_single_rule` and
`Dish::update_cache`: all anchors `(px, py)` in the given rectangle whose
corner `(px - origin_x, py - origin_y)` (wrapping) matches. -/
def variantScan (w : World) (groups : List CellGroup) (v : SubRule)
    (xlo xhi ylo yhi : Int) : List (Int × Int) :=
  (intRange xlo xhi).flatMap fun px =>
    (intRange ylo yhi).filterMap fun py =>
      if w.subrule_matches (wrapSubU px v.origin_x) (wrapSubU py v.origin_y)
          v groups then some (px, py) else none

/-- Lower bound of the rebuild scan in one axis:
`-(dim as isize - 1)` with release-mode wrapping. -/
def scanLo (dim : Nat) : Int := w64 (-(w64 (castIsize dim - 1)))

/-- Upper bound of the rebuild scan in one axis:
`CHUNK_SIZE as isize + (dim as isize - 1)` with release-mode wrapping. -/
def scanHi (dim : Nat) : Int := w64 (32 + w64 (castIsize dim - 1))

/-- Body of `Dish::add_cache_single_rule` once the rule has been read
(the read itself panics on an invalid index, see
`Dish.add_cache_single_rule`): for a disabled rule do nothing, otherwise
append one `RuleCache` entry per variant, scanning the bordered grid
rectangle. -/
def addCacheRule (d : Dish) (rule_index : Nat) (rule : Rule) : Dish :=
  if !rule.enabled then d
  else
    { d with cache := d.cache ++ (List.range rule.variants.length).map fun vi =>
        let v := rule.variants.getD vi default
        { rule := rule_index, variant := vi
          matchList := variantScan d.world d.groups v
            (scanLo v.width) (scanHi v.width) (scanLo v.height) (scanHi v.height) } }

/-- `Dish::add_cache_single_rule`; `none` models the Rust panic on
`self.rules[rule_index]` when the index is out of range. -/
def Dish.add_cache_single_rule (d : Dish) (rule_index : Nat) : Option Dish :=
  match d.rules.get? rule_index with
  | Option.none => none
  | Option.some rule => some (addCacheRule d rule_index rule)

/-- `Dish::update_cache_single_rule`: drop the rule's entries, re-add
them, recompute `match_cache`.  `none` models the panic on an invalid
rule index (reached through `add_cache_single_rule`). -/
def Dish.update_cache_single_rule (d : Dish) (rule_index : Nat) : Option Dish :=
  let d0 := { d with cache := d.cache.filter fun c => c.rule ≠ rule_index }
  (d0.add_cache_single_rule rule_index).map Dish.update_match_cache

/-- `Dish::rebuild_cache`: clear the cache and re-add every rule (every
index in the fold is in range, so the panic case of
`add_cache_single_rule` is never taken; `getD` is used to keep the fold
total). -/
def Dish.rebuild_cache (d : Dish) : Dish :=
  let d0 := { d with cache := [] }
  (((List.range d0.rules.length).foldl
    (fun dd i => addCacheRule dd i (dd.rules.getD i default)) d0)).update_match_cache

/-- The `overlap` closure inside `Dish::update_cache` (strict AABB
overlap with `saturating_add_unsigned`). -/
def overlapRect (a b : Int × Int × Nat × Nat) : Bool :=
  decide (b.1 < satAddU a.1 a.2.2.1) && decide (a.1 < satAddU b.1 b.2.2.1) &&
    decide (b.2.1 < satAddU a.2.1 a.2.2.2) && decide (a.2.1 < satAddU b.2.1 b.2.2.2)

/-- `Vec::swap_remove(i)`: replace element `i` with the last element and
pop. -/
def swapRemove (l : List α) (i : Nat) : List α :=
  match l.getLast? with
  | Option.none => []
  | Option.some z => (l.set i z).dropLast

theorem swapRemove_length (l : List α) (i : Nat) (h : 0 < l.length) :
    (swapRemove l i).length = l.length - 1 := by
  unfold swapRemove
  match hz : l.getLast? with
  | Option.none => rw [List.getLast?_eq_none_iff] at hz; subst hz; simp at h
  | Option.some z => simp [List.length_dropLast, List.length_set]

/-- The `while i < cache.matches.len()` removal loop in
`Dish::update_cache`: `swap_remove` every element satisfying `p`,
advancing past the others. -/
def discardLoop (p : α → Bool) (l : List α) (i : Nat) : List α :=
  if h : i < l.length then
    if p (l.get ⟨i, h⟩) then discardLoop p (swapRemove l i) i
    else discardLoop p l (i + 1)
  else l
termination_by l.length - i
decreasing_by
  · rw [swapRemove_length l i (by omega)]; omega
  · omega

/-- One entry's update in `Dish::update_cache`: discard matches whose
bounding rectangle overlaps the edited rectangle, then rescan the
expanded rectangle and push new matches.  The variant lookup
`self.rules[cache.rule].variants[cache.variant]` panics in Rust on stale
indices (modelled with defaults; the invariants proved below keep the
indices valid). -/
def updateEntry (w : World) (groups : List CellGroup) (rules : List Rule)
    (edited : Int × Int × Nat × Nat) (c : RuleCache) : RuleCache :=
  let v := (rules.getD c.rule default).variants.getD c.variant default
  let kept := discardLoop
    (fun m => overlapRect edited
      (wrapSubU m.1 v.origin_x, wrapSubU m.2 v.origin_y, v.width, v.height))
    c.matchList 0
  let xlo := wrapSubU edited.1 (usub v.width 1)
  let ylo := wrapSubU edited.2.1 (usub v.height 1)
  let xhi := wrapAddU (wrapAddU edited.1 edited.2.2.1) (usub v.width 1)
  let yhi := wrapAddU (wrapAddU edited.2.1 edited.2.2.2) (usub v.height 1)
  { c with matchList := kept ++ variantScan w groups v xlo xhi ylo yhi }

/-- `Dish::update_cache`. -/
def Dish.update_cache (d : Dish) (cx cy : Int) (width height : Nat) : Dish :=
  ({ d with cache :=
      d.cache.map (updateEntry d.world d.groups d.rules (cx, cy, width, height))
    }).update_match_cache

/-! ## Rule application -/

/-- The snapshot `old_state` built at the start of `Dish::apply_rule`:
row-major (`for dy { for dx { push } }`) reads of the window at anchor
`(x, y)` minus the variant origin, with wrapping arithmetic and the
`as usize` cast. -/
def oldState (w : World) (v : SubRule) (x y : Int) : List (Option Cell) :=
  (List.range v.height).flatMap fun dy =>
    (List.range v.width).map fun dx =>
      w.get_cell (castUsize (wrapSubU (wrapAddU x dx) v.origin_x))
        (castUsize (wrapSubU (wrapAddU y dy) v.origin_y))

/-- One iteration of the write loop in `Dish::apply_rule` for position
`(dx, dy)`.  `grng dx dy` is the `random::<usize>()` draw used by a
`GroupRandom` entry at that position.  A `GroupRandom` entry reads
`self.groups[group_id]`, which panics on an invalid index in Rust
(modelled with the default empty group). -/
def writeCell (wld : World) (groups : List CellGroup) (v : SubRule)
    (old : List (Option Cell)) (x y : Int) (grng : Nat → Nat → Nat)
    (dx dy : Nat) : World :=
  let px := castUsize (wrapSubU (wrapAddU x dx) v.origin_x)
  let py := castUsize (wrapSubU (wrapAddU y dy) v.origin_y)
  match (v.get dx dy).2 with
  | .one rule_cell => wld.set_cell px py rule_cell
  | .groupRandom group_id =>
    let group := groups.getD group_id default
    if group.cells.isEmpty then wld
    else wld.set_cell px py (group.cells.getD (grng dx dy % group.cells.length) default)
  | .copy cx cy =>
    let index := uadd cx (umul cy v.width)
    if index ≥ old.length then wld
    else
      match old.getD index Option.none with
      | Option.some cell => wld.set_cell px py cell
      | Option.none => wld
  | .none => wld

/-- The full write loop of `Dish::apply_rule` (`for dx { for dy { … } }`;
note the column-major order of the writes, unlike the snapshot). -/
def applyWrites (wld : World) (groups : List CellGroup) (v : SubRule)
    (x y : Int) (grng : Nat → Nat → Nat) : World :=
  let old := oldState wld v x y
  (List.range v.width).foldl
    (fun acc dx => (List.range v.height).foldl
      (fun acc2 dy => writeCell acc2 groups v old x y grng dx dy) acc)
    wld

/-- `Dish::apply_rule`.  `rFail` is the `random::<u8>()` draw compared
against `failrate`; `grng` supplies the `GroupRandom` draws.  The rule
and variant lookups panic in Rust on invalid indices (modelled with
defaults; the call sites proved about below always pass valid
indices). -/
def Dish.apply_rule (d : Dish) (x y : Int) (rule_index variant_index : Nat)
    (rFail : Nat) (grng : Nat → Nat → Nat) : Dish :=
  let rule := d.rules.getD rule_index default
  let variant := rule.variants.getD variant_index default
  if rule.failrate ≠ 0 ∧ rule.failrate > rFail then d
  else { d with world := applyWrites d.world d.groups variant x y grng }

/-- `Dish::get_matches_at_point`. -/
def Dish.get_matches_at_point (d : Dish) (x y : Int) : List (Nat × Nat) :=
  d.cache.flatMap fun rc =>
    rc.matchList.filterMap fun m =>
      if m.1 = x ∧ m.2 = y then some (rc.rule, rc.variant) else none

/-- `Dish::apply_one_match`: pick a random nonempty cache entry, a random
anchor in it, apply, and update the cache over the variant's bounding
rectangle.  `r1, r2` are the two `random::<usize>()` draws.  When
`match_cache` is nonempty but stale (never the case under the invariants
proved below), the Rust indexing / `% 0` panics; modelled with `getD`. -/
def Dish.apply_one_match (d : Dish) (r1 r2 rFail : Nat)
    (grng : Nat → Nat → Nat) : Dish :=
  if d.match_cache.isEmpty then d
  else
    let i := d.match_cache.getD (r1 % d.match_cache.length) 0
    let rc := d.cache.getD i default
    let m := rc.matchList.getD (r2 % rc.matchList.length) (0, 0)
    let rule := (d.rules.getD rc.rule default).variants.getD rc.variant default
    let cx := wrapSubU m.1 rule.origin_x
    let cy := wrapSubU m.2 rule.origin_y
    (d.apply_rule m.1 m.2 rc.rule rc.variant rFail grng).update_cache
      cx cy rule.width rule.height

/-- `Dish::try_one_location`: sample a random anchor in the bordered
grid (using `max_rule_width/height`), apply a random rule match cached
at exactly that point, and update the cache over the variant's bounding
rectangle.  `rx, ry, rPick` are the `random::<usize>()` draws. -/
def Dish.try_one_location (d : Dish) (rx ry rPick rFail : Nat)
    (grng : Nat → Nat → Nat) : Dish :=
  let border_x := usub d.max_rule_width 1
  let border_y := usub d.max_rule_height 1
  let ox := wrapSubU (castIsize (rx % uadd 32 (umul border_x 2))) border_x
  let oy := wrapSubU (castIsize (ry % uadd 32 (umul border_y 2))) border_y
  let ms := d.get_matches_at_point ox oy
  if ms.isEmpty then d
  else
    let rv := ms.getD (rPick % ms.length) (0, 0)
    let d2 := d.apply_rule ox oy rv.1 rv.2 rFail grng
    let variant := (d2.rules.getD rv.1 default).variants.getD rv.2 default
    d2.update_cache (wrapSubU ox variant.origin_x) (wrapSubU oy variant.origin_y)
      variant.width variant.height

/-! ## Claim C6: failrate semantics -/

/-- Claim C6 (amended): an application aborts before any world write
exactly when the `u8` draw is strictly below `failrate`; in particular
`failrate = 255` aborts for the 255 draws `0..=254` but still applies
when the draw is `255`, so it is not a no-op for every outcome of the
randomness. -/
theorem apply_rule_abort_iff (d : Dish) (x y : Int)
    (rule_index variant_index rFail : Nat) (grng : Nat → Nat → Nat) :
    d.apply_rule x y rule_index variant_index rFail grng =
      if rFail < (d.rules.getD rule_index default).failrate then d
      else { d with
        world :=
          applyWrites d.world d.groups
            ((d.rules.getD rule_index default).variants.getD variant_index default)
            x y grng } := by
  unfold Dish.apply_rule
  by_cases h : (d.rules.getD rule_index default).failrate ≠ 0 ∧
      (d.rules.getD rule_index default).failrate > rFail
  · rw [if_pos h, if_pos (by omega)]
  · rw [if_neg h, if_neg (by omega)]

/-- A 1×1 pattern that unconditionally writes `Cell 5`. -/
def writeFiveSub : SubRule :=
  { width := 1, height := 1, origin_x := 0, origin_y := 0
    contents := [(.any, .one ⟨5⟩)] }

/-- A rule with `failrate = 255` around `writeFiveSub`. -/
def failrate255Rule : Rule :=
  { name := "always fail?", base := writeFiveSub, variants := [writeFiveSub]
    enabled := true, flip_x := false, flip_y := false, rotate := false
    failrate := 255 }

/-- A dish holding only `failrate255Rule`, empty cache. -/
def failrate255Dish : Dish :=
  { world := fun _ _ => ⟨0⟩, rules := [failrate255Rule], types := []
    groups := [], cache := [], match_cache := []
    max_rule_width := 1, max_rule_height := 1 }

/-- Counterexample to claim C6 as stated: with `failrate = 255` and the
`u8` draw equal to 255, `apply_rule` is not a no-op on the world — the
guard `failrate != 0 && failrate > random()` does not fire and the rule
writes `Cell 5` at `(0,0)`. -/
theorem apply_rule_failrate255_not_noop :
    (failrate255Dish.apply_rule 0 0 0 0 255 (fun _ _ => 0)).world 0 0 = ⟨5⟩ ∧
      failrate255Dish.world 0 0 = ⟨0⟩ := by
  constructor <;> decide

/-! ## Claim C5: Copy entries with out-of-bounds sources -/

/-- Claim C5 (amended): a `Copy(cx, cy)` entry skips its write exactly
when the wrapped flattened index `cx + cy * width` is at least
`old_state.len()` (and also when the snapshot cell there is the
`Outside` sentinel); this covers every `cy ≥ height` with an in-range
`cx`, but a `cx ≥ width` whose flattened index is still in range does
write — it reads the snapshot at that flattened position. -/
theorem copy_write_characterization (wld : World) (groups : List CellGroup)
    (v : SubRule) (old : List (Option Cell)) (x y : Int)
    (grng : Nat → Nat → Nat) (dx dy cx cy : Nat)
    (h : (v.get dx dy).2 = .copy cx cy) :
    (uadd cx (umul cy v.width) ≥ old.length →
      writeCell wld groups v old x y grng dx dy = wld) ∧
    (∀ c : Cell, old.getD (uadd cx (umul cy v.width)) Option.none = Option.some c →
      uadd cx (umul cy v.width) < old.length →
      writeCell wld groups v old x y grng dx dy =
        wld.set_cell (castUsize (wrapSubU (wrapAddU x dx) v.origin_x))
          (castUsize (wrapSubU (wrapAddU y dy) v.origin_y)) c) := by
  unfold writeCell
  rw [h]
  dsimp only
  constructor
  · intro hge
    rw [if_pos hge]
  · intro c hc hlt
    rw [if_neg (show ¬(uadd cx (umul cy v.width) ≥ old.length) from by omega), hc]

/-- A 2×2 pattern whose top-left entry copies from the out-of-bounds
pattern coordinate `(2, 0)` (its flattened index `2 + 0*2 = 2` is in
range of the 4-cell snapshot). -/
def copyOOBSub : SubRule :=
  { width := 2, height := 2, origin_x := 0, origin_y := 0
    contents := [(.any, .copy 2 0), (.any, .none), (.any, .none), (.any, .none)] }

/-- Witness for `copy_write_characterization` at a concrete input. -/
theorem copy_write_characterization_witness :
    (copyOOBSub.get 0 0).2 = .copy 2 0 ∧
    ((uadd 2 (umul 0 copyOOBSub.width) ≥
        ([Option.some (⟨1⟩ : Cell), Option.some ⟨2⟩, Option.some ⟨3⟩,
          Option.some ⟨4⟩] : List (Option Cell)).length →
      writeCell worldSand [] copyOOBSub
        [Option.some ⟨1⟩, Option.some ⟨2⟩, Option.some ⟨3⟩, Option.some ⟨4⟩]
        0 0 (fun _ _ => 0) 0 0 = worldSand) ∧
    (∀ c : Cell,
      ([Option.some (⟨1⟩ : Cell), Option.some ⟨2⟩, Option.some ⟨3⟩,
          Option.some ⟨4⟩] : List (Option Cell)).getD
        (uadd 2 (umul 0 copyOOBSub.width)) Option.none = Option.some c →
      uadd 2 (umul 0 copyOOBSub.width) <
        ([Option.some (⟨1⟩ : Cell), Option.some ⟨2⟩, Option.some ⟨3⟩,
          Option.some ⟨4⟩] : List (Option Cell)).length →
      writeCell worldSand [] copyOOBSub
        [Option.some ⟨1⟩, Option.some ⟨2⟩, Option.some ⟨3⟩, Option.some ⟨4⟩]
        0 0 (fun _ _ => 0) 0 0 =
        worldSand.set_cell (castUsize (wrapSubU (wrapAddU 0 0) copyOOBSub.origin_x))
          (castUsize (wrapSubU (wrapAddU 0 0) copyOOBSub.origin_y)) c)) :=
  ⟨by decide,
   copy_write_characterization worldSand [] copyOOBSub
     [Option.some ⟨1⟩, Option.some ⟨2⟩, Option.some ⟨3⟩, Option.some ⟨4⟩]
     0 0 (fun _ _ => 0) 0 0 2 0 (by decide)⟩

/-- A rule around `copyOOBSub` that always applies. -/
def copyOOBRule : Rule :=
  { name := "copy oob", base := copyOOBSub, variants := [copyOOBSub]
    enabled := true, flip_x := false, flip_y := false, rotate := false
    failrate := 0 }

/-- A dish holding only `copyOOBRule`; the world has `Cell 7` at `(0,1)`. -/
def copyOOBDish : Dish :=
  { world := fun x y => if x = 0 ∧ y = 1 then ⟨7⟩ else ⟨0⟩
    rules := [copyOOBRule], types := [], groups := [], cache := []
    match_cache := [], max_rule_width := 2, max_rule_height := 2 }

/-- Counterexample to claim C5 as stated: the `Copy(2, 0)` entry of
`copyOOBSub` has `cx = 2 ≥ width = 2`, yet applying the rule at anchor
`(0,0)` does write — it copies the snapshot cell at flattened index 2
(the world cell `(0,1)`, holding `Cell 7`) into `(0,0)`. -/
theorem copy_out_of_bounds_source_writes :
    (copyOOBDish.apply_rule 0 0 0 0 0 (fun _ _ => 0)).world 0 0 = ⟨7⟩ ∧
      copyOOBDish.world 0 0 = ⟨0⟩ ∧
      (copyOOBSub.get 0 0).2 = .copy 2 0 ∧ copyOOBSub.width = 2 := by
  refine ⟨?_, by decide, by decide, by decide⟩
  decide

/-! ## Claim C7: update_rule with an invalid index -/

/-- Claim C7: `update_cache_single_rule` with `rule_index ≥ rules.len()`
is not a no-op — `add_cache_single_rule` evaluates
`self.rules[rule_index]` and panics (`Option.none` here), after
`retain` has already run.  The specification promises a defined no-op,
so this is a divergence of the code from the spec. -/
theorem update_rule_invalid_index_panics (d : Dish) (i : Nat)
    (h : d.rules.length ≤ i) :
    d.update_cache_single_rule i = Option.none := by
  unfold Dish.update_cache_single_rule Dish.add_cache_single_rule
  have hn : d.rules.get? i = Option.none := by
    rw [List.get?_eq_none]
    exact h
  simp only [hn]
  rfl

/-- A dish with no rules at all. -/
def emptyDish : Dish :=
  { world := fun _ _ => ⟨0⟩, rules := [], types := [], groups := []
    cache := [], match_cache := [], max_rule_width := 1, max_rule_height := 1 }

/-- Witness for `update_rule_invalid_index_panics` at a concrete input. -/
theorem update_rule_invalid_index_panics_witness :
    emptyDish.rules.length ≤ 0 ∧
      emptyDish.update_cache_single_rule 0 = Option.none :=
  ⟨by decide, update_rule_invalid_index_panics emptyDish 0 (by decide)⟩

/-! ## Variant generation (`Rule::generate_variants`) -/

/-- Rebuild of a `width × height` contents vector from a per-cell
function, row-major.  The Rust transforms build `new` by cloning `base`
and then overwriting every in-bounds cell with `set_both`; when the
contents vector has the invariant length `width*height` (carried as a
hypothesis by the theorems below) that is exactly this positional
rebuild. -/
def buildGrid (w h : Nat) (f : Nat → Nat → RuleCellFrom × RuleCellTo) :
    List (RuleCellFrom × RuleCellTo) :=
  (List.range (w * h)).map fun i => f (i % w) (i / w)

/-- The `Copy` rewrite of the horizontal mirror:
`*cx = new.width - *cx - 1` (usize arithmetic, wrapping in release). -/
def rwCopyX (w : Nat) : RuleCellFrom × RuleCellTo → RuleCellFrom × RuleCellTo
  | (f, .copy cx cy) => (f, .copy (usub (usub w cx) 1) cy)
  | c => c

/-- The `Copy` rewrite of the vertical mirror. -/
def rwCopyY (h : Nat) : RuleCellFrom × RuleCellTo → RuleCellFrom × RuleCellTo
  | (f, .copy cx cy) => (f, .copy cx (usub (usub h cy) 1))
  | c => c

/-- The `Copy` rewrite of the 180° rotation. -/
def rwCopy180 (w h : Nat) : RuleCellFrom × RuleCellTo → RuleCellFrom × RuleCellTo
  | (f, .copy cx cy) => (f, .copy (usub (usub w cx) 1) (usub (usub h cy) 1))
  | c => c

/-- The `Copy` rewrite of the 90° rotation:
`(cx, cy) ↦ (base.height - cy - 1, cx)`. -/
def rwCopy90 (h : Nat) : RuleCellFrom × RuleCellTo → RuleCellFrom × RuleCellTo
  | (f, .copy cx cy) => (f, .copy (usub (usub h cy) 1) cx)
  | c => c

/-- Horizontal mirror (`flip_x` branch of `generate_variants`). -/
def flipXT (s : SubRule) : SubRule :=
  { width := s.width, height := s.height
    origin_x := usub (usub s.width s.origin_x) 1
    origin_y := s.origin_y
    contents := buildGrid s.width s.height fun x y =>
      rwCopyX s.width (s.get (s.width - x - 1) y) }

/-- Vertical mirror (`flip_y` branch). -/
def flipYT (s : SubRule) : SubRule :=
  { width := s.width, height := s.height
    origin_x := s.origin_x
    origin_y := usub (usub s.height s.origin_y) 1
    contents := buildGrid s.width s.height fun x y =>
      rwCopyY s.height (s.get x (s.height - y - 1)) }

/-- 180° rotation (first `rotate` pass). -/
def rot180T (s : SubRule) : SubRule :=
  { width := s.width, height := s.height
    origin_x := usub (usub s.width s.origin_x) 1
    origin_y := usub (usub s.height s.origin_y) 1
    contents := buildGrid s.width s.height fun x y =>
      rwCopy180 s.width s.height (s.get (s.width - x - 1) (s.height - y - 1)) }

/-- 90° rotation (second `rotate` pass): width and height swap, the new
cell `(x, y)` reads `base.get(y, new.width - x - 1)`, and
`origin = (base.height - origin_y - 1, origin_x)`. -/
def rot90T (s : SubRule) : SubRule :=
  { width := s.height, height := s.width
    origin_x := usub (usub s.height s.origin_y) 1
    origin_y := s.origin_x
    contents := buildGrid s.height s.width fun x y =>
      rwCopy90 s.height (s.get y (s.height - x - 1)) }

/-- The `transform_variants` closure inside `generate_variants`: push
`f v` for every current variant `v` whose image is not already present
(the `contains` check is against the original list). -/
def transform_variants (variants : List SubRule) (f : SubRule → SubRule) :
    List SubRule :=
  variants ++ variants.filterMap fun v =>
    if f v ∈ variants then none else some (f v)

/-- The variants list produced by `Rule::generate_variants`:
start from `base`, then apply `flip_x`, `flip_y`, and the two `rotate`
passes (180° then 90°) in order. -/
def genVariants (r : Rule) : List SubRule :=
  let v0 := [r.base]
  let v1 := if r.flip_x then transform_variants v0 flipXT else v0
  let v2 := if r.flip_y then transform_variants v1 flipYT else v1
  if r.rotate then transform_variants (transform_variants v2 rot180T) rot90T
  else v2

/-- `Rule::generate_variants`. -/
def Rule.generate_variants (r : Rule) : Rule :=
  { r with variants := genVariants r }

/-- The sources of a `Copy` entry fit in a `usize` (true of every Rust
value by typing). -/
def copyBounded : RuleCellTo → Prop
  | .copy cx cy => cx < 18446744073709551616 ∧ cy < 18446744073709551616
  | _ => True

instance : DecidablePred copyBounded := fun t => by
  cases t <;> unfold copyBounded <;> infer_instance

/-- Well-formedness of a pattern, true of every pattern the Rust code
can build: the contents vector has the advertised length, the origin is
inside the rectangle, and dimensions and `Copy` sources are `usize`
values (the transforms would panic or wrap in Rust otherwise). -/
def SubRule.WF (s : SubRule) : Prop :=
  s.contents.length = s.width * s.height ∧
  s.origin_x < s.width ∧ s.origin_y < s.height ∧
  s.width < 18446744073709551616 ∧ s.height < 18446744073709551616 ∧
  ∀ e ∈ s.contents, copyBounded e.2

instance (s : SubRule) : Decidable s.WF := by
  unfold SubRule.WF
  infer_instance

theorem buildGrid_length (w h : Nat) (f : Nat → Nat → RuleCellFrom × RuleCellTo) :
    (buildGrid w h f).length = w * h := by
  simp [buildGrid]

theorem buildGrid_getD (w h : Nat) (f : Nat → Nat → RuleCellFrom × RuleCellTo)
    (x y : Nat) (hx : x < w) (hy : y < h) :
    (buildGrid w h f).getD (x + w * y) default = f x y := by
  unfold buildGrid
  have hi : x + w * y < w * h := by
    calc x + w * y < w + w * y := by omega
    _ = w * (y + 1) := by ring
    _ ≤ w * h := Nat.mul_le_mul_left w (by omega)
  have hlen : x + w * y < ((List.range (w * h)).map
      fun i => f (i % w) (i / w)).length := by
    rw [List.length_map, List.length_range]
    exact hi
  rw [List.getD_eq_getElem _ _ hlen]
  rw [List.getElem_map, List.getElem_range]
  congr 1
  · rw [Nat.add_mul_mod_self_left, Nat.mod_eq_of_lt hx]
  · rw [Nat.add_mul_div_left _ _ (by omega : 0 < w), Nat.div_eq_of_lt hx]
    omega

theorem buildGrid_congr (w h : Nat)
    (f g : Nat → Nat → RuleCellFrom × RuleCellTo)
    (hfg : ∀ x y, x < w → y < h → f x y = g x y) :
    buildGrid w h f = buildGrid w h g := by
  unfold buildGrid
  refine List.map_congr_left fun i hi => ?_
  rw [List.mem_range] at hi
  have hw : 0 < w := by
    rcases Nat.eq_zero_or_pos w with h0 | h0
    · rw [h0, Nat.zero_mul] at hi; omega
    · exact h0
  exact hfg _ _ (Nat.mod_lt i hw) (Nat.div_lt_of_lt_mul hi)

theorem buildGrid_get_self (s : SubRule)
    (hlen : s.contents.length = s.width * s.height) :
    buildGrid s.width s.height s.get = s.contents := by
  have hbl := buildGrid_length s.width s.height s.get
  refine List.ext_getElem (by rw [hbl, hlen]) fun i h1 h2 => ?_
  have hi : i < s.width * s.height := by rw [hbl] at h1; exact h1
  have hw : 0 < s.width := by
    rcases Nat.eq_zero_or_pos s.width with h0 | h0
    · rw [h0, Nat.zero_mul] at hi; omega
    · exact h0
  unfold buildGrid
  rw [List.getElem_map, List.getElem_range]
  unfold SubRule.get
  rw [if_neg]
  · rw [Nat.mod_add_div i s.width]
    exact List.getD_eq_getElem s.contents default
      (show i < s.contents.length by rw [hlen]; exact hi)
  · push_neg
    exact ⟨Nat.mod_lt i hw, Nat.div_lt_of_lt_mul hi⟩

theorem get_of_buildGrid (wd ht ox oy : Nat)
    (f : Nat → Nat → RuleCellFrom × RuleCellTo)
    (cont : List (RuleCellFrom × RuleCellTo)) (x y : Nat)
    (hx : x < wd) (hy : y < ht) (hc : cont = buildGrid wd ht f) :
    SubRule.get ⟨wd, ht, ox, oy, cont⟩ x y = f x y := by
  subst hc
  unfold SubRule.get
  dsimp only
  rw [if_neg (by push_neg; exact ⟨hx, hy⟩)]
  exact buildGrid_getD wd ht f x y hx hy

theorem flipXT_get (s : SubRule) (x y : Nat) (hx : x < s.width) (hy : y < s.height) :
    (flipXT s).get x y = rwCopyX s.width (s.get (s.width - x - 1) y) :=
  get_of_buildGrid s.width s.height _ _
    (fun a b => rwCopyX s.width (s.get (s.width - a - 1) b)) _ x y hx hy rfl

theorem flipYT_get (s : SubRule) (x y : Nat) (hx : x < s.width) (hy : y < s.height) :
    (flipYT s).get x y = rwCopyY s.height (s.get x (s.height - y - 1)) :=
  get_of_buildGrid s.width s.height _ _
    (fun a b => rwCopyY s.height (s.get a (s.height - b - 1))) _ x y hx hy rfl

theorem rot180T_get (s : SubRule) (x y : Nat) (hx : x < s.width) (hy : y < s.height) :
    (rot180T s).get x y =
      rwCopy180 s.width s.height (s.get (s.width - x - 1) (s.height - y - 1)) :=
  get_of_buildGrid s.width s.height _ _
    (fun a b => rwCopy180 s.width s.height (s.get (s.width - a - 1) (s.height - b - 1)))
    _ x y hx hy rfl

theorem rot90T_get (s : SubRule) (x y : Nat) (hx : x < s.height) (hy : y < s.width) :
    (rot90T s).get x y = rwCopy90 s.height (s.get y (s.height - x - 1)) :=
  get_of_buildGrid s.height s.width _ _
    (fun a b => rwCopy90 s.height (s.get b (s.height - a - 1))) _ x y hx hy rfl

theorem SubRule.ext_fields {a b : SubRule} (hw : a.width = b.width)
    (hh : a.height = b.height) (hox : a.origin_x = b.origin_x)
    (hoy : a.origin_y = b.origin_y) (hc : a.contents = b.contents) : a = b := by
  cases a; cases b; simp_all

theorem usub_lt_M (a b : Nat) : usub a b < 18446744073709551616 := by
  unfold usub castUsize
  have h1 := Int.emod_nonneg ((a : Int) - b) (show (U64 : Int) ≠ 0 by simp only [U64]; omega)
  have h2 := Int.emod_lt_of_pos ((a : Int) - b) (show (0 : Int) < U64 by simp only [U64]; omega)
  simp only [U64] at h1 h2 ⊢
  omega

theorem usub_usub_one (w ox : Nat) (h1 : ox < w) (h2 : w < 18446744073709551616) :
    usub (usub w ox) 1 = w - ox - 1 := by
  unfold usub castUsize
  simp only [U64]
  omega

theorem usub_invol (w c : Nat) (hc : c < 18446744073709551616) :
    usub (usub w (usub (usub w c) 1)) 1 = c := by
  unfold usub castUsize
  simp only [U64]
  omega

theorem idx_lt (w h x y : Nat) (hx : x < w) (hy : y < h) : x + w * y < w * h :=
  calc x + w * y < w + w * y := by omega
  _ = w * (y + 1) := by ring
  _ ≤ w * h := Nat.mul_le_mul_left w (by omega)

theorem SubRule.get_mem (s : SubRule)
    (hlen : s.contents.length = s.width * s.height)
    (x y : Nat) (hx : x < s.width) (hy : y < s.height) :
    s.get x y ∈ s.contents := by
  unfold SubRule.get
  rw [if_neg (by push_neg; exact ⟨hx, hy⟩)]
  have hi : x + s.width * y < s.contents.length := by
    rw [hlen]; exact idx_lt _ _ _ _ hx hy
  rw [List.getD_eq_getElem s.contents default hi]
  exact List.getElem_mem hi

theorem rwCopyX_invol (w : Nat) (e : RuleCellFrom × RuleCellTo)
    (he : copyBounded e.2) : rwCopyX w (rwCopyX w e) = e := by
  obtain ⟨f, t⟩ := e
  cases t <;> simp only [rwCopyX]
  unfold copyBounded at he
  rw [usub_invol _ _ he.1]

theorem rwCopyY_invol (h : Nat) (e : RuleCellFrom × RuleCellTo)
    (he : copyBounded e.2) : rwCopyY h (rwCopyY h e) = e := by
  obtain ⟨f, t⟩ := e
  cases t <;> simp only [rwCopyY]
  unfold copyBounded at he
  rw [usub_invol _ _ he.2]

theorem rwCopyX_rwCopyY_comm (w h : Nat) (e : RuleCellFrom × RuleCellTo) :
    rwCopyX w (rwCopyY h e) = rwCopyY h (rwCopyX w e) := by
  obtain ⟨f, t⟩ := e; cases t <;> rfl

theorem rwCopy180_eq (w h : Nat) (e : RuleCellFrom × RuleCellTo) :
    rwCopy180 w h e = rwCopyX w (rwCopyY h e) := by
  obtain ⟨f, t⟩ := e; cases t <;> rfl

theorem rwCopy90_rwCopy90 (w h : Nat) (e : RuleCellFrom × RuleCellTo) :
    rwCopy90 w (rwCopy90 h e) = rwCopy180 w h e := by
  obtain ⟨f, t⟩ := e; cases t <;> rfl

theorem rwCopyX_rwCopy90 (h : Nat) (e : RuleCellFrom × RuleCellTo) :
    rwCopyX h (rwCopy90 h e) = rwCopy90 h (rwCopyY h e) := by
  obtain ⟨f, t⟩ := e; cases t <;> rfl

theorem rwCopyY_rwCopy90 (w h : Nat) (e : RuleCellFrom × RuleCellTo) :
    rwCopyY w (rwCopy90 h e) = rwCopy90 h (rwCopyX w e) := by
  obtain ⟨f, t⟩ := e; cases t <;> rfl

theorem flipXT_flipXT (s : SubRule) (hs : s.WF) : flipXT (flipXT s) = s := by
  obtain ⟨hlen, hox, hoy, hwM, hhM, hcb⟩ := hs
  refine SubRule.ext_fields rfl rfl ?_ rfl ?_
  · show usub (usub s.width (usub (usub s.width s.origin_x) 1)) 1 = s.origin_x
    rw [usub_usub_one _ _ hox hwM, usub_usub_one _ _ (by omega) hwM]
    omega
  · show buildGrid s.width s.height
      (fun x y => rwCopyX s.width ((flipXT s).get (s.width - x - 1) y)) = s.contents
    rw [← buildGrid_get_self s hlen]
    refine buildGrid_congr _ _ _ _ fun x y hx hy => ?_
    rw [flipXT_get s _ _ (by omega) hy,
      show s.width - (s.width - x - 1) - 1 = x by omega]
    exact rwCopyX_invol _ _ (hcb _ (s.get_mem hlen x y hx hy))

theorem flipYT_flipYT (s : SubRule) (hs : s.WF) : flipYT (flipYT s) = s := by
  obtain ⟨hlen, hox, hoy, hwM, hhM, hcb⟩ := hs
  refine SubRule.ext_fields rfl rfl rfl ?_ ?_
  · show usub (usub s.height (usub (usub s.height s.origin_y) 1)) 1 = s.origin_y
    rw [usub_usub_one _ _ hoy hhM, usub_usub_one _ _ (by omega) hhM]
    omega
  · show buildGrid s.width s.height
      (fun x y => rwCopyY s.height ((flipYT s).get x (s.height - y - 1))) = s.contents
    rw [← buildGrid_get_self s hlen]
    refine buildGrid_congr _ _ _ _ fun x y hx hy => ?_
    rw [flipYT_get s _ _ hx (by omega),
      show s.height - (s.height - y - 1) - 1 = y by omega]
    exact rwCopyY_invol _ _ (hcb _ (s.get_mem hlen x y hx hy))

theorem flipYT_flipXT (s : SubRule) : flipYT (flipXT s) = flipXT (flipYT s) := by
  refine SubRule.ext_fields rfl rfl rfl rfl ?_
  show buildGrid s.width s.height
      (fun x y => rwCopyY s.height ((flipXT s).get x (s.height - y - 1)))
    = buildGrid s.width s.height
      (fun x y => rwCopyX s.width ((flipYT s).get (s.width - x - 1) y))
  refine buildGrid_congr _ _ _ _ fun x y hx hy => ?_
  rw [flipXT_get s _ _ hx (by omega), flipYT_get s _ _ (by omega) hy]
  exact (rwCopyX_rwCopyY_comm _ _ _).symm

theorem rot180T_eq (s : SubRule) : rot180T s = flipXT (flipYT s) := by
  refine SubRule.ext_fields rfl rfl rfl rfl ?_
  show buildGrid s.width s.height
      (fun x y => rwCopy180 s.width s.height (s.get (s.width - x - 1) (s.height - y - 1)))
    = buildGrid s.width s.height
      (fun x y => rwCopyX s.width ((flipYT s).get (s.width - x - 1) y))
  refine buildGrid_congr _ _ _ _ fun x y hx hy => ?_
  rw [flipYT_get s _ _ (by omega) hy]
  exact rwCopy180_eq _ _ _

theorem rot90T_rot90T (s : SubRule) : rot90T (rot90T s) = rot180T s := by
  refine SubRule.ext_fields rfl rfl rfl rfl ?_
  show buildGrid s.width s.height
      (fun x y => rwCopy90 s.width ((rot90T s).get y (s.width - x - 1)))
    = buildGrid s.width s.height
      (fun x y => rwCopy180 s.width s.height (s.get (s.width - x - 1) (s.height - y - 1)))
  refine buildGrid_congr _ _ _ _ fun x y hx hy => ?_
  rw [rot90T_get s _ _ hy (by omega), rwCopy90_rwCopy90]

theorem flipXT_rot90T (s : SubRule) : flipXT (rot90T s) = rot90T (flipYT s) := by
  refine SubRule.ext_fields rfl rfl rfl rfl ?_
  show buildGrid s.height s.width
      (fun x y => rwCopyX s.height ((rot90T s).get (s.height - x - 1) y))
    = buildGrid s.height s.width
      (fun x y => rwCopy90 s.height ((flipYT s).get y (s.height - x - 1)))
  refine buildGrid_congr _ _ _ _ fun x y hx hy => ?_
  rw [rot90T_get s _ _ (by omega) hy, flipYT_get s _ _ hy (by omega),
    show s.height - (s.height - x - 1) - 1 = x by omega]
  exact rwCopyX_rwCopy90 _ _

theorem flipYT_rot90T (s : SubRule) : flipYT (rot90T s) = rot90T (flipXT s) := by
  refine SubRule.ext_fields rfl rfl rfl rfl ?_
  show buildGrid s.height s.width
      (fun x y => rwCopyY s.width ((rot90T s).get x (s.width - y - 1)))
    = buildGrid s.height s.width
      (fun x y => rwCopy90 s.height ((flipXT s).get y (s.height - x - 1)))
  refine buildGrid_congr _ _ _ _ fun x y hx hy => ?_
  rw [rot90T_get s _ _ hx (by omega), flipXT_get s _ _ (by omega) (by omega)]
  exact rwCopyY_rwCopy90 _ _ _

theorem mem_buildGrid (w h : Nat) (f : Nat → Nat → RuleCellFrom × RuleCellTo)
    (e : RuleCellFrom × RuleCellTo) (he : e ∈ buildGrid w h f) :
    ∃ x y, x < w ∧ y < h ∧ e = f x y := by
  unfold buildGrid at he
  rw [List.mem_map] at he
  obtain ⟨i, hi, rfl⟩ := he
  rw [List.mem_range] at hi
  have hw : 0 < w := by
    rcases Nat.eq_zero_or_pos w with h0 | h0
    · rw [h0, Nat.zero_mul] at hi; omega
    · exact h0
  exact ⟨i % w, i / w, Nat.mod_lt i hw, Nat.div_lt_of_lt_mul hi, rfl⟩

theorem copyBounded_rwCopyX (w : Nat) (e : RuleCellFrom × RuleCellTo)
    (he : copyBounded e.2) : copyBounded (rwCopyX w e).2 := by
  obtain ⟨f, t⟩ := e
  cases t <;> simp only [rwCopyX, copyBounded] at he ⊢
  exact ⟨usub_lt_M _ _, he.2⟩

theorem copyBounded_rwCopyY (h : Nat) (e : RuleCellFrom × RuleCellTo)
    (he : copyBounded e.2) : copyBounded (rwCopyY h e).2 := by
  obtain ⟨f, t⟩ := e
  cases t <;> simp only [rwCopyY, copyBounded] at he ⊢
  exact ⟨he.1, usub_lt_M _ _⟩

theorem copyBounded_rwCopy180 (w h : Nat) (e : RuleCellFrom × RuleCellTo)
    (he : copyBounded e.2) : copyBounded (rwCopy180 w h e).2 := by
  obtain ⟨f, t⟩ := e
  cases t <;> simp only [rwCopy180, copyBounded] at he ⊢
  exact ⟨usub_lt_M _ _, usub_lt_M _ _⟩

theorem copyBounded_rwCopy90 (h : Nat) (e : RuleCellFrom × RuleCellTo)
    (he : copyBounded e.2) : copyBounded (rwCopy90 h e).2 := by
  obtain ⟨f, t⟩ := e
  cases t <;> simp only [rwCopy90, copyBounded] at he ⊢
  exact ⟨usub_lt_M _ _, he.1⟩

theorem WF_flipXT (s : SubRule) (hs : s.WF) : (flipXT s).WF := by
  obtain ⟨hlen, hox, hoy, hwM, hhM, hcb⟩ := hs
  refine ⟨?_, ?_, hoy, hwM, hhM, ?_⟩
  · show (buildGrid s.width s.height
      (fun x y => rwCopyX s.width (s.get (s.width - x - 1) y))).length
      = s.width * s.height
    exact buildGrid_length _ _ _
  · show usub (usub s.width s.origin_x) 1 < s.width
    rw [usub_usub_one _ _ hox hwM]; omega
  · intro e he
    have he2 : e ∈ buildGrid s.width s.height
        (fun x y => rwCopyX s.width (s.get (s.width - x - 1) y)) := he
    obtain ⟨x, y, hx, hy, rfl⟩ := mem_buildGrid _ _ _ _ he2
    exact copyBounded_rwCopyX _ _ (hcb _ (s.get_mem hlen _ _ (by omega) hy))

theorem WF_flipYT (s : SubRule) (hs : s.WF) : (flipYT s).WF := by
  obtain ⟨hlen, hox, hoy, hwM, hhM, hcb⟩ := hs
  refine ⟨?_, hox, ?_, hwM, hhM, ?_⟩
  · show (buildGrid s.width s.height
      (fun x y => rwCopyY s.height (s.get x (s.height - y - 1)))).length
      = s.width * s.height
    exact buildGrid_length _ _ _
  · show usub (usub s.height s.origin_y) 1 < s.height
    rw [usub_usub_one _ _ hoy hhM]; omega
  · intro e he
    have he2 : e ∈ buildGrid s.width s.height
        (fun x y => rwCopyY s.height (s.get x (s.height - y - 1))) := he
    obtain ⟨x, y, hx, hy, rfl⟩ := mem_buildGrid _ _ _ _ he2
    exact copyBounded_rwCopyY _ _ (hcb _ (s.get_mem hlen _ _ hx (by omega)))

theorem WF_rot180T (s : SubRule) (hs : s.WF) : (rot180T s).WF := by
  rw [rot180T_eq]
  exact WF_flipXT _ (WF_flipYT _ hs)

theorem WF_rot90T (s : SubRule) (hs : s.WF) : (rot90T s).WF := by
  obtain ⟨hlen, hox, hoy, hwM, hhM, hcb⟩ := hs
  refine ⟨?_, ?_, hox, hhM, hwM, ?_⟩
  · show (buildGrid s.height s.width
      (fun x y => rwCopy90 s.height (s.get y (s.height - x - 1)))).length
      = s.height * s.width
    exact buildGrid_length _ _ _
  · show usub (usub s.height s.origin_y) 1 < s.height
    rw [usub_usub_one _ _ hoy hhM]; omega
  · intro e he
    have he2 : e ∈ buildGrid s.height s.width
        (fun x y => rwCopy90 s.height (s.get y (s.height - x - 1))) := he
    obtain ⟨x, y, hx, hy, rfl⟩ := mem_buildGrid _ _ _ _ he2
    exact copyBounded_rwCopy90 _ _ (hcb _ (s.get_mem hlen _ _ hy (by omega)))

/-! Derived identities used for the closure arguments. -/

theorem rot180T_rot180T (s : SubRule) (hs : s.WF) : rot180T (rot180T s) = s := by
  rw [rot180T_eq, rot180T_eq, flipYT_flipXT, flipXT_flipXT _ (WF_flipYT _ (WF_flipYT _ hs)),
    flipYT_flipYT _ hs]

theorem flipXT_rot180T (s : SubRule) (hs : s.WF) : flipXT (rot180T s) = flipYT s := by
  rw [rot180T_eq, flipXT_flipXT _ (WF_flipYT _ hs)]

theorem rot180T_flipXT (s : SubRule) (hs : s.WF) : rot180T (flipXT s) = flipYT s := by
  rw [rot180T_eq, flipYT_flipXT, flipXT_flipXT _ (WF_flipYT _ hs)]

theorem flipYT_rot180T (s : SubRule) (hs : s.WF) : flipYT (rot180T s) = flipXT s := by
  rw [rot180T_eq, ← flipYT_flipXT, flipYT_flipYT _ (WF_flipXT _ hs)]

theorem rot180T_flipYT (s : SubRule) (hs : s.WF) : rot180T (flipYT s) = flipXT s := by
  rw [rot180T_eq, flipYT_flipYT _ hs]

theorem rot180T_rot90T (s : SubRule) : rot180T (rot90T s) = rot90T (rot180T s) := by
  rw [rot180T_eq, rot180T_eq, flipYT_rot90T, flipXT_rot90T, flipYT_flipXT]

theorem rot90T_inj (u v : SubRule) (hu : u.WF) (hv : v.WF)
    (h : rot90T u = rot90T v) : u = v := by
  have h2 : rot180T u = rot180T v := by
    rw [← rot90T_rot90T, ← rot90T_rot90T, h]
  have h3 := congrArg rot180T h2
  rwa [rot180T_rot180T _ hu, rot180T_rot180T _ hv] at h3

theorem rot180T_inj (u v : SubRule) (hu : u.WF) (hv : v.WF)
    (h : rot180T u = rot180T v) : u = v := by
  have h3 := congrArg rot180T h
  rwa [rot180T_rot180T _ hu, rot180T_rot180T _ hv] at h3

theorem flipXT_inj (u v : SubRule) (hu : u.WF) (hv : v.WF)
    (h : flipXT u = flipXT v) : u = v := by
  have h3 := congrArg flipXT h
  rwa [flipXT_flipXT _ hu, flipXT_flipXT _ hv] at h3

theorem flipYT_inj (u v : SubRule) (hu : u.WF) (hv : v.WF)
    (h : flipYT u = flipYT v) : u = v := by
  have h3 := congrArg flipYT h
  rwa [flipYT_flipYT _ hu, flipYT_flipYT _ hv] at h3

theorem mem_transform_variants (l : List SubRule) (f : SubRule → SubRule)
    (v : SubRule) :
    v ∈ transform_variants l f ↔ v ∈ l ∨ ∃ u ∈ l, v = f u := by
  unfold transform_variants
  rw [List.mem_append, List.mem_filterMap]
  constructor
  · rintro (h | ⟨u, hu, hg⟩)
    · exact Or.inl h
    · right
      refine ⟨u, hu, ?_⟩
      by_cases hin : f u ∈ l
      · rw [if_pos hin] at hg; exact absurd hg (by simp)
      · rw [if_neg hin] at hg; exact (Option.some_inj.mp hg).symm
  · rintro (h | ⟨u, hu, rfl⟩)
    · exact Or.inl h
    · by_cases hin : f u ∈ l
      · exact Or.inl hin
      · exact Or.inr ⟨u, hu, by rw [if_neg hin]⟩

theorem transform_variants_eq_self (l : List SubRule) (f : SubRule → SubRule)
    (h : ∀ v ∈ l, f v ∈ l) : transform_variants l f = l := by
  unfold transform_variants
  rw [List.filterMap_eq_nil_iff.mpr fun a ha => by rw [if_pos (h a ha)],
    List.append_nil]

theorem transform_variants_length (l : List SubRule) (f : SubRule → SubRule) :
    (transform_variants l f).length ≤ 2 * l.length := by
  unfold transform_variants
  rw [List.length_append]
  have := List.length_filterMap_le
    (fun v => if f v ∈ l then none else some (f v)) l
  omega

theorem subset_transform_variants (l : List SubRule) (f : SubRule → SubRule) :
    ∀ v ∈ l, v ∈ transform_variants l f := fun v hv =>
  (mem_transform_variants l f v).mpr (Or.inl hv)

theorem nodup_filterMap_mem {α β : Type} [DecidableEq β] (l : List α)
    (g : α → Option β) (hnd : l.Nodup)
    (hinj : ∀ u ∈ l, ∀ v ∈ l, ∀ b, g u = some b → g v = some b → u = v) :
    (l.filterMap g).Nodup := by
  induction l with
  | nil => simp
  | cons x xs ih =>
    rw [List.filterMap_cons]
    rw [List.nodup_cons] at hnd
    match hx : g x with
    | Option.none =>
      exact ih hnd.2 fun u hu v hv b h1 h2 =>
        hinj u (List.mem_cons_of_mem _ hu) v (List.mem_cons_of_mem _ hv) b h1 h2
    | Option.some b =>
      rw [List.nodup_cons]
      refine ⟨?_, ih hnd.2 fun u hu v hv b h1 h2 =>
        hinj u (List.mem_cons_of_mem _ hu) v (List.mem_cons_of_mem _ hv) b h1 h2⟩
      intro hb
      rw [List.mem_filterMap] at hb
      obtain ⟨v, hv, hgv⟩ := hb
      have := hinj x (List.mem_cons_self _ _) v (List.mem_cons_of_mem _ hv) b hx hgv
      exact hnd.1 (this ▸ hv)

theorem transform_variants_nodup (l : List SubRule) (f : SubRule → SubRule)
    (hnd : l.Nodup) (hinj : ∀ u ∈ l, ∀ v ∈ l, f u = f v → u = v) :
    (transform_variants l f).Nodup := by
  unfold transform_variants
  rw [List.nodup_append]
  refine ⟨hnd, ?_, ?_⟩
  · refine nodup_filterMap_mem l _ hnd fun u hu v hv b h1 h2 => ?_
    by_cases h1' : f u ∈ l
    · rw [if_pos h1'] at h1; exact absurd h1 (by simp)
    · by_cases h2' : f v ∈ l
      · rw [if_pos h2'] at h2; exact absurd h2 (by simp)
      · rw [if_neg h1'] at h1
        rw [if_neg h2'] at h2
        exact hinj u hu v hv (by
          rw [Option.some_inj.mp h1, Option.some_inj.mp h2])
  · intro a ha hb
    rw [List.mem_filterMap] at hb
    obtain ⟨v, hv, hgv⟩ := hb
    by_cases hin : f v ∈ l
    · rw [if_pos hin] at hgv; exact absurd hgv (by simp)
    · rw [if_neg hin] at hgv
      exact hin (Option.some_inj.mp hgv ▸ ha)

theorem tv_WF_all (l : List SubRule) (f : SubRule → SubRule)
    (hl : ∀ v ∈ l, v.WF) (hf : ∀ v, v.WF → (f v).WF) :
    ∀ v ∈ transform_variants l f, v.WF := by
  intro v hv
  rw [mem_transform_variants] at hv
  rcases hv with hv | ⟨u, hu, rfl⟩
  · exact hl v hv
  · exact hf u (hl u hu)

theorem tv_nodup_of_inj (l : List SubRule) (f : SubRule → SubRule)
    (hl : ∀ v ∈ l, v.WF) (hnd : l.Nodup)
    (hinj : ∀ u v : SubRule, u.WF → v.WF → f u = f v → u = v) :
    (transform_variants l f).Nodup :=
  transform_variants_nodup l f hnd fun u hu v hv h =>
    hinj u v (hl u hu) (hl v hv) h

theorem c9_case_TTF (b : SubRule) (hwf : b.WF) :
    b ∈ transform_variants (transform_variants [b] flipXT) flipYT ∧
    (transform_variants (transform_variants [b] flipXT) flipYT).Nodup ∧
    (∀ v ∈ transform_variants (transform_variants [b] flipXT) flipYT,
      flipXT v ∈ transform_variants (transform_variants [b] flipXT) flipYT) ∧
    (∀ v ∈ transform_variants (transform_variants [b] flipXT) flipYT,
      flipYT v ∈ transform_variants (transform_variants [b] flipXT) flipYT) := by
  have hchar : ∀ v, v ∈ transform_variants (transform_variants [b] flipXT) flipYT ↔
      ((v = b ∨ v = flipXT b) ∨ v = flipYT b ∨ v = flipYT (flipXT b)) := fun v => by
    simp only [mem_transform_variants, List.mem_singleton, or_and_right, exists_or,
      exists_eq_left]
  have hWF1 : ∀ v ∈ [b], v.WF := by simpa
  have hWF2 : ∀ v ∈ transform_variants [b] flipXT, v.WF :=
    tv_WF_all _ _ hWF1 WF_flipXT
  refine ⟨?_, ?_, ?_, ?_⟩
  · rw [hchar]; simp
  · exact tv_nodup_of_inj _ _ hWF2
      (tv_nodup_of_inj _ _ hWF1 (List.nodup_singleton b) flipXT_inj) flipYT_inj
  · intro v hv
    rw [hchar] at hv
    rw [hchar]
    rcases hv with (rfl | rfl) | rfl | rfl
    · simp
    · rw [flipXT_flipXT _ hwf]; simp
    · rw [← flipYT_flipXT]; simp
    · rw [flipYT_flipXT, flipXT_flipXT _ (WF_flipYT _ hwf)]; simp
  · intro v hv
    rw [hchar] at hv
    rw [hchar]
    rcases hv with (rfl | rfl) | rfl | rfl
    · simp
    · simp
    · rw [flipYT_flipYT _ hwf]; simp
    · rw [flipYT_flipYT _ (WF_flipXT _ hwf)]; simp

theorem c9_case_TFF (b : SubRule) (hwf : b.WF) :
    b ∈ transform_variants [b] flipXT ∧
    (transform_variants [b] flipXT).Nodup ∧
    (∀ v ∈ transform_variants [b] flipXT, flipXT v ∈ transform_variants [b] flipXT) := by
  have hchar : ∀ v, v ∈ transform_variants [b] flipXT ↔ (v = b ∨ v = flipXT b) :=
    fun v => by
      simp only [mem_transform_variants, List.mem_singleton, exists_eq_left]
  have hWF1 : ∀ v ∈ [b], v.WF := by simpa
  refine ⟨?_, ?_, ?_⟩
  · rw [hchar]; simp
  · exact tv_nodup_of_inj _ _ hWF1 (List.nodup_singleton b) flipXT_inj
  · intro v hv
    rw [hchar] at hv
    rw [hchar]
    rcases hv with rfl | rfl
    · simp
    · rw [flipXT_flipXT _ hwf]; simp

theorem c9_case_FTF (b : SubRule) (hwf : b.WF) :
    b ∈ transform_variants [b] flipYT ∧
    (transform_variants [b] flipYT).Nodup ∧
    (∀ v ∈ transform_variants [b] flipYT, flipYT v ∈ transform_variants [b] flipYT) := by
  have hchar : ∀ v, v ∈ transform_variants [b] flipYT ↔ (v = b ∨ v = flipYT b) :=
    fun v => by
      simp only [mem_transform_variants, List.mem_singleton, exists_eq_left]
  have hWF1 : ∀ v ∈ [b], v.WF := by simpa
  refine ⟨?_, ?_, ?_⟩
  · rw [hchar]; simp
  · exact tv_nodup_of_inj _ _ hWF1 (List.nodup_singleton b) flipYT_inj
  · intro v hv
    rw [hchar] at hv
    rw [hchar]
    rcases hv with rfl | rfl
    · simp
    · rw [flipYT_flipYT _ hwf]; simp

theorem c9_case_FFT (b : SubRule) (hwf : b.WF) :
    b ∈ transform_variants (transform_variants [b] rot180T) rot90T ∧
    (transform_variants (transform_variants [b] rot180T) rot90T).Nodup ∧
    (∀ v ∈ transform_variants (transform_variants [b] rot180T) rot90T,
      rot180T v ∈ transform_variants (transform_variants [b] rot180T) rot90T ∧
      rot90T v ∈ transform_variants (transform_variants [b] rot180T) rot90T) := by
  have hchar : ∀ v, v ∈ transform_variants (transform_variants [b] rot180T) rot90T ↔
      ((v = b ∨ v = rot180T b) ∨ v = rot90T b ∨ v = rot90T (rot180T b)) := fun v => by
    simp only [mem_transform_variants, List.mem_singleton, or_and_right, exists_or,
      exists_eq_left]
  have hWF1 : ∀ v ∈ [b], v.WF := by simpa
  have hWF2 : ∀ v ∈ transform_variants [b] rot180T, v.WF :=
    tv_WF_all _ _ hWF1 WF_rot180T
  refine ⟨?_, ?_, ?_⟩
  · rw [hchar]; simp
  · exact tv_nodup_of_inj _ _ hWF2
      (tv_nodup_of_inj _ _ hWF1 (List.nodup_singleton b) rot180T_inj) rot90T_inj
  · intro v hv
    rw [hchar] at hv
    constructor
    · rw [hchar]
      rcases hv with (rfl | rfl) | rfl | rfl
      · simp
      · rw [rot180T_rot180T _ hwf]; simp
      · rw [rot180T_rot90T]; simp
      · rw [rot180T_rot90T, rot180T_rot180T _ hwf]; simp
    · rw [hchar]
      rcases hv with (rfl | rfl) | rfl | rfl
      · simp
      · simp
      · rw [rot90T_rot90T]; simp
      · rw [rot90T_rot90T, rot180T_rot180T _ hwf]; simp

theorem c9_case_TFT (b : SubRule) (hwf : b.WF) :
    b ∈ transform_variants (transform_variants (transform_variants [b] flipXT)
      rot180T) rot90T ∧
    (transform_variants (transform_variants (transform_variants [b] flipXT)
      rot180T) rot90T).Nodup ∧
    (∀ v ∈ transform_variants (transform_variants (transform_variants [b] flipXT)
        rot180T) rot90T,
      flipXT v ∈ transform_variants (transform_variants (transform_variants [b]
        flipXT) rot180T) rot90T) ∧
    (∀ v ∈ transform_variants (transform_variants (transform_variants [b] flipXT)
        rot180T) rot90T,
      rot180T v ∈ transform_variants (transform_variants (transform_variants [b]
        flipXT) rot180T) rot90T ∧
      rot90T v ∈ transform_variants (transform_variants (transform_variants [b]
        flipXT) rot180T) rot90T) := by
  have hchar : ∀ v, v ∈ transform_variants (transform_variants (transform_variants
      [b] flipXT) rot180T) rot90T ↔
      (((v = b ∨ v = flipXT b) ∨ v = rot180T b ∨ v = rot180T (flipXT b)) ∨
       (v = rot90T b ∨ v = rot90T (flipXT b)) ∨ v = rot90T (rot180T b) ∨
         v = rot90T (rot180T (flipXT b))) := fun v => by
    simp only [mem_transform_variants, List.mem_singleton, or_and_right, exists_or,
      exists_eq_left]
  have hWF1 : ∀ v ∈ [b], v.WF := by simpa
  have hWF2 : ∀ v ∈ transform_variants [b] flipXT, v.WF :=
    tv_WF_all _ _ hWF1 WF_flipXT
  have hWF3 : ∀ v ∈ transform_variants (transform_variants [b] flipXT) rot180T, v.WF :=
    tv_WF_all _ _ hWF2 WF_rot180T
  have e1 : flipXT (flipXT b) = b := flipXT_flipXT b hwf
  have e2 : flipXT (rot180T b) = flipYT b := flipXT_rot180T b hwf
  have e3 : rot180T (flipXT b) = flipYT b := rot180T_flipXT b hwf
  have e4 : rot180T (rot180T b) = b := rot180T_rot180T b hwf
  have e5 : flipYT (rot180T b) = flipXT b := flipYT_rot180T b hwf
  have e6 : flipYT (flipYT b) = b := flipYT_flipYT b hwf
  have e9 : flipXT (flipYT b) = rot180T b := (rot180T_eq b).symm
  have e10 : rot180T (rot180T (flipXT b)) = flipXT b :=
    rot180T_rot180T _ (WF_flipXT _ hwf)
  refine ⟨?_, ?_, ?_, ?_⟩
  · rw [hchar]; simp
  · exact tv_nodup_of_inj _ _ hWF3
      (tv_nodup_of_inj _ _ hWF2
        (tv_nodup_of_inj _ _ hWF1 (List.nodup_singleton b) flipXT_inj)
        rot180T_inj) rot90T_inj
  · intro v hv
    rw [hchar] at hv
    rw [hchar]
    rcases hv with ((rfl | rfl) | rfl | rfl) | (rfl | rfl) | rfl | rfl
    · simp
    · rw [e1]; simp
    · rw [e2, ← e3]; simp
    · rw [e3, e9]; simp
    · rw [flipXT_rot90T, ← e3]; simp
    · rw [flipXT_rot90T, flipYT_flipXT, e9]; simp
    · rw [flipXT_rot90T, e5]; simp
    · rw [flipXT_rot90T, e3, e6]; simp
  · intro v hv
    rw [hchar] at hv
    constructor
    · rw [hchar]
      rcases hv with ((rfl | rfl) | rfl | rfl) | (rfl | rfl) | rfl | rfl
      · simp
      · simp
      · rw [e4]; simp
      · rw [e10]; simp
      · rw [rot180T_rot90T]; simp
      · rw [rot180T_rot90T]; simp
      · rw [rot180T_rot90T, e4]; simp
      · rw [rot180T_rot90T, e10]; simp
    · rw [hchar]
      rcases hv with ((rfl | rfl) | rfl | rfl) | (rfl | rfl) | rfl | rfl
      · simp
      · simp
      · simp
      · simp
      · rw [rot90T_rot90T]; simp
      · rw [rot90T_rot90T]; simp
      · rw [rot90T_rot90T, e4]; simp
      · rw [rot90T_rot90T, e10]; simp

theorem c9_case_FTT (b : SubRule) (hwf : b.WF) :
    b ∈ transform_variants (transform_variants (transform_variants [b] flipYT)
      rot180T) rot90T ∧
    (transform_variants (transform_variants (transform_variants [b] flipYT)
      rot180T) rot90T).Nodup ∧
    (∀ v ∈ transform_variants (transform_variants (transform_variants [b] flipYT)
        rot180T) rot90T,
      flipYT v ∈ transform_variants (transform_variants (transform_variants [b]
        flipYT) rot180T) rot90T) ∧
    (∀ v ∈ transform_variants (transform_variants (transform_variants [b] flipYT)
        rot180T) rot90T,
      rot180T v ∈ transform_variants (transform_variants (transform_variants [b]
        flipYT) rot180T) rot90T ∧
      rot90T v ∈ transform_variants (transform_variants (transform_variants [b]
        flipYT) rot180T) rot90T) := by
  have hchar : ∀ v, v ∈ transform_variants (transform_variants (transform_variants
      [b] flipYT) rot180T) rot90T ↔
      (((v = b ∨ v = flipYT b) ∨ v = rot180T b ∨ v = rot180T (flipYT b)) ∨
       (v = rot90T b ∨ v = rot90T (flipYT b)) ∨ v = rot90T (rot180T b) ∨
         v = rot90T (rot180T (flipYT b))) := fun v => by
    simp only [mem_transform_variants, List.mem_singleton, or_and_right, exists_or,
      exists_eq_left]
  have hWF1 : ∀ v ∈ [b], v.WF := by simpa
  have hWF2 : ∀ v ∈ transform_variants [b] flipYT, v.WF :=
    tv_WF_all _ _ hWF1 WF_flipYT
  have hWF3 : ∀ v ∈ transform_variants (transform_variants [b] flipYT) rot180T, v.WF :=
    tv_WF_all _ _ hWF2 WF_rot180T
  have f1 : flipYT (flipYT b) = b := flipYT_flipYT b hwf
  have f2 : flipYT (rot180T b) = flipXT b := flipYT_rot180T b hwf
  have f3 : rot180T (flipYT b) = flipXT b := rot180T_flipYT b hwf
  have f4 : rot180T (rot180T b) = b := rot180T_rot180T b hwf
  have f5 : flipXT (rot180T b) = flipYT b := flipXT_rot180T b hwf
  have f6 : flipXT (flipXT b) = b := flipXT_flipXT b hwf
  have f7 : flipXT (flipYT b) = rot180T b := (rot180T_eq b).symm
  have f10 : rot180T (rot180T (flipYT b)) = flipYT b :=
    rot180T_rot180T _ (WF_flipYT _ hwf)
  refine ⟨?_, ?_, ?_, ?_⟩
  · rw [hchar]; simp
  · exact tv_nodup_of_inj _ _ hWF3
      (tv_nodup_of_inj _ _ hWF2
        (tv_nodup_of_inj _ _ hWF1 (List.nodup_singleton b) flipYT_inj)
        rot180T_inj) rot90T_inj
  · intro v hv
    rw [hchar] at hv
    rw [hchar]
    rcases hv with ((rfl | rfl) | rfl | rfl) | (rfl | rfl) | rfl | rfl
    · simp
    · rw [f1]; simp
    · rw [f2, ← f3]; simp
    · rw [f3, flipYT_flipXT, f7]; simp
    · rw [flipYT_rot90T, ← f3]; simp
    · rw [flipYT_rot90T, f7]; simp
    · rw [flipYT_rot90T, f5]; simp
    · rw [flipYT_rot90T, f3, f6]; simp
  · intro v hv
    rw [hchar] at hv
    constructor
    · rw [hchar]
      rcases hv with ((rfl | rfl) | rfl | rfl) | (rfl | rfl) | rfl | rfl
      · simp
      · simp
      · rw [f4]; simp
      · rw [f10]; simp
      · rw [rot180T_rot90T]; simp
      · rw [rot180T_rot90T]; simp
      · rw [rot180T_rot90T, f4]; simp
      · rw [rot180T_rot90T, f10]; simp
    · rw [hchar]
      rcases hv with ((rfl | rfl) | rfl | rfl) | (rfl | rfl) | rfl | rfl
      · simp
      · simp
      · simp
      · simp
      · rw [rot90T_rot90T]; simp
      · rw [rot90T_rot90T]; simp
      · rw [rot90T_rot90T, f4]; simp
      · rw [rot90T_rot90T, f10]; simp

theorem c9_case_TTT (b : SubRule) (hwf : b.WF) :
    transform_variants (transform_variants (transform_variants (transform_variants
        [b] flipXT) flipYT) rot180T) rot90T =
      transform_variants (transform_variants (transform_variants [b] flipXT)
        flipYT) rot90T ∧
    b ∈ transform_variants (transform_variants (transform_variants [b] flipXT)
      flipYT) rot90T ∧
    (transform_variants (transform_variants (transform_variants [b] flipXT)
      flipYT) rot90T).Nodup ∧
    (∀ v ∈ transform_variants (transform_variants (transform_variants [b] flipXT)
        flipYT) rot90T,
      flipXT v ∈ transform_variants (transform_variants (transform_variants [b]
        flipXT) flipYT) rot90T) ∧
    (∀ v ∈ transform_variants (transform_variants (transform_variants [b] flipXT)
        flipYT) rot90T,
      flipYT v ∈ transform_variants (transform_variants (transform_variants [b]
        flipXT) flipYT) rot90T) ∧
    (∀ v ∈ transform_variants (transform_variants (transform_variants [b] flipXT)
        flipYT) rot90T,
      rot180T v ∈ transform_variants (transform_variants (transform_variants [b]
        flipXT) flipYT) rot90T ∧
      rot90T v ∈ transform_variants (transform_variants (transform_variants [b]
        flipXT) flipYT) rot90T) ∧
    (transform_variants (transform_variants (transform_variants [b] flipXT)
      flipYT) rot90T).length ≤ 8 := by
  have hchar2 : ∀ v, v ∈ transform_variants (transform_variants [b] flipXT) flipYT ↔
      ((v = b ∨ v = flipXT b) ∨ v = flipYT b ∨ v = flipYT (flipXT b)) := fun v => by
    simp only [mem_transform_variants, List.mem_singleton, or_and_right, exists_or,
      exists_eq_left]
  have g1 : flipXT (flipXT b) = b := flipXT_flipXT b hwf
  have g2 : flipYT (flipYT b) = b := flipYT_flipYT b hwf
  have g3 : flipYT (flipXT b) = flipXT (flipYT b) := flipYT_flipXT b
  have g9 : rot180T (flipXT b) = flipYT b := rot180T_flipXT b hwf
  have g10 : rot180T (flipYT b) = flipXT b := rot180T_flipYT b hwf
  have g11 : flipYT (flipYT (flipXT b)) = flipXT b :=
    flipYT_flipYT _ (WF_flipXT _ hwf)
  have g12 : flipXT (flipXT (flipYT b)) = flipYT b :=
    flipXT_flipXT _ (WF_flipYT _ hwf)
  have hcollapse : transform_variants (transform_variants (transform_variants
      [b] flipXT) flipYT) rot180T =
      transform_variants (transform_variants [b] flipXT) flipYT := by
    refine transform_variants_eq_self _ _ fun v hv => ?_
    rw [hchar2] at hv
    rw [hchar2]
    rcases hv with (rfl | rfl) | rfl | rfl
    · rw [rot180T_eq, ← flipYT_flipXT]; simp
    · rw [g9]; simp
    · rw [g10]; simp
    · rw [g3, rot180T_flipXT _ (WF_flipYT _ hwf), g2]; simp
  have hchar : ∀ v, v ∈ transform_variants (transform_variants (transform_variants
      [b] flipXT) flipYT) rot90T ↔
      (((v = b ∨ v = flipXT b) ∨ v = flipYT b ∨ v = flipYT (flipXT b)) ∨
       (v = rot90T b ∨ v = rot90T (flipXT b)) ∨ v = rot90T (flipYT b) ∨
         v = rot90T (flipYT (flipXT b))) := fun v => by
    simp only [mem_transform_variants, List.mem_singleton, or_and_right, exists_or,
      exists_eq_left]
  have hWF1 : ∀ v ∈ [b], v.WF := by simpa
  have hWF2 : ∀ v ∈ transform_variants [b] flipXT, v.WF :=
    tv_WF_all _ _ hWF1 WF_flipXT
  have hWF3 : ∀ v ∈ transform_variants (transform_variants [b] flipXT) flipYT, v.WF :=
    tv_WF_all _ _ hWF2 WF_flipYT
  refine ⟨by rw [hcollapse], ?_, ?_, ?_, ?_, ?_, ?_⟩
  · rw [hchar]; simp
  · exact tv_nodup_of_inj _ _ hWF3
      (tv_nodup_of_inj _ _ hWF2
        (tv_nodup_of_inj _ _ hWF1 (List.nodup_singleton b) flipXT_inj)
        flipYT_inj) rot90T_inj
  · intro v hv
    rw [hchar] at hv
    rw [hchar]
    rcases hv with ((rfl | rfl) | rfl | rfl) | (rfl | rfl) | rfl | rfl
    · simp
    · rw [g1]; simp
    · rw [← g3]; simp
    · rw [g3, g12]; simp
    · rw [flipXT_rot90T]; simp
    · rw [flipXT_rot90T]; simp
    · rw [flipXT_rot90T, g2]; simp
    · rw [flipXT_rot90T, g11]; simp
  · intro v hv
    rw [hchar] at hv
    rw [hchar]
    rcases hv with ((rfl | rfl) | rfl | rfl) | (rfl | rfl) | rfl | rfl
    · simp
    · simp
    · rw [g2]; simp
    · rw [g11]; simp
    · rw [flipYT_rot90T]; simp
    · rw [flipYT_rot90T, g1]; simp
    · rw [flipYT_rot90T, ← g3]; simp
    · rw [flipYT_rot90T, g3, g12]; simp
  · intro v hv
    rw [hchar] at hv
    constructor
    · rw [hchar]
      rcases hv with ((rfl | rfl) | rfl | rfl) | (rfl | rfl) | rfl | rfl
      · rw [rot180T_eq, ← flipYT_flipXT]; simp
      · rw [g9]; simp
      · rw [g10]; simp
      · rw [g3, rot180T_flipXT _ (WF_flipYT _ hwf), g2]; simp
      · rw [rot180T_rot90T, rot180T_eq, ← flipYT_flipXT]; simp
      · rw [rot180T_rot90T, g9]; simp
      · rw [rot180T_rot90T, g10]; simp
      · rw [rot180T_rot90T, g3, rot180T_flipXT _ (WF_flipYT _ hwf), g2]; simp
    · rw [hchar]
      rcases hv with ((rfl | rfl) | rfl | rfl) | (rfl | rfl) | rfl | rfl
      · simp
      · simp
      · simp
      · simp
      · rw [rot90T_rot90T, rot180T_eq, ← flipYT_flipXT]; simp
      · rw [rot90T_rot90T, g9]; simp
      · rw [rot90T_rot90T, g10]; simp
      · rw [rot90T_rot90T, g3, rot180T_flipXT _ (WF_flipYT _ hwf), g2]; simp
  · have l1 : (transform_variants [b] flipXT).length ≤ 2 := by
      have := transform_variants_length [b] flipXT
      simp only [List.length_singleton] at this
      omega
    have l2 : (transform_variants (transform_variants [b] flipXT) flipYT).length ≤ 4 := by
      have := transform_variants_length (transform_variants [b] flipXT) flipYT
      omega
    have l3 := transform_variants_length
      (transform_variants (transform_variants [b] flipXT) flipYT) rot90T
    omega

/-- Claim C9: for every well-formed base pattern, `generate_variants`
produces a variants list that contains the base, is deduplicated by
structural equality (`Nodup`), and is closed under the enabled symmetry
subgroup (stated by generator closure: the horizontal mirror when
`flip_x`, the vertical mirror when `flip_y`, and both rotations when
`rotate`); in particular with all three flags set the list is closed
under the dihedral-4 group (generated by the mirrors and the 90°
rotation) and has at most 8 elements. -/
theorem generate_variants_closure (r : Rule) (hwf : r.base.WF) :
    r.base ∈ r.generate_variants.variants ∧
    r.generate_variants.variants.Nodup ∧
    (r.flip_x = true → ∀ v ∈ r.generate_variants.variants,
      flipXT v ∈ r.generate_variants.variants) ∧
    (r.flip_y = true → ∀ v ∈ r.generate_variants.variants,
      flipYT v ∈ r.generate_variants.variants) ∧
    (r.rotate = true → ∀ v ∈ r.generate_variants.variants,
      rot180T v ∈ r.generate_variants.variants ∧
      rot90T v ∈ r.generate_variants.variants) ∧
    (r.flip_x = true → r.flip_y = true → r.rotate = true →
      r.generate_variants.variants.length ≤ 8) := by
  unfold Rule.generate_variants genVariants
  dsimp only
  by_cases hfx : r.flip_x = true <;> by_cases hfy : r.flip_y = true <;>
    by_cases hrot : r.rotate = true
  · rw [if_pos hrot, if_pos hfy, if_pos hfx]
    obtain ⟨hcol, h1, h2, h3, h4, h5, h6⟩ := c9_case_TTT r.base hwf
    rw [hcol]
    exact ⟨h1, h2, fun _ => h3, fun _ => h4, fun _ => h5, fun _ _ _ => h6⟩
  · rw [if_neg hrot, if_pos hfy, if_pos hfx]
    obtain ⟨h1, h2, h3, h4⟩ := c9_case_TTF r.base hwf
    exact ⟨h1, h2, fun _ => h3, fun _ => h4, fun h => absurd h hrot,
      fun _ _ h => absurd h hrot⟩
  · rw [if_pos hrot, if_neg hfy, if_pos hfx]
    obtain ⟨h1, h2, h3, h4⟩ := c9_case_TFT r.base hwf
    exact ⟨h1, h2, fun _ => h3, fun h => absurd h hfy, fun _ => h4,
      fun _ h _ => absurd h hfy⟩
  · rw [if_neg hrot, if_neg hfy, if_pos hfx]
    obtain ⟨h1, h2, h3⟩ := c9_case_TFF r.base hwf
    exact ⟨h1, h2, fun _ => h3, fun h => absurd h hfy, fun h => absurd h hrot,
      fun _ h _ => absurd h hfy⟩
  · rw [if_pos hrot, if_pos hfy, if_neg hfx]
    obtain ⟨h1, h2, h3, h4⟩ := c9_case_FTT r.base hwf
    exact ⟨h1, h2, fun h => absurd h hfx, fun _ => h3, fun _ => h4,
      fun h _ _ => absurd h hfx⟩
  · rw [if_neg hrot, if_pos hfy, if_neg hfx]
    obtain ⟨h1, h2, h3⟩ := c9_case_FTF r.base hwf
    exact ⟨h1, h2, fun h => absurd h hfx, fun _ => h3, fun h => absurd h hrot,
      fun h _ _ => absurd h hfx⟩
  · rw [if_pos hrot, if_neg hfy, if_neg hfx]
    obtain ⟨h1, h2, h3⟩ := c9_case_FFT r.base hwf
    exact ⟨h1, h2, fun h => absurd h hfx, fun h => absurd h hfy, fun _ => h3,
      fun h _ _ => absurd h hfx⟩
  · rw [if_neg hrot, if_neg hfy, if_neg hfx]
    exact ⟨List.mem_singleton_self _, List.nodup_singleton _,
      fun h => absurd h hfx, fun h => absurd h hfy, fun h => absurd h hrot,
      fun h _ _ => absurd h hfx⟩

/-- A rule with all three symmetry flags set over the `fall` base. -/
def allFlagsRule : Rule :=
  { name := "d4", base := fallSub, variants := [], enabled := true
    flip_x := true, flip_y := true, rotate := true, failrate := 0 }

/-- Witness for `generate_variants_closure` at a concrete input. -/
theorem generate_variants_closure_witness :
    allFlagsRule.base.WF ∧
    (allFlagsRule.base ∈ allFlagsRule.generate_variants.variants ∧
    allFlagsRule.generate_variants.variants.Nodup ∧
    (allFlagsRule.flip_x = true → ∀ v ∈ allFlagsRule.generate_variants.variants,
      flipXT v ∈ allFlagsRule.generate_variants.variants) ∧
    (allFlagsRule.flip_y = true → ∀ v ∈ allFlagsRule.generate_variants.variants,
      flipYT v ∈ allFlagsRule.generate_variants.variants) ∧
    (allFlagsRule.rotate = true → ∀ v ∈ allFlagsRule.generate_variants.variants,
      rot180T v ∈ allFlagsRule.generate_variants.variants ∧
      rot90T v ∈ allFlagsRule.generate_variants.variants) ∧
    (allFlagsRule.flip_x = true → allFlagsRule.flip_y = true →
      allFlagsRule.rotate = true →
      allFlagsRule.generate_variants.variants.length ≤ 8)) :=
  ⟨by decide, generate_variants_closure allFlagsRule (by decide)⟩

/-! ## JSON deserialization of rules (C8)

The serde `Deserialize` derive for `Rule` is determined by the struct
attributes in the source: `name` and `failrate` carry
`#[serde(default)]`, `variants` (and the origin fields of `SubRule`)
carry `#[serde(skip)]`, and every other field is required; unknown
object keys are ignored (no `deny_unknown_fields`).  The functions below
model that derive.  (serde_json also rejects duplicate keys; duplicates
are not modelled, no claim involves them.) -/

inductive Json where
  | null : Json
  | bool : Bool → Json
  | num : Int → Json
  | str : String → Json
  | arr : List Json → Json
  | obj : List (String × Json) → Json

/-- Look up a field of a JSON object. -/
def getField (fs : List (String × Json)) (k : String) : Option Json :=
  (fs.find? fun p => p.1 = k).map fun p => p.2

/-- A required struct field: error (`none`) when absent. -/
def reqField (fs : List (String × Json)) (k : String)
    (p : Json → Option α) : Option α :=
  (getField fs k).bind p

/-- A `#[serde(default)]` struct field. -/
def optField (fs : List (String × Json)) (k : String)
    (p : Json → Option α) (d : α) : Option α :=
  match getField fs k with
  | Option.some v => p v
  | Option.none => Option.some d

def deserBool : Json → Option Bool
  | .bool b => some b
  | _ => none

def deserString : Json → Option String
  | .str s => some s
  | _ => none

def deserU8 : Json → Option Nat
  | .num n => if 0 ≤ n ∧ n < 256 then some n.toNat else none
  | _ => none

def deserU16 : Json → Option Nat
  | .num n => if 0 ≤ n ∧ n < 65536 then some n.toNat else none
  | _ => none

def deserUsize : Json → Option Nat
  | .num n => if 0 ≤ n ∧ n < 18446744073709551616 then some n.toNat else none
  | _ => none

def deserCell (j : Json) : Option Cell := (deserU16 j).map Cell.mk

/-- Externally tagged enum `RuleCellFrom`. -/
def deserRuleCellFrom : Json → Option RuleCellFrom
  | .str s => if s = "Any" then some .any else none
  | .obj [(k, v)] =>
    if k = "One" then (deserCell v).map RuleCellFrom.one
    else if k = "Group" then (deserUsize v).map RuleCellFrom.group
    else none
  | _ => none

/-- Externally tagged enum `RuleCellTo` (`Copy` is a tuple variant). -/
def deserRuleCellTo : Json → Option RuleCellTo
  | .str s => if s = "None" then some .none else none
  | .obj [(k, v)] =>
    if k = "One" then (deserCell v).map RuleCellTo.one
    else if k = "GroupRandom" then (deserUsize v).map RuleCellTo.groupRandom
    else if k = "Copy" then
      match v with
      | .arr [a, b] =>
        match deserUsize a, deserUsize b with
        | some x, some y => some (.copy x y)
        | _, _ => none
      | _ => none
    else none
  | _ => none

def deserEntry : Json → Option (RuleCellFrom × RuleCellTo)
  | .arr [f, t] =>
    match deserRuleCellFrom f, deserRuleCellTo t with
    | some a, some b => some (a, b)
    | _, _ => none
  | _ => none

def deserContents : Json → Option (List (RuleCellFrom × RuleCellTo))
  | .arr xs => xs.mapM deserEntry
  | _ => none

/-- `SubRule`: `width`, `height`, `contents` required; the origin fields
are `#[serde(default, skip)]`, so they are always 0. -/
def deserSubRule : Json → Option SubRule
  | .obj fs =>
    (reqField fs "width" deserUsize).bind fun w =>
    (reqField fs "height" deserUsize).bind fun h =>
    (reqField fs "contents" deserContents).map fun c =>
      { width := w, height := h, origin_x := 0, origin_y := 0, contents := c }
  | _ => none

/-- `Rule`: `name` and `failrate` default (`""`, `0`); `variants` is
skipped (deserializes to the empty vector); `base`, `enabled`, `flip_x`,
`flip_y`, `rotate` are required. -/
def deserRule : Json → Option Rule
  | .obj fs =>
    (optField fs "name" deserString "").bind fun nm =>
    (reqField fs "base" deserSubRule).bind fun b =>
    (reqField fs "enabled" deserBool).bind fun en =>
    (reqField fs "flip_x" deserBool).bind fun fx =>
    (reqField fs "flip_y" deserBool).bind fun fy =>
    (reqField fs "rotate" deserBool).bind fun rot =>
    (optField fs "failrate" deserU8 0).map fun fr =>
      { name := nm, base := b, variants := [], enabled := en, flip_x := fx
        flip_y := fy, rotate := rot, failrate := fr }
  | _ => none

theorem opt_bind_none (x : Option α) (f : α → Option β)
    (hf : ∀ a, f a = Option.none) : x.bind f = Option.none := by
  cases x with
  | none => rfl
  | some a => exact hf a

theorem getField_append_single (fs : List (String × Json)) (k k' : String)
    (v : Json) (hne : k' ≠ k) :
    getField (fs ++ [(k, v)]) k' = getField fs k' := by
  unfold getField
  rw [List.find?_append]
  cases h : fs.find? fun p => p.1 = k' with
  | some p => simp
  | none =>
    simp only [Option.none_or]
    have : (List.find? (fun p => decide (p.1 = k')) [(k, v)]) = Option.none := by
      simp [List.find?, Ne.symm hne]
    simp [this]

/-- Claim C8 (amended): deserializing a rule object defaults a missing
`name` to `""` and a missing `failrate` to `0`, and ignores unknown
fields — but a missing `rotate` is an error (`rotate` carries no
`#[serde(default)]` attribute), not a `false` default. -/
theorem rule_json_field_defaults :
    (∀ fs (b : SubRule) (en fx fy rot : Bool),
      getField fs "name" = Option.none →
      getField fs "failrate" = Option.none →
      reqField fs "base" deserSubRule = Option.some b →
      reqField fs "enabled" deserBool = Option.some en →
      reqField fs "flip_x" deserBool = Option.some fx →
      reqField fs "flip_y" deserBool = Option.some fy →
      reqField fs "rotate" deserBool = Option.some rot →
      deserRule (Json.obj fs) =
        Option.some
          { name := "", base := b, variants := [], enabled := en,
            flip_x := fx, flip_y := fy, rotate := rot, failrate := 0 }) ∧
    (∀ fs, getField fs "rotate" = Option.none →
      deserRule (Json.obj fs) = Option.none) ∧
    (∀ fs (k : String) (v : Json), k ≠ "name" → k ≠ "base" → k ≠ "enabled" →
      k ≠ "flip_x" → k ≠ "flip_y" → k ≠ "rotate" → k ≠ "failrate" →
      deserRule (Json.obj (fs ++ [(k, v)])) = deserRule (Json.obj fs)) := by
  refine ⟨?_, ?_, ?_⟩
  · intro fs b en fx fy rot hname hfail hb hen hfx hfy hrot
    have h1 : optField fs "name" deserString "" = Option.some "" := by
      unfold optField; rw [hname]
    have h2 : optField fs "failrate" deserU8 0 = Option.some 0 := by
      unfold optField; rw [hfail]
    simp only [deserRule, h1, h2, hb, hen, hfx, hfy, hrot, Option.some_bind,
      Option.map_some]
    rfl
  · intro fs h
    have hrot : reqField fs "rotate" deserBool = Option.none := by
      unfold reqField; rw [h]; rfl
    simp only [deserRule]
    refine opt_bind_none _ _ fun nm => opt_bind_none _ _ fun b =>
      opt_bind_none _ _ fun en => opt_bind_none _ _ fun fx =>
      opt_bind_none _ _ fun fy => ?_
    rw [hrot]
    rfl
  · intro fs k v h1 h2 h3 h4 h5 h6 h7
    have e1 : optField (fs ++ [(k, v)]) "name" deserString ""
        = optField fs "name" deserString "" := by
      unfold optField; rw [getField_append_single fs k "name" v (Ne.symm h1)]
    have e7 : optField (fs ++ [(k, v)]) "failrate" deserU8 0
        = optField fs "failrate" deserU8 0 := by
      unfold optField; rw [getField_append_single fs k "failrate" v (Ne.symm h7)]
    have e2 : reqField (fs ++ [(k, v)]) "base" deserSubRule
        = reqField fs "base" deserSubRule := by
      unfold reqField; rw [getField_append_single fs k "base" v (Ne.symm h2)]
    have e3 : reqField (fs ++ [(k, v)]) "enabled" deserBool
        = reqField fs "enabled" deserBool := by
      unfold reqField; rw [getField_append_single fs k "enabled" v (Ne.symm h3)]
    have e4 : reqField (fs ++ [(k, v)]) "flip_x" deserBool
        = reqField fs "flip_x" deserBool := by
      unfold reqField; rw [getField_append_single fs k "flip_x" v (Ne.symm h4)]
    have e5 : reqField (fs ++ [(k, v)]) "flip_y" deserBool
        = reqField fs "flip_y" deserBool := by
      unfold reqField; rw [getField_append_single fs k "flip_y" v (Ne.symm h5)]
    have e6 : reqField (fs ++ [(k, v)]) "rotate" deserBool
        = reqField fs "rotate" deserBool := by
      unfold reqField; rw [getField_append_single fs k "rotate" v (Ne.symm h6)]
    simp only [deserRule, e1, e2, e3, e4, e5, e6, e7]

/-- The JSON encoding of the `fall` base pattern. -/
def fallBaseJson : Json :=
  Json.obj [("width", Json.num 1), ("height", Json.num 2),
    ("contents", Json.arr [
      Json.arr [Json.obj [("One", Json.num 1)], Json.obj [("One", Json.num 0)]],
      Json.arr [Json.obj [("One", Json.num 0)], Json.obj [("One", Json.num 1)]]])]

/-- A rule object with `name`, `failrate` and `rotate` all absent. -/
def ruleJsonNoRotate : List (String × Json) :=
  [("base", fallBaseJson), ("enabled", Json.bool true),
   ("flip_x", Json.bool false), ("flip_y", Json.bool false)]

/-- Counterexample to claim C8 as stated: a rule object missing `rotate`
fails to deserialize (it does not default to `false`), while the same
object with `rotate` present deserializes with `name`/`failrate`
defaulted. -/
theorem rule_json_missing_rotate_is_error :
    deserRule (Json.obj ruleJsonNoRotate) = Option.none ∧
    deserRule (Json.obj (ruleJsonNoRotate ++ [("rotate", Json.bool false)])) =
      Option.some
        { name := "", base := fallSub, variants := [], enabled := true,
          flip_x := false, flip_y := false, rotate := false, failrate := 0 } := by
  constructor <;> decide

/-- Witness for `rule_json_field_defaults` at a concrete input (second
conjunct, applied to the concrete rotate-free object). -/
theorem rule_json_field_defaults_witness :
    getField ruleJsonNoRotate "rotate" = Option.none ∧
      deserRule (Json.obj ruleJsonNoRotate) = Option.none :=
  ⟨by rfl, rule_json_field_defaults.2.1 ruleJsonNoRotate (by rfl)⟩

/-! ## Claim C4: the derived match_cache -/

/-- `match_cache` indexes exactly the cache entries with nonempty match
lists. -/
def MatchCacheOK (d : Dish) : Prop :=
  ∀ i, i ∈ d.match_cache ↔ ∃ c, d.cache[i]? = Option.some c ∧ c.matchList ≠ []

theorem update_match_cache_ok (d : Dish) : MatchCacheOK d.update_match_cache := by
  intro i
  constructor
  · intro h
    have h2 : i ∈ d.cache.enum.filterMap
        (fun ic => if ic.2.matchList.isEmpty then Option.none else Option.some ic.1) := h
    rw [List.mem_filterMap] at h2
    obtain ⟨⟨j, c⟩, hm, hif⟩ := h2
    by_cases he : c.matchList.isEmpty
    · rw [if_pos he] at hif; cases hif
    · rw [if_neg he] at hif
      obtain rfl : j = i := Option.some_inj.mp hif
      rw [List.mk_mem_enum_iff_getElem?] at hm
      exact ⟨c, hm, by simpa using he⟩
  · rintro ⟨c, hget, hne⟩
    show i ∈ List.filterMap _ _
    rw [List.mem_filterMap]
    refine ⟨(i, c), ?_, ?_⟩
    · rw [List.mk_mem_enum_iff_getElem?]; exact hget
    · rw [if_neg (by simpa using hne)]

/-- Claim C4: after each cache-mutating operation — `rebuild_cache`, a
successful `update_cache_single_rule`, `update_cache`, and the two
apply operations (which either mutate the cache through `update_cache`
or leave the dish untouched) — `match_cache` contains exactly the
indices of cache entries with nonempty `matches`. -/
theorem match_cache_exact (d : Dish) :
    MatchCacheOK d.rebuild_cache ∧
    (∀ i d', d.update_cache_single_rule i = Option.some d' → MatchCacheOK d') ∧
    (∀ cx cy width height, MatchCacheOK (d.update_cache cx cy width height)) ∧
    (∀ r1 r2 rFail grng, MatchCacheOK d →
      MatchCacheOK (d.apply_one_match r1 r2 rFail grng)) ∧
    (∀ rx ry rPick rFail grng, MatchCacheOK d →
      MatchCacheOK (d.try_one_location rx ry rPick rFail grng)) := by
  refine ⟨update_match_cache_ok _, ?_, ?_, ?_, ?_⟩
  · intro i d' h
    unfold Dish.update_cache_single_rule Dish.add_cache_single_rule at h
    dsimp only at h
    match h2 : ({ d with cache := d.cache.filter fun c => c.rule ≠ i } : Dish).rules.get? i with
    | Option.none => rw [h2] at h; cases h
    | Option.some rule =>
      rw [h2] at h
      simp only [Option.map_some] at h
      have h3 := Option.some_inj.mp h
      rw [← h3]
      exact update_match_cache_ok _
  · intro cx cy width height
    exact update_match_cache_ok _
  · intro r1 r2 rFail grng hd
    unfold Dish.apply_one_match
    by_cases h : d.match_cache.isEmpty = true
    · rw [if_pos h]; exact hd
    · rw [if_neg h]
      exact update_match_cache_ok _
  · intro rx ry rPick rFail grng hd
    unfold Dish.try_one_location
    dsimp only
    by_cases h : (d.get_matches_at_point
        (wrapSubU (castIsize (rx % uadd 32 (umul (usub d.max_rule_width 1) 2)))
          (usub d.max_rule_width 1))
        (wrapSubU (castIsize (ry % uadd 32 (umul (usub d.max_rule_height 1) 2)))
          (usub d.max_rule_height 1))).isEmpty = true
    · rw [if_pos h]; exact hd
    · rw [if_neg h]
      exact update_match_cache_ok _

/-- Witness for `match_cache_exact` at a concrete input. -/
theorem match_cache_exact_witness :
    MatchCacheOK emptyDish ∧
      MatchCacheOK (emptyDish.apply_one_match 0 0 0 (fun _ _ => 0)) := by
  have h0 : MatchCacheOK emptyDish := by
    intro i
    simp [MatchCacheOK, emptyDish]
  exact ⟨h0, (match_cache_exact emptyDish).2.2.2.1 0 0 0 (fun _ _ => 0) h0⟩

/-! ## Cache consistency machinery (C1, C2, C10) -/

/-- The matcher applied at an anchor: corner = anchor − origin
(wrapping), exactly as the cache scans and `apply_one_match` do. -/
def matcherAt (w : World) (groups : List CellGroup) (v : SubRule)
    (m : Int × Int) : Bool :=
  w.subrule_matches (wrapSubU m.1 v.origin_x) (wrapSubU m.2 v.origin_y) v groups

/-- The variant a cache entry refers to. -/
def variantOf (rules : List Rule) (c : RuleCache) : SubRule :=
  (rules.getD c.rule default).variants.getD c.variant default

/-- The bordered scan rectangle of anchors for a variant:
`[-(w-1), N+w-1) × [-(h-1), N+h-1)` — the rectangle `rebuild_cache`
scans. -/
def borderedRect (v : SubRule) (m : Int × Int) : Prop :=
  -((v.width : Int) - 1) ≤ m.1 ∧ m.1 < 32 + ((v.width : Int) - 1) ∧
  -((v.height : Int) - 1) ≤ m.2 ∧ m.2 < 32 + ((v.height : Int) - 1)

/-- Dimension sanity of a variant: origin inside the rectangle and
dimensions at most `2^32` (any real pattern is far smaller). -/
def SubRule.Sane (v : SubRule) : Prop :=
  v.origin_x < v.width ∧ v.origin_y < v.height ∧
  v.width ≤ 4294967296 ∧ v.height ≤ 4294967296

/-- Every variant of every rule is sane. -/
def RulesSane (rules : List Rule) : Prop :=
  ∀ r ∈ rules, ∀ v ∈ r.variants, v.Sane

/-- A non-overflowing edited rectangle (every rectangle the engine
itself passes to `update_cache` satisfies this as long as anchors have
not drifted within `2^60` of the `isize` boundary). -/
def saneRect (R : Int × Int × Nat × Nat) : Prop :=
  -1152921504606846976 ≤ R.1 ∧ R.1 ≤ 1152921504606846976 ∧
  -1152921504606846976 ≤ R.2.1 ∧ R.2.1 ≤ 1152921504606846976 ∧
  (R.2.2.1 : Int) ≤ 1152921504606846976 ∧ (R.2.2.2 : Int) ≤ 1152921504606846976

/-- Membership of a grid cell in an edited rectangle. -/
def inRectN (R : Int × Int × Nat × Nat) (a b : Nat) : Prop :=
  R.1 ≤ (a : Int) ∧ (a : Int) < R.1 + R.2.2.1 ∧
  R.2.1 ≤ (b : Int) ∧ (b : Int) < R.2.1 + R.2.2.2

theorem mem_intRange (lo hi p : Int) : p ∈ intRange lo hi ↔ lo ≤ p ∧ p < hi := by
  unfold intRange
  rw [List.mem_map]
  constructor
  · rintro ⟨i, hi2, rfl⟩
    rw [List.mem_range] at hi2
    omega
  · rintro ⟨h1, h2⟩
    refine ⟨(p - lo).toNat, ?_, by omega⟩
    rw [List.mem_range]
    omega

theorem mem_variantScan (w : World) (groups : List CellGroup) (v : SubRule)
    (xlo xhi ylo yhi : Int) (m : Int × Int) :
    m ∈ variantScan w groups v xlo xhi ylo yhi ↔
      (xlo ≤ m.1 ∧ m.1 < xhi ∧ ylo ≤ m.2 ∧ m.2 < yhi ∧
        matcherAt w groups v m = true) := by
  unfold variantScan
  rw [List.mem_flatMap]
  constructor
  · rintro ⟨px, hpx, hm⟩
    rw [List.mem_filterMap] at hm
    obtain ⟨py, hpy, hif⟩ := hm
    rw [mem_intRange] at hpx hpy
    by_cases hmm : w.subrule_matches (wrapSubU px v.origin_x)
        (wrapSubU py v.origin_y) v groups = true
    · rw [if_pos hmm] at hif
      obtain rfl := Option.some_inj.mp hif
      exact ⟨hpx.1, hpx.2, hpy.1, hpy.2, hmm⟩
    · rw [if_neg hmm] at hif
      cases hif
  · rintro ⟨h1, h2, h3, h4, h5⟩
    refine ⟨m.1, (mem_intRange _ _ _).mpr ⟨h1, h2⟩, ?_⟩
    rw [List.mem_filterMap]
    refine ⟨m.2, (mem_intRange _ _ _).mpr ⟨h3, h4⟩, ?_⟩
    unfold matcherAt at h5
    rw [if_pos h5]

theorem scanLo_eq (dim : Nat) (h1 : 1 ≤ dim) (h2 : dim ≤ 4294967296) :
    scanLo dim = -((dim : Int) - 1) := by
  unfold scanLo castIsize
  have e1 : w64 (dim : Int) = (dim : Int) := by
    apply w64_eq_of_bounds <;> simp only [I64] <;> omega
  rw [e1]
  have e2 : w64 ((dim : Int) - 1) = (dim : Int) - 1 := by
    apply w64_eq_of_bounds <;> simp only [I64] <;> omega
  rw [e2]
  apply w64_eq_of_bounds <;> simp only [I64] <;> omega

theorem scanHi_eq (dim : Nat) (h1 : 1 ≤ dim) (h2 : dim ≤ 4294967296) :
    scanHi dim = 32 + ((dim : Int) - 1) := by
  unfold scanHi castIsize
  have e1 : w64 (dim : Int) = (dim : Int) := by
    apply w64_eq_of_bounds <;> simp only [I64] <;> omega
  rw [e1]
  have e2 : w64 ((dim : Int) - 1) = (dim : Int) - 1 := by
    apply w64_eq_of_bounds <;> simp only [I64] <;> omega
  rw [e2]
  apply w64_eq_of_bounds <;> simp only [I64] <;> omega

/-- Membership in the rebuild scan of one variant, phrased with the
bordered rectangle. -/
theorem mem_rebuildScan (w : World) (groups : List CellGroup) (v : SubRule)
    (hs : v.Sane) (m : Int × Int) :
    m ∈ variantScan w groups v (scanLo v.width) (scanHi v.width)
        (scanLo v.height) (scanHi v.height) ↔
      (borderedRect v m ∧ matcherAt w groups v m = true) := by
  obtain ⟨hox, hoy, hw, hh⟩ := hs
  rw [mem_variantScan, scanLo_eq _ (by omega) hw, scanHi_eq _ (by omega) hw,
    scanLo_eq _ (by omega) hh, scanHi_eq _ (by omega) hh]
  unfold borderedRect
  constructor
  · rintro ⟨a, b, c, d, e⟩; exact ⟨⟨a, b, c, d⟩, e⟩
  · rintro ⟨⟨a, b, c, d⟩, e⟩; exact ⟨a, b, c, d, e⟩

theorem swapRemove_subset (l : List α) (i : Nat) (m : α)
    (hm : m ∈ swapRemove l i) : m ∈ l := by
  unfold swapRemove at hm
  match hz : l.getLast? with
  | Option.none => rw [hz] at hm; cases hm
  | Option.some z =>
    rw [hz] at hm
    have h1 : m ∈ l.set i z := List.dropLast_subset _ hm
    rcases List.mem_or_eq_of_mem_set h1 with h | rfl
    · exact h
    · exact List.mem_of_mem_getLast? hz

theorem swapRemove_get_lt (l : List α) (i j : Nat) (hi : i < l.length)
    (hj : j < i) :
    ∃ hj2 : j < (swapRemove l i).length,
      (swapRemove l i).get ⟨j, hj2⟩ = l.get ⟨j, by omega⟩ := by
  have hlen := swapRemove_length l i (by omega)
  unfold swapRemove at hlen ⊢
  match hz : l.getLast? with
  | Option.none =>
    rw [List.getLast?_eq_none_iff] at hz
    subst hz
    simp at hi
  | Option.some z =>
    rw [hz] at hlen
    refine ⟨by omega, ?_⟩
    rw [List.get_eq_getElem, List.get_eq_getElem, List.getElem_dropLast,
      List.getElem_set_ne (show i ≠ j by omega)]

theorem mem_swapRemove_of_ne (l : List α) (i : Nat) (hi : i < l.length) (m : α)
    (hm : m ∈ l) (hne : m ≠ l.get ⟨i, hi⟩) : m ∈ swapRemove l i := by
  obtain ⟨j, hj, rfl⟩ := List.mem_iff_get.mp hm
  unfold swapRemove
  match hz : l.getLast? with
  | Option.none =>
    rw [List.getLast?_eq_none_iff] at hz
    subst hz
    simp at hi
  | Option.some z =>
    have hlen0 : 0 < l.length := by omega
    have hzv : z = l.get ⟨l.length - 1, by omega⟩ := by
      rw [List.getLast?_eq_getElem?] at hz
      rw [List.getElem?_eq_getElem (by omega)] at hz
      rw [List.get_eq_getElem]
      exact (Option.some_inj.mp hz).symm
    have hji : (j : Nat) ≠ i := by
      intro h
      apply hne
      congr 1
      exact Fin.ext h
    by_cases hlast : (j : Nat) = l.length - 1
    · -- the element is the last one; it reappears at position i
      have hiv : i < l.length - 1 := by
        rcases Nat.lt_or_ge i (l.length - 1) with h | h
        · exact h
        · exfalso; apply hji; omega
      rw [List.mem_iff_get]
      refine ⟨⟨i, ?_⟩, ?_⟩
      · rw [List.length_dropLast, List.length_set]; omega
      · rw [List.get_eq_getElem, List.getElem_dropLast, List.getElem_set_self]
        rw [hzv]
        congr 1
        exact Fin.ext (by simp [hlast])
    · rw [List.mem_iff_get]
      refine ⟨⟨j, ?_⟩, ?_⟩
      · rw [List.length_dropLast, List.length_set]
        have := j.isLt
        omega
      · rw [List.get_eq_getElem, List.getElem_dropLast, List.getElem_set_ne hji.symm]
        rfl

theorem discardLoop_mem (p : α → Bool) (l : List α) (i : Nat)
    (hinv : ∀ j (hj : j < l.length), j < i → p (l.get ⟨j, hj⟩) = false)
    (m : α) : m ∈ discardLoop p l i ↔ (m ∈ l ∧ p m = false) := by
  rw [discardLoop]
  by_cases h : i < l.length
  · rw [dif_pos h]
    by_cases hp : p (l.get ⟨i, h⟩) = true
    · rw [if_pos hp]
      have hlen := swapRemove_length l i (by omega)
      have hinv2 : ∀ j (hj : j < (swapRemove l i).length), j < i →
          p ((swapRemove l i).get ⟨j, hj⟩) = false := by
        intro j hj hji
        obtain ⟨hj2, he⟩ := swapRemove_get_lt l i j h hji
        rw [he]
        exact hinv j _ hji
      rw [discardLoop_mem p (swapRemove l i) i hinv2 m]
      constructor
      · rintro ⟨h1, h2⟩
        exact ⟨swapRemove_subset l i m h1, h2⟩
      · rintro ⟨h1, h2⟩
        refine ⟨mem_swapRemove_of_ne l i h m h1 ?_, h2⟩
        intro he
        rw [he] at h2
        rw [h2] at hp
        cases hp
    · rw [if_neg hp]
      have hinv2 : ∀ j (hj : j < l.length), j < i + 1 →
          p (l.get ⟨j, hj⟩) = false := by
        intro j hj hji
        rcases Nat.lt_or_ge j i with h2 | h2
        · exact hinv j hj h2
        · have : j = i := by omega
          subst this
          simpa using hp
      exact discardLoop_mem p l (i + 1) hinv2 m
  · rw [dif_neg h]
    constructor
    · intro hm
      refine ⟨hm, ?_⟩
      obtain ⟨j, hj, rfl⟩ := List.mem_iff_get.mp hm
      exact hinv j j.isLt (by omega)
    · exact fun h => h.1
termination_by l.length - i
decreasing_by
  · rw [swapRemove_length l i (by omega)]; omega
  · omega

/-- A matcher read at offset `dx` from an `isize` corner lands in the
grid exactly when the mathematical coordinate does, with no wrap-around
for offsets up to `2^32`. -/
theorem read_coord (c : Int) (hc1 : -I64 ≤ c) (hc2 : c < I64) (dx : Nat)
    (hdx : (dx : Int) ≤ 4294967296) :
    (0 ≤ c + dx ∧ c + dx < 32 ∧ (castUsize (wrapAddU c dx) : Int) = c + dx) ∨
      (¬(0 ≤ c + dx ∧ c + dx < 32) ∧ castUsize (wrapAddU c dx) ≥ 32) := by
  unfold wrapAddU
  rw [castUsize_w64]
  unfold castUsize
  simp only [I64] at hc1 hc2
  simp only [U64]
  by_cases h : 0 ≤ c + dx ∧ c + dx < 32
  · left
    refine ⟨h.1, h.2, ?_⟩
    rw [Int.emod_eq_of_lt h.1 (by omega)]
    omega
  · right
    refine ⟨h, ?_⟩
    omega

theorem list_all_congr (l : List α) (f g : α → Bool)
    (h : ∀ x ∈ l, f x = g x) : l.all f = l.all g := by
  induction l with
  | nil => rfl
  | cons x xs ih =>
    simp only [List.all_cons]
    rw [h x (List.mem_cons_self _ _), ih fun y hy => h y (List.mem_cons_of_mem _ hy)]

/-- The matcher depends only on the world cells inside the variant's
window at the given anchor. -/
theorem matcherAt_congr (w1 w2 : World) (groups : List CellGroup) (v : SubRule)
    (hs : v.Sane) (m : Int × Int)
    (hag : ∀ a b : Nat, a < 32 → b < 32 →
      (wrapSubU m.1 v.origin_x ≤ (a : Int) ∧
        (a : Int) < wrapSubU m.1 v.origin_x + v.width) →
      (wrapSubU m.2 v.origin_y ≤ (b : Int) ∧
        (b : Int) < wrapSubU m.2 v.origin_y + v.height) →
      w1 a b = w2 a b) :
    matcherAt w1 groups v m = matcherAt w2 groups v m := by
  obtain ⟨hox, hoy, hw, hh⟩ := hs
  unfold matcherAt World.subrule_matches
  refine list_all_congr _ _ _ fun dx hdx => ?_
  rw [List.mem_range] at hdx
  refine list_all_congr _ _ _ fun dy hdy => ?_
  rw [List.mem_range] at hdy
  have hcx := w64_mem (m.1 - v.origin_x)
  have hcy := w64_mem (m.2 - v.origin_y)
  have hread : w1.get_cell (castUsize (wrapAddU (wrapSubU m.1 v.origin_x) dx))
      (castUsize (wrapAddU (wrapSubU m.2 v.origin_y) dy)) =
      w2.get_cell (castUsize (wrapAddU (wrapSubU m.1 v.origin_x) dx))
      (castUsize (wrapAddU (wrapSubU m.2 v.origin_y) dy)) := by
    rcases read_coord (wrapSubU m.1 v.origin_x) hcx.1 hcx.2 dx (by omega) with
      ⟨ha1, ha2, ha3⟩ | ⟨_, ha3⟩
    · rcases read_coord (wrapSubU m.2 v.origin_y) hcy.1 hcy.2 dy (by omega) with
        ⟨hb1, hb2, hb3⟩ | ⟨_, hb3⟩
      · unfold World.get_cell CHUNK_SIZE
        have hxa : castUsize (wrapAddU (wrapSubU m.1 v.origin_x) dx) < 32 := by
          omega
        have hyb : castUsize (wrapAddU (wrapSubU m.2 v.origin_y) dy) < 32 := by
          omega
        rw [if_neg (by omega), if_neg (by omega)]
        congr 1
        apply hag _ _ hxa hyb
        · constructor <;> omega
        · constructor <;> omega
      · unfold World.get_cell CHUNK_SIZE
        rw [if_pos (by omega), if_pos (by omega)]
    · unfold World.get_cell CHUNK_SIZE
      rw [if_pos (by omega), if_pos (by omega)]
  simp only [hread]

theorem updateEntry_fields (w : World) (groups : List CellGroup)
    (rules : List Rule) (R : Int × Int × Nat × Nat) (c : RuleCache) :
    (updateEntry w groups rules R c).rule = c.rule ∧
    (updateEntry w groups rules R c).variant = c.variant := by
  unfold updateEntry
  exact ⟨rfl, rfl⟩

/-- Membership in an entry after `update_cache`: either a kept old match
whose bounding rectangle does not overlap the edited rectangle, or a
fresh match found in the rescan rectangle. -/
theorem mem_updateEntry (w : World) (groups : List CellGroup)
    (rules : List Rule) (R : Int × Int × Nat × Nat) (c : RuleCache)
    (m : Int × Int) :
    m ∈ (updateEntry w groups rules R c).matchList ↔
      ((m ∈ c.matchList ∧
        overlapRect R (wrapSubU m.1 (variantOf rules c).origin_x,
          wrapSubU m.2 (variantOf rules c).origin_y,
          (variantOf rules c).width, (variantOf rules c).height) = false) ∨
       (wrapSubU R.1 (usub (variantOf rules c).width 1) ≤ m.1 ∧
        m.1 < wrapAddU (wrapAddU R.1 R.2.2.1) (usub (variantOf rules c).width 1) ∧
        wrapSubU R.2.1 (usub (variantOf rules c).height 1) ≤ m.2 ∧
        m.2 < wrapAddU (wrapAddU R.2.1 R.2.2.2) (usub (variantOf rules c).height 1) ∧
        matcherAt w groups (variantOf rules c) m = true)) := by
  unfold updateEntry variantOf
  rw [List.mem_append]
  rw [discardLoop_mem _ _ _ (fun j hj h0 => absurd h0 (by omega)),
    mem_variantScan]

theorem overlap_iff_of_sane (R : Int × Int × Nat × Nat) (hR : saneRect R)
    (x2 y2 : Int) (w2 h2 : Nat) :
    overlapRect R (x2, y2, w2, h2) = true ↔
      (x2 < R.1 + R.2.2.1 ∧ R.1 < x2 + w2 ∧
       y2 < R.2.1 + R.2.2.2 ∧ R.2.1 < y2 + h2) := by
  obtain ⟨s1, s2, s3, s4, s5, s6⟩ := hR
  unfold overlapRect satAddU
  simp only [Bool.and_eq_true, decide_eq_true_eq]
  simp only [I64] at *
  constructor
  · rintro ⟨⟨⟨a, b⟩, c⟩, d⟩
    refine ⟨?_, ?_, ?_, ?_⟩ <;> omega
  · rintro ⟨a, b, c, d⟩
    refine ⟨⟨⟨?_, ?_⟩, ?_⟩, ?_⟩ <;> omega

theorem usub_one_eq (vw : Nat) (h1 : 1 ≤ vw) (h2 : vw ≤ 4294967296) :
    usub vw 1 = vw - 1 :=
  usub_eq_of_le vw 1 h1 (by simp only [U64]; omega)

theorem wrapSubU_eq (a : Int) (b : Nat) (h1 : -4611686018427387904 ≤ a - b)
    (h2 : a - (b : Int) ≤ 4611686018427387904) : wrapSubU a b = a - b := by
  unfold wrapSubU
  apply w64_eq_of_bounds <;> simp only [I64] <;> omega

theorem wrapAddU_eq (a : Int) (b : Nat) (h1 : -4611686018427387904 ≤ a + b)
    (h2 : a + (b : Int) ≤ 4611686018427387904) : wrapAddU a b = a + b := by
  unfold wrapAddU
  apply w64_eq_of_bounds <;> simp only [I64] <;> omega

/-- Corner of a bordered anchor: no wrap. -/
theorem bordered_corner (v : SubRule) (hs : v.Sane) (m : Int × Int)
    (hm : borderedRect v m) :
    wrapSubU m.1 v.origin_x = m.1 - v.origin_x ∧
    wrapSubU m.2 v.origin_y = m.2 - v.origin_y := by
  obtain ⟨hox, hoy, hw, hh⟩ := hs
  obtain ⟨h1, h2, h3, h4⟩ := hm
  constructor
  · apply wrapSubU_eq <;> omega
  · apply wrapSubU_eq <;> omega

/-- The sound / bounded / complete conclusions of a cache entry update,
for a sane (non-overflowing) edited rectangle that bounds all world
changes. -/
theorem updateEntry_main (wNew wOld : World) (groups : List CellGroup)
    (rules : List Rule) (R : Int × Int × Nat × Nat) (c : RuleCache)
    (hsane : (variantOf rules c).Sane)
    (hR : saneRect R)
    (hagree : ∀ a b : Nat, a < 32 → b < 32 → ¬ inRectN R a b → wNew a b = wOld a b)
    (hsound : ∀ m ∈ c.matchList, matcherAt wOld groups (variantOf rules c) m = true)
    (hbnd : ∀ m ∈ c.matchList, -I64 ≤ m.1 ∧ m.1 < I64 ∧ -I64 ≤ m.2 ∧ m.2 < I64)
    (hcomp : ∀ m, borderedRect (variantOf rules c) m →
      matcherAt wOld groups (variantOf rules c) m = true → m ∈ c.matchList) :
    (∀ m ∈ (updateEntry wNew groups rules R c).matchList,
      matcherAt wNew groups (variantOf rules c) m = true) ∧
    (∀ m ∈ (updateEntry wNew groups rules R c).matchList,
      -I64 ≤ m.1 ∧ m.1 < I64 ∧ -I64 ≤ m.2 ∧ m.2 < I64) ∧
    (∀ m, borderedRect (variantOf rules c) m →
      matcherAt wNew groups (variantOf rules c) m = true →
      m ∈ (updateEntry wNew groups rules R c).matchList) := by
  obtain ⟨hox, hoy, hw, hh⟩ := hsane
  obtain ⟨s1, s2, s3, s4, s5, s6⟩ := hR
  -- congruence between the worlds at an anchor whose bounding rectangle
  -- does not overlap the edited rectangle
  have hcongr : ∀ m : Int × Int,
      overlapRect R (wrapSubU m.1 (variantOf rules c).origin_x,
        wrapSubU m.2 (variantOf rules c).origin_y,
        (variantOf rules c).width, (variantOf rules c).height) = false →
      matcherAt wNew groups (variantOf rules c) m =
        matcherAt wOld groups (variantOf rules c) m := by
    intro m hov
    apply matcherAt_congr _ _ _ _ ⟨hox, hoy, hw, hh⟩
    intro a b ha hb hwin1 hwin2
    apply hagree a b ha hb
    intro hin
    obtain ⟨i1, i2, i3, i4⟩ := hin
    have : overlapRect R (wrapSubU m.1 (variantOf rules c).origin_x,
        wrapSubU m.2 (variantOf rules c).origin_y,
        (variantOf rules c).width, (variantOf rules c).height) = true := by
      rw [overlap_iff_of_sane _ ⟨s1, s2, s3, s4, s5, s6⟩]
      refine ⟨?_, ?_, ?_, ?_⟩ <;> omega
    rw [this] at hov
    cases hov
  refine ⟨?_, ?_, ?_⟩
  · intro m hm
    rw [mem_updateEntry] at hm
    rcases hm with ⟨hold, hov⟩ | ⟨_, _, _, _, hmm⟩
    · rw [hcongr m hov]
      exact hsound m hold
    · exact hmm
  · intro m hm
    rw [mem_updateEntry] at hm
    rcases hm with ⟨hold, _⟩ | ⟨ha1, ha2, ha3, ha4, _⟩
    · exact hbnd m hold
    · unfold wrapSubU at ha1 ha3
      unfold wrapAddU at ha2 ha4
      have l1 := (w64_mem (R.1 - (usub (variantOf rules c).width 1 : Nat))).1
      have l2 := (w64_mem (w64 (R.1 + (R.2.2.1 : Int)) +
        ((usub (variantOf rules c).width 1 : Nat) : Int))).2
      have l3 := (w64_mem (R.2.1 - (usub (variantOf rules c).height 1 : Nat))).1
      have l4 := (w64_mem (w64 (R.2.1 + (R.2.2.2 : Int)) +
        ((usub (variantOf rules c).height 1 : Nat) : Int))).2
      exact ⟨by omega, by omega, by omega, by omega⟩
  · intro m hbord hmatch
    have hcorner := bordered_corner _ ⟨hox, hoy, hw, hh⟩ m hbord
    obtain ⟨b1, b2, b3, b4⟩ := hbord
    rw [mem_updateEntry]
    by_cases hov : overlapRect R (wrapSubU m.1 (variantOf rules c).origin_x,
        wrapSubU m.2 (variantOf rules c).origin_y,
        (variantOf rules c).width, (variantOf rules c).height) = true
    · right
      rw [overlap_iff_of_sane _ ⟨s1, s2, s3, s4, s5, s6⟩] at hov
      rw [hcorner.1, hcorner.2] at hov
      obtain ⟨o1, o2, o3, o4⟩ := hov
      have e1 : usub (variantOf rules c).width 1 = (variantOf rules c).width - 1 :=
        usub_one_eq _ (by omega) hw
      have e2 : usub (variantOf rules c).height 1 = (variantOf rules c).height - 1 :=
        usub_one_eq _ (by omega) hh
      have f1 : wrapAddU R.1 R.2.2.1 = R.1 + (R.2.2.1 : Int) :=
        wrapAddU_eq _ _ (by omega) (by omega)
      have f2 : wrapAddU R.2.1 R.2.2.2 = R.2.1 + (R.2.2.2 : Int) :=
        wrapAddU_eq _ _ (by omega) (by omega)
      rw [e1, e2, f1, f2, wrapSubU_eq _ _ (by omega) (by omega),
        wrapSubU_eq _ _ (by omega) (by omega),
        wrapAddU_eq _ _ (by omega) (by omega),
        wrapAddU_eq _ _ (by omega) (by omega)]
      refine ⟨by omega, by omega, by omega, by omega, hmatch⟩
    · left
      rw [Bool.not_eq_true] at hov
      refine ⟨?_, hov⟩
      apply hcomp m ⟨b1, b2, b3, b4⟩
      rw [← hcongr m hov]
      exact hmatch

/-- Two integers congruent modulo `2^64` cast to the same `usize`. -/
theorem castUsize_congr (a b : Int) (h : a % U64 = b % U64) :
    castUsize a = castUsize b := by
  unfold castUsize
  rw [h]

/-- The write coordinate of `apply_rule` equals the matching scan
coordinate of the rectangle corner handed to `update_cache`. -/
theorem wrap_shift (x : Int) (ox dx : Nat) :
    castUsize (wrapSubU (wrapAddU x dx) ox) =
      castUsize (wrapAddU (wrapSubU x ox) dx) := by
  unfold wrapAddU wrapSubU
  rw [castUsize_w64, castUsize_w64]
  apply castUsize_congr
  conv_lhs => rw [Int.sub_emod, w64_emod, ← Int.sub_emod]
  conv_rhs => rw [Int.add_emod, w64_emod, ← Int.add_emod]
  congr 1
  omega

/-- A grid cell lying in both rectangles forces `overlap` to report
true, regardless of saturation (the cell coordinate is far below
`isize::MAX`). -/
theorem overlap_of_cell (R : Int × Int × Nat × Nat) (x2 y2 : Int)
    (w2 h2 : Nat) (a b : Int)
    (ha0 : 0 ≤ a) (ha : a < 32) (hb0 : 0 ≤ b) (hb : b < 32)
    (q1 : R.1 ≤ a) (q2 : a < R.1 + R.2.2.1) (q3 : x2 ≤ a) (q4 : a < x2 + w2)
    (q5 : R.2.1 ≤ b) (q6 : b < R.2.1 + R.2.2.2) (q7 : y2 ≤ b) (q8 : b < y2 + h2) :
    overlapRect R (x2, y2, w2, h2) = true := by
  unfold overlapRect satAddU
  simp only [Bool.and_eq_true, decide_eq_true_eq]
  simp only [I64]
  refine ⟨⟨⟨?_, ?_⟩, ?_⟩, ?_⟩ <;> omega

/-- A far edited rectangle: one corner coordinate beyond `±2^60` and
dimensions at most `2^32`.  Such a rectangle misses the grid entirely
and overlaps no bordered anchor's bounding rectangle. -/
def farRect (R : Int × Int × Nat × Nat) : Prop :=
  ((R.1 < -1152921504606846976 ∨ 1152921504606846976 < R.1) ∨
   (R.2.1 < -1152921504606846976 ∨ 1152921504606846976 < R.2.1)) ∧
  (R.2.2.1 : Int) ≤ 4294967296 ∧ (R.2.2.2 : Int) ≤ 4294967296

/-- Every rectangle with dimensions at most `2^32` is sane or far. -/
theorem sane_or_far (R : Int × Int × Nat × Nat)
    (hw : (R.2.2.1 : Int) ≤ 4294967296) (hh : (R.2.2.2 : Int) ≤ 4294967296) :
    saneRect R ∨ farRect R := by
  unfold saneRect farRect
  omega

/-- The sound / bounded / complete conclusions of a cache entry update
for a far edited rectangle: no grid cell lies in it, so the world is
unchanged where it matters, and no bordered anchor's bounding rectangle
overlaps it. -/
theorem updateEntry_far (wNew wOld : World) (groups : List CellGroup)
    (rules : List Rule) (R : Int × Int × Nat × Nat) (c : RuleCache)
    (hsane : (variantOf rules c).Sane)
    (hfar : farRect R)
    (hagree : ∀ a b : Nat, a < 32 → b < 32 → ¬ inRectN R a b → wNew a b = wOld a b)
    (hsound : ∀ m ∈ c.matchList, matcherAt wOld groups (variantOf rules c) m = true)
    (hbnd : ∀ m ∈ c.matchList, -I64 ≤ m.1 ∧ m.1 < I64 ∧ -I64 ≤ m.2 ∧ m.2 < I64)
    (hcomp : ∀ m, borderedRect (variantOf rules c) m →
      matcherAt wOld groups (variantOf rules c) m = true → m ∈ c.matchList) :
    (∀ m ∈ (updateEntry wNew groups rules R c).matchList,
      matcherAt wNew groups (variantOf rules c) m = true) ∧
    (∀ m ∈ (updateEntry wNew groups rules R c).matchList,
      -I64 ≤ m.1 ∧ m.1 < I64 ∧ -I64 ≤ m.2 ∧ m.2 < I64) ∧
    (∀ m, borderedRect (variantOf rules c) m →
      matcherAt wNew groups (variantOf rules c) m = true →
      m ∈ (updateEntry wNew groups rules R c).matchList) := by
  obtain ⟨hox, hoy, hw, hh⟩ := hsane
  obtain ⟨hf, hfw, hfh⟩ := hfar
  have hgrid : ∀ a b : Nat, a < 32 → b < 32 → ¬ inRectN R a b := by
    intro a b ha hb hin
    obtain ⟨i1, i2, i3, i4⟩ := hin
    rcases hf with (h | h) | (h | h) <;> omega
  have hcongrAll : ∀ m : Int × Int,
      matcherAt wNew groups (variantOf rules c) m =
        matcherAt wOld groups (variantOf rules c) m := by
    intro m
    apply matcherAt_congr _ _ _ _ ⟨hox, hoy, hw, hh⟩
    intro a b ha hb _ _
    exact hagree a b ha hb (hgrid a b ha hb)
  refine ⟨?_, ?_, ?_⟩
  · intro m hm
    rw [mem_updateEntry] at hm
    rcases hm with ⟨hold, _⟩ | ⟨_, _, _, _, hmm⟩
    · rw [hcongrAll m]
      exact hsound m hold
    · exact hmm
  · intro m hm
    rw [mem_updateEntry] at hm
    rcases hm with ⟨hold, _⟩ | ⟨ha1, ha2, ha3, ha4, _⟩
    · exact hbnd m hold
    · unfold wrapSubU at ha1 ha3
      unfold wrapAddU at ha2 ha4
      have l1 := (w64_mem (R.1 - (usub (variantOf rules c).width 1 : Nat))).1
      have l2 := (w64_mem (w64 (R.1 + (R.2.2.1 : Int)) +
        ((usub (variantOf rules c).width 1 : Nat) : Int))).2
      have l3 := (w64_mem (R.2.1 - (usub (variantOf rules c).height 1 : Nat))).1
      have l4 := (w64_mem (w64 (R.2.1 + (R.2.2.2 : Int)) +
        ((usub (variantOf rules c).height 1 : Nat) : Int))).2
      exact ⟨by omega, by omega, by omega, by omega⟩
  · intro m hbord hmatch
    have hcorner := bordered_corner _ ⟨hox, hoy, hw, hh⟩ m hbord
    obtain ⟨b1, b2, b3, b4⟩ := hbord
    rw [mem_updateEntry]
    left
    rw [hcorner.1, hcorner.2]
    refine ⟨?_, ?_⟩
    · apply hcomp m ⟨b1, b2, b3, b4⟩
      rw [← hcongrAll m]
      exact hmatch
    · rw [← Bool.not_eq_true]
      intro hov
      unfold overlapRect satAddU at hov
      simp only [Bool.and_eq_true, decide_eq_true_eq] at hov
      obtain ⟨⟨⟨o1, o2⟩, o3⟩, o4⟩ := hov
      simp only [I64] at o1 o2 o3 o4
      rcases hf with (h | h) | (h | h) <;> omega

/-- A single bounded write of `apply_rule` leaves every grid cell
outside the variant's window at the anchor unchanged. -/
theorem set_cell_outside (acc : World) (v : SubRule) (hs : v.Sane) (x y : Int)
    (dx dy : Nat) (hdx : dx < v.width) (hdy : dy < v.height) (cl : Cell)
    (a b : Nat) (ha : a < 32) (hb : b < 32)
    (hout : ¬ inRectN (wrapSubU x v.origin_x, wrapSubU y v.origin_y,
      v.width, v.height) a b) :
    acc.set_cell (castUsize (wrapSubU (wrapAddU x dx) v.origin_x))
      (castUsize (wrapSubU (wrapAddU y dy) v.origin_y)) cl a b = acc a b := by
  obtain ⟨hox, hoy, hw, hh⟩ := hs
  rw [wrap_shift, wrap_shift]
  have hcx : -I64 ≤ wrapSubU x v.origin_x ∧ wrapSubU x v.origin_x < I64 :=
    w64_mem _
  have hcy : -I64 ≤ wrapSubU y v.origin_y ∧ wrapSubU y v.origin_y < I64 :=
    w64_mem _
  rcases read_coord (wrapSubU x v.origin_x) hcx.1 hcx.2 dx (by omega) with
    ⟨hx1, hx2, hx3⟩ | ⟨_, hx3⟩
  · rcases read_coord (wrapSubU y v.origin_y) hcy.1 hcy.2 dy (by omega) with
      ⟨hy1, hy2, hy3⟩ | ⟨_, hy3⟩
    · unfold World.set_cell CHUNK_SIZE
      rw [if_neg (by omega)]
      show (if a = castUsize (wrapAddU (wrapSubU x v.origin_x) dx) ∧
          b = castUsize (wrapAddU (wrapSubU y v.origin_y) dy) then cl
        else acc a b) = acc a b
      rw [if_neg]
      rintro ⟨rfl, rfl⟩
      apply hout
      refine ⟨?_, ?_, ?_, ?_⟩ <;> dsimp only <;> omega
    · unfold World.set_cell CHUNK_SIZE
      rw [if_pos (by omega)]
  · unfold World.set_cell CHUNK_SIZE
    rw [if_pos (by omega)]

/-- One iteration of the write loop leaves every grid cell outside the
variant's window at the anchor unchanged. -/
theorem writeCell_outside (acc : World) (groups : List CellGroup) (v : SubRule)
    (hs : v.Sane) (old : List (Option Cell)) (x y : Int)
    (grng : Nat → Nat → Nat) (dx dy : Nat) (hdx : dx < v.width)
    (hdy : dy < v.height) (a b : Nat) (ha : a < 32) (hb : b < 32)
    (hout : ¬ inRectN (wrapSubU x v.origin_x, wrapSubU y v.origin_y,
      v.width, v.height) a b) :
    writeCell acc groups v old x y grng dx dy a b = acc a b := by
  have hset : ∀ cl : Cell,
      acc.set_cell (castUsize (wrapSubU (wrapAddU x dx) v.origin_x))
        (castUsize (wrapSubU (wrapAddU y dy) v.origin_y)) cl a b = acc a b :=
    fun cl => set_cell_outside acc v hs x y dx dy hdx hdy cl a b ha hb hout
  unfold writeCell
  cases hg : (v.get dx dy).2 with
  | one cl => exact hset cl
  | groupRandom gid =>
    dsimp only
    by_cases hc : (groups.getD gid default).cells.isEmpty = true
    · rw [if_pos hc]
    · rw [if_neg hc]
      exact hset _
  | copy cx cy =>
    dsimp only
    by_cases hge : uadd cx (umul cy v.width) ≥ old.length
    · rw [if_pos hge]
    · rw [if_neg hge]
      cases ho : old.getD (uadd cx (umul cy v.width)) Option.none with
      | some cl => exact hset cl
      | none => rfl
  | none => rfl

/-- The full write loop of `apply_rule` changes the world only inside
the rectangle later handed to `update_cache`. -/
theorem applyWrites_outside (wld : World) (groups : List CellGroup)
    (v : SubRule) (hs : v.Sane) (x y : Int) (grng : Nat → Nat → Nat)
    (a b : Nat) (ha : a < 32) (hb : b < 32)
    (hout : ¬ inRectN (wrapSubU x v.origin_x, wrapSubU y v.origin_y,
      v.width, v.height) a b) :
    applyWrites wld groups v x y grng a b = wld a b := by
  unfold applyWrites
  have hinner : ∀ (old : List (Option Cell)) (dx : Nat), dx < v.width →
      ∀ (l : List Nat), (∀ e ∈ l, e < v.height) →
      ∀ acc : World, acc a b = wld a b →
      (l.foldl (fun acc2 dy => writeCell acc2 groups v old x y grng dx dy)
        acc) a b = wld a b := by
    intro old dx hdx l
    induction l with
    | nil => intro _ acc hacc; exact hacc
    | cons e es ih =>
      intro hl acc hacc
      rw [List.foldl_cons]
      apply ih (fun e2 he2 => hl e2 (List.mem_cons_of_mem _ he2))
      rw [writeCell_outside acc groups v hs old x y grng dx e hdx
        (hl e (List.mem_cons_self _ _)) a b ha hb hout]
      exact hacc
  have houter : ∀ (old : List (Option Cell)) (l : List Nat),
      (∀ e ∈ l, e < v.width) →
      ∀ acc : World, acc a b = wld a b →
      (l.foldl (fun acc2 dx => (List.range v.height).foldl
        (fun acc3 dy => writeCell acc3 groups v old x y grng dx dy) acc2)
        acc) a b = wld a b := by
    intro old l
    induction l with
    | nil => intro _ acc hacc; exact hacc
    | cons e es ih =>
      intro hl acc hacc
      rw [List.foldl_cons]
      apply ih (fun e2 he2 => hl e2 (List.mem_cons_of_mem _ he2))
      apply hinner old e (hl e (List.mem_cons_self _ _))
      · intro e2 he2
        exact List.mem_range.mp he2
      · exact hacc
  apply houter _ (List.range v.width)
  · intro e he
    exact List.mem_range.mp he
  · rfl

/-- The full bordered scan of one variant (the scan `rebuild_cache` and
`add_cache_single_rule` perform). -/
def rebuildScan (w : World) (groups : List CellGroup) (v : SubRule) :
    List (Int × Int) :=
  variantScan w groups v (scanLo v.width) (scanHi v.width)
    (scanLo v.height) (scanHi v.height)

/-- One freshly built cache entry of `add_cache_single_rule`. -/
def scanEntry (w : World) (groups : List CellGroup) (v : SubRule)
    (i vi : Nat) : RuleCache :=
  { rule := i, variant := vi, matchList := rebuildScan w groups v }

theorem mem_rebuildScan2 (w : World) (groups : List CellGroup) (v : SubRule)
    (hs : v.Sane) (m : Int × Int) :
    m ∈ rebuildScan w groups v ↔
      (borderedRect v m ∧ matcherAt w groups v m = true) := by
  unfold rebuildScan
  exact mem_rebuildScan w groups v hs m

theorem scanEntry_rule (w : World) (groups : List CellGroup) (v : SubRule)
    (i vi : Nat) : (scanEntry w groups v i vi).rule = i := by
  unfold scanEntry
  rfl

theorem scanEntry_variant (w : World) (groups : List CellGroup) (v : SubRule)
    (i vi : Nat) : (scanEntry w groups v i vi).variant = vi := by
  unfold scanEntry
  rfl

theorem scanEntry_matchList (w : World) (groups : List CellGroup) (v : SubRule)
    (i vi : Nat) :
    (scanEntry w groups v i vi).matchList = rebuildScan w groups v := by
  unfold scanEntry
  with_reducible rfl

/-- The cache entries `add_cache_single_rule` appends for rule `i`. -/
def entriesFor (w : World) (groups : List CellGroup) (rules : List Rule)
    (i : Nat) : List RuleCache :=
  if (rules.getD i default).enabled then
    (List.range (rules.getD i default).variants.length).map fun vi =>
      scanEntry w groups ((rules.getD i default).variants.getD vi default) i vi
  else []

theorem addCacheRule_eq (d : Dish) (i : Nat) :
    addCacheRule d i (d.rules.getD i default) =
      { d with cache := d.cache ++ entriesFor d.world d.groups d.rules i } := by
  unfold addCacheRule entriesFor
  by_cases he : (d.rules.getD i default).enabled
  · rw [he]
    rfl
  · have he' : (d.rules.getD i default).enabled = false := by
      cases h2 : (d.rules.getD i default).enabled
      · rfl
      · exact absurd h2 he
    rw [he']
    show d = { d with cache := d.cache ++ [] }
    rw [List.append_nil]

/-- The cache-building fold of `rebuild_cache`, characterised. -/
theorem foldl_addCacheRule (l : List Nat) (d : Dish) :
    (l.foldl (fun dd i => addCacheRule dd i (dd.rules.getD i default)) d) =
      { d with cache :=
          d.cache ++ l.flatMap (entriesFor d.world d.groups d.rules) } := by
  induction l generalizing d with
  | nil =>
    show d = { d with cache := d.cache ++ [] }
    rw [List.append_nil]
  | cons e es ih =>
    rw [List.foldl_cons, addCacheRule_eq, ih]
    show ({ d with
          cache := (d.cache ++ entriesFor d.world d.groups d.rules e) ++
            es.flatMap (entriesFor d.world d.groups d.rules) } : Dish) =
      { d with
          cache := d.cache ++ (entriesFor d.world d.groups d.rules e ++
            es.flatMap (entriesFor d.world d.groups d.rules)) }
    rw [List.append_assoc]

/-- `rebuild_cache`, characterised: the canonical per-rule, per-variant
entries of the bordered grid scan, then `update_match_cache`. -/
theorem rebuild_cache_eq (d : Dish) :
    d.rebuild_cache =
      ({ d with
          cache := (List.range d.rules.length).flatMap
            (entriesFor d.world d.groups d.rules) } : Dish).update_match_cache := by
  unfold Dish.rebuild_cache
  show ((List.range d.rules.length).foldl
      (fun dd i => addCacheRule dd i (dd.rules.getD i default))
      ({ d with cache := [] } : Dish)).update_match_cache = _
  rw [foldl_addCacheRule]
  show ({ d with
      cache := [] ++ (List.range d.rules.length).flatMap
        (entriesFor d.world d.groups d.rules) } : Dish).update_match_cache = _
  rw [List.nil_append]

theorem rebuild_cache_cache (d : Dish) :
    d.rebuild_cache.cache =
      (List.range d.rules.length).flatMap
        (entriesFor d.world d.groups d.rules) := by
  rw [rebuild_cache_eq]
  rfl

/-- The signature list every consistent cache carries: one `(rule,
variant)` pair per variant of each enabled rule. -/
def canonicalShape (rules : List Rule) : List (Nat × Nat) :=
  (List.range rules.length).flatMap fun i =>
    if (rules.getD i default).enabled then
      (List.range (rules.getD i default).variants.length).map fun vi => (i, vi)
    else []

theorem entriesFor_shape (w : World) (groups : List CellGroup)
    (rules : List Rule) (i : Nat) :
    (entriesFor w groups rules i).map (fun c => (c.rule, c.variant)) =
      if (rules.getD i default).enabled then
        (List.range (rules.getD i default).variants.length).map fun vi => (i, vi)
      else [] := by
  unfold entriesFor
  by_cases he : (rules.getD i default).enabled
  · rw [if_pos he, if_pos he, List.map_map]
    rfl
  · rw [if_neg he, if_neg he]
    rfl

theorem rebuild_shape (d : Dish) :
    d.rebuild_cache.cache.map (fun c => (c.rule, c.variant)) =
      canonicalShape d.rules := by
  rw [rebuild_cache_cache, List.map_flatMap]
  unfold canonicalShape
  simp only [entriesFor_shape]

theorem mem_canonicalShape (rules : List Rule) (i vi : Nat) :
    (i, vi) ∈ canonicalShape rules ↔
      i < rules.length ∧ (rules.getD i default).enabled = true ∧
        vi < (rules.getD i default).variants.length := by
  unfold canonicalShape
  rw [List.mem_flatMap]
  constructor
  · rintro ⟨j, hj, hmem⟩
    rw [List.mem_range] at hj
    by_cases he : (rules.getD j default).enabled
    · rw [if_pos he, List.mem_map] at hmem
      obtain ⟨vj, hvj, heq⟩ := hmem
      rw [Prod.mk.injEq] at heq
      obtain ⟨rfl, rfl⟩ := heq
      exact ⟨hj, he, List.mem_range.mp hvj⟩
    · rw [if_neg he] at hmem
      cases hmem
  · rintro ⟨h1, h2, h3⟩
    refine ⟨i, List.mem_range.mpr h1, ?_⟩
    rw [if_pos h2, List.mem_map]
    exact ⟨vi, List.mem_range.mpr h3, rfl⟩

/-- Consistency of one cache entry with a world / rule set: every
recorded anchor matches; anchors are in `isize` range; every matching
anchor of the bordered scan rectangle is recorded. -/
def EntryOK (w : World) (groups : List CellGroup) (rules : List Rule)
    (c : RuleCache) : Prop :=
  (∀ m ∈ c.matchList, matcherAt w groups (variantOf rules c) m = true) ∧
  (∀ m ∈ c.matchList, -I64 ≤ m.1 ∧ m.1 < I64 ∧ -I64 ≤ m.2 ∧ m.2 < I64) ∧
  (∀ m, borderedRect (variantOf rules c) m →
    matcherAt w groups (variantOf rules c) m = true → m ∈ c.matchList)

/-- The cache invariant maintained by the engine operations. -/
def CacheOK (d : Dish) : Prop :=
  RulesSane d.rules ∧
  (d.cache.map fun c => (c.rule, c.variant)).Perm (canonicalShape d.rules) ∧
  (∀ c ∈ d.cache, EntryOK d.world d.groups d.rules c) ∧
  MatchCacheOK d

theorem shape_entry_sane (rules : List Rule) (hr : RulesSane rules)
    (cache : List RuleCache)
    (hsh : (cache.map fun c => (c.rule, c.variant)).Perm (canonicalShape rules))
    (c : RuleCache) (hc : c ∈ cache) : (variantOf rules c).Sane := by
  have h1 : (c.rule, c.variant) ∈ canonicalShape rules := by
    rw [← hsh.mem_iff]
    exact List.mem_map_of_mem _ hc
  rw [mem_canonicalShape] at h1
  obtain ⟨hi, he, hv⟩ := h1
  unfold variantOf
  apply hr (rules.getD c.rule default)
  · rw [List.getD_eq_getElem _ _ hi]
    exact List.getElem_mem _
  · rw [List.getD_eq_getElem _ _ hv]
    exact List.getElem_mem _

/-- Every entry `add_cache_single_rule` builds is consistent. -/
theorem entriesFor_entryOK (w : World) (groups : List CellGroup)
    (rules : List Rule) (hr : RulesSane rules) (i : Nat)
    (hi : i < rules.length) (c : RuleCache)
    (hc : c ∈ entriesFor w groups rules i) : EntryOK w groups rules c := by
  unfold entriesFor at hc
  by_cases he : (rules.getD i default).enabled
  · rw [if_pos he, List.mem_map] at hc
    obtain ⟨vi, hvi, heq⟩ := hc
    rw [List.mem_range] at hvi
    have hsane : ((rules.getD i default).variants.getD vi default).Sane := by
      apply hr (rules.getD i default)
      · rw [List.getD_eq_getElem _ _ hi]
        exact List.getElem_mem _
      · rw [List.getD_eq_getElem _ _ hvi]
        exact List.getElem_mem _
    have hml : c.matchList = rebuildScan w groups
        ((rules.getD i default).variants.getD vi default) := by
      rw [← heq]
      exact scanEntry_matchList w groups _ i vi
    have hvar : variantOf rules c =
        (rules.getD i default).variants.getD vi default := by
      have h1 : c.rule = i := by
        rw [← heq]
        exact scanEntry_rule w groups _ i vi
      have h2 : c.variant = vi := by
        rw [← heq]
        exact scanEntry_variant w groups _ i vi
      unfold variantOf
      rw [h1, h2]
    have hscan := mem_rebuildScan2 w groups
      ((rules.getD i default).variants.getD vi default) hsane
    have hwidth := hsane.2.2.1
    have hheight := hsane.2.2.2
    refine ⟨?_, ?_, ?_⟩
    · intro m hm
      rw [hml] at hm
      rw [hvar]
      exact ((hscan m).mp hm).2
    · intro m hm
      rw [hml] at hm
      obtain ⟨⟨b1, b2, b3, b4⟩, _⟩ := (hscan m).mp hm
      simp only [I64]
      refine ⟨?_, ?_, ?_, ?_⟩ <;> omega
    · intro m hb hm
      rw [hml]
      rw [hvar] at hb hm
      exact (hscan m).mpr ⟨hb, hm⟩
  · rw [if_neg he] at hc
    cases hc

theorem rebuild_fields (d : Dish) :
    d.rebuild_cache.world = d.world ∧ d.rebuild_cache.rules = d.rules ∧
      d.rebuild_cache.groups = d.groups := by
  rw [rebuild_cache_eq]
  exact ⟨rfl, rfl, rfl⟩

/-- `rebuild_cache` establishes the cache invariant. -/
theorem rebuild_establishes (d : Dish) (hr : RulesSane d.rules) :
    CacheOK d.rebuild_cache := by
  unfold CacheOK
  rw [(rebuild_fields d).1, (rebuild_fields d).2.1, (rebuild_fields d).2.2]
  refine ⟨hr, ?_, ?_, ?_⟩
  · rw [rebuild_shape]
  · intro c hc
    have hc2 : c ∈ (List.range d.rules.length).flatMap
        (entriesFor d.world d.groups d.rules) := by
      rw [← rebuild_cache_cache]
      exact hc
    rw [List.mem_flatMap] at hc2
    obtain ⟨i, hi, hci⟩ := hc2
    exact entriesFor_entryOK d.world d.groups d.rules hr i
      (List.mem_range.mp hi) c hci
  · exact update_match_cache_ok _

/-- `update_cache` on a rectangle of bounded dimensions, applied after
world changes confined to the rectangle, preserves the cache
invariant. -/
theorem update_cache_preserves (d : Dish) (w' : World) (cx cy : Int)
    (wd ht : Nat)
    (hwd : (wd : Int) ≤ 4294967296) (hht : (ht : Int) ≤ 4294967296)
    (hagree : ∀ a b : Nat, a < 32 → b < 32 → ¬ inRectN (cx, cy, wd, ht) a b →
      w' a b = d.world a b)
    (hok : CacheOK d) :
    CacheOK (({ d with world := w' } : Dish).update_cache cx cy wd ht) := by
  obtain ⟨hr, hsh, hent, _⟩ := hok
  refine ⟨hr, ?_, ?_, ?_⟩
  · show ((d.cache.map
        (updateEntry w' d.groups d.rules (cx, cy, wd, ht))).map
        fun c => (c.rule, c.variant)).Perm (canonicalShape d.rules)
    rw [List.map_map]
    have hfn : ((fun c : RuleCache => (c.rule, c.variant)) ∘
        updateEntry w' d.groups d.rules (cx, cy, wd, ht)) =
        fun c : RuleCache => (c.rule, c.variant) := by
      funext c
      show ((updateEntry w' d.groups d.rules (cx, cy, wd, ht) c).rule,
        (updateEntry w' d.groups d.rules (cx, cy, wd, ht) c).variant) =
        (c.rule, c.variant)
      rw [(updateEntry_fields w' d.groups d.rules (cx, cy, wd, ht) c).1,
        (updateEntry_fields w' d.groups d.rules (cx, cy, wd, ht) c).2]
    rw [hfn]
    exact hsh
  · intro c2 hc2
    have hc3 : c2 ∈ d.cache.map
        (updateEntry w' d.groups d.rules (cx, cy, wd, ht)) := hc2
    rw [List.mem_map] at hc3
    obtain ⟨c, hc, rfl⟩ := hc3
    have hsane : (variantOf d.rules c).Sane :=
      shape_entry_sane d.rules hr d.cache hsh c hc
    obtain ⟨hs1, hs2, hs3⟩ := hent c hc
    have hvar : variantOf d.rules
        (updateEntry w' d.groups d.rules (cx, cy, wd, ht) c) =
        variantOf d.rules c := by
      unfold variantOf
      rw [(updateEntry_fields w' d.groups d.rules (cx, cy, wd, ht) c).1,
        (updateEntry_fields w' d.groups d.rules (cx, cy, wd, ht) c).2]
    show EntryOK w' d.groups d.rules
      (updateEntry w' d.groups d.rules (cx, cy, wd, ht) c)
    unfold EntryOK
    rw [hvar]
    rcases sane_or_far (cx, cy, wd, ht) hwd hht with hS | hF
    · exact updateEntry_main w' d.world d.groups d.rules (cx, cy, wd, ht) c
        hsane hS hagree hs1 hs2 hs3
    · exact updateEntry_far w' d.world d.groups d.rules (cx, cy, wd, ht) c
        hsane hF hagree hs1 hs2 hs3
  · exact update_match_cache_ok _

theorem apply_rule_fields (d : Dish) (x y : Int) (ri vi rFail : Nat)
    (grng : Nat → Nat → Nat) :
    (d.apply_rule x y ri vi rFail grng).rules = d.rules ∧
    (d.apply_rule x y ri vi rFail grng).groups = d.groups ∧
    (d.apply_rule x y ri vi rFail grng).cache = d.cache ∧
    (d.apply_rule x y ri vi rFail grng).match_cache = d.match_cache := by
  rw [apply_rule_abort_iff]
  by_cases h : rFail < (d.rules.getD ri default).failrate
  · rw [if_pos h]
    exact ⟨rfl, rfl, rfl, rfl⟩
  · rw [if_neg h]
    exact ⟨rfl, rfl, rfl, rfl⟩

/-- Applying a rule variant at an anchor and then updating the cache
over that variant's bounding rectangle preserves the cache invariant:
the step's world writes are confined to the very rectangle it passes to
`update_cache`. -/
theorem apply_update_preserves (d : Dish) (x y : Int) (ri vi rFail : Nat)
    (grng : Nat → Nat → Nat) (hok : CacheOK d)
    (hsane : ((d.rules.getD ri default).variants.getD vi default).Sane) :
    CacheOK ((d.apply_rule x y ri vi rFail grng).update_cache
      (wrapSubU x ((d.rules.getD ri default).variants.getD vi default).origin_x)
      (wrapSubU y ((d.rules.getD ri default).variants.getD vi default).origin_y)
      ((d.rules.getD ri default).variants.getD vi default).width
      ((d.rules.getD ri default).variants.getD vi default).height) := by
  obtain ⟨hox, hoy, hw, hh⟩ := hsane
  rw [apply_rule_abort_iff]
  by_cases habort : rFail < (d.rules.getD ri default).failrate
  · rw [if_pos habort]
    have h2 := update_cache_preserves d d.world
      (wrapSubU x ((d.rules.getD ri default).variants.getD vi default).origin_x)
      (wrapSubU y ((d.rules.getD ri default).variants.getD vi default).origin_y)
      ((d.rules.getD ri default).variants.getD vi default).width
      ((d.rules.getD ri default).variants.getD vi default).height
      (by omega) (by omega) (fun a b _ _ _ => rfl) hok
    exact h2
  · rw [if_neg habort]
    exact update_cache_preserves d
      (applyWrites d.world d.groups
        ((d.rules.getD ri default).variants.getD vi default) x y grng)
      (wrapSubU x ((d.rules.getD ri default).variants.getD vi default).origin_x)
      (wrapSubU y ((d.rules.getD ri default).variants.getD vi default).origin_y)
      ((d.rules.getD ri default).variants.getD vi default).width
      ((d.rules.getD ri default).variants.getD vi default).height
      (by omega) (by omega)
      (fun a b ha hb hout => applyWrites_outside d.world d.groups
        ((d.rules.getD ri default).variants.getD vi default)
        ⟨hox, hoy, hw, hh⟩ x y grng a b ha hb hout)
      hok

/-- `apply_one_match` preserves the cache invariant. -/
theorem apply_one_match_preserves (d : Dish) (r1 r2 rFail : Nat)
    (grng : Nat → Nat → Nat) (hok : CacheOK d) :
    CacheOK (d.apply_one_match r1 r2 rFail grng) := by
  obtain ⟨hr, hsh, hent, hmc⟩ := hok
  unfold Dish.apply_one_match
  by_cases hemp : d.match_cache.isEmpty = true
  · rw [if_pos hemp]
    exact ⟨hr, hsh, hent, hmc⟩
  · rw [if_neg hemp]
    show CacheOK ((d.apply_rule ((d.cache.getD (d.match_cache.getD (r1 % d.match_cache.length) 0) default).matchList.getD (r2 % (d.cache.getD (d.match_cache.getD (r1 % d.match_cache.length) 0) default).matchList.length) (0, 0)).1 ((d.cache.getD (d.match_cache.getD (r1 % d.match_cache.length) 0) default).matchList.getD (r2 % (d.cache.getD (d.match_cache.getD (r1 % d.match_cache.length) 0) default).matchList.length) (0, 0)).2 (d.cache.getD (d.match_cache.getD (r1 % d.match_cache.length) 0) default).rule (d.cache.getD (d.match_cache.getD (r1 % d.match_cache.length) 0) default).variant rFail grng).update_cache
      (wrapSubU ((d.cache.getD (d.match_cache.getD (r1 % d.match_cache.length) 0) default).matchList.getD (r2 % (d.cache.getD (d.match_cache.getD (r1 % d.match_cache.length) 0) default).matchList.length) (0, 0)).1 ((d.rules.getD (d.cache.getD (d.match_cache.getD (r1 % d.match_cache.length) 0) default).rule default).variants.getD (d.cache.getD (d.match_cache.getD (r1 % d.match_cache.length) 0) default).variant default).origin_x)
      (wrapSubU ((d.cache.getD (d.match_cache.getD (r1 % d.match_cache.length) 0) default).matchList.getD (r2 % (d.cache.getD (d.match_cache.getD (r1 % d.match_cache.length) 0) default).matchList.length) (0, 0)).2 ((d.rules.getD (d.cache.getD (d.match_cache.getD (r1 % d.match_cache.length) 0) default).rule default).variants.getD (d.cache.getD (d.match_cache.getD (r1 % d.match_cache.length) 0) default).variant default).origin_y)
      ((d.rules.getD (d.cache.getD (d.match_cache.getD (r1 % d.match_cache.length) 0) default).rule default).variants.getD (d.cache.getD (d.match_cache.getD (r1 % d.match_cache.length) 0) default).variant default).width ((d.rules.getD (d.cache.getD (d.match_cache.getD (r1 % d.match_cache.length) 0) default).rule default).variants.getD (d.cache.getD (d.match_cache.getD (r1 % d.match_cache.length) 0) default).variant default).height)
    have hpos : 0 < d.match_cache.length := by
      cases hml : d.match_cache with
      | nil =>
        rw [hml] at hemp
        exact absurd rfl hemp
      | cons a as =>
        exact Nat.succ_pos _
    have himem : d.match_cache.getD (r1 % d.match_cache.length) 0 ∈
        d.match_cache := by
      rw [List.getD_eq_getElem _ _ (Nat.mod_lt _ hpos)]
      exact List.getElem_mem _
    obtain ⟨rc0, hrc0, hne0⟩ := (hmc _).mp himem
    have hlt : d.match_cache.getD (r1 % d.match_cache.length) 0 <
        d.cache.length := by
      rcases List.getElem?_eq_some_iff.mp hrc0 with ⟨h2, _⟩
      exact h2
    have hrceq : d.cache.getD
        (d.match_cache.getD (r1 % d.match_cache.length) 0) default = rc0 := by
      rw [List.getD_eq_getElem _ _ hlt]
      rcases List.getElem?_eq_some_iff.mp hrc0 with ⟨h2, heq⟩
      exact heq
    have hmem0 : rc0 ∈ d.cache := by
      rw [← hrceq, List.getD_eq_getElem _ _ hlt]
      exact List.getElem_mem _
    have hsane0 : (variantOf d.rules rc0).Sane :=
      shape_entry_sane d.rules hr d.cache hsh rc0 hmem0
    rw [hrceq]
    exact apply_update_preserves d _ _ rc0.rule rc0.variant rFail grng
      ⟨hr, hsh, hent, hmc⟩ hsane0

theorem mem_get_matches_at_point (d : Dish) (x y : Int) (rv : Nat × Nat)
    (h : rv ∈ d.get_matches_at_point x y) :
    ∃ rc ∈ d.cache, rv = (rc.rule, rc.variant) := by
  unfold Dish.get_matches_at_point at h
  rw [List.mem_flatMap] at h
  obtain ⟨rc, hrc, h2⟩ := h
  rw [List.mem_filterMap] at h2
  obtain ⟨m, hm, hif⟩ := h2
  by_cases hc : m.1 = x ∧ m.2 = y
  · rw [if_pos hc] at hif
    exact ⟨rc, hrc, (Option.some_inj.mp hif).symm⟩
  · rw [if_neg hc] at hif
    cases hif

/-- `try_one_location` preserves the cache invariant. -/
theorem try_one_location_preserves (d : Dish) (rx ry rPick rFail : Nat)
    (grng : Nat → Nat → Nat) (hok : CacheOK d) :
    CacheOK (d.try_one_location rx ry rPick rFail grng) := by
  unfold Dish.try_one_location
  by_cases hemp : (d.get_matches_at_point (wrapSubU (castIsize (rx % uadd 32 (umul (usub d.max_rule_width 1) 2))) (usub d.max_rule_width 1)) (wrapSubU (castIsize (ry % uadd 32 (umul (usub d.max_rule_height 1) 2))) (usub d.max_rule_height 1))).isEmpty = true
  · rw [if_pos hemp]
    exact hok
  · rw [if_neg hemp]
    show CacheOK ((d.apply_rule (wrapSubU (castIsize (rx % uadd 32 (umul (usub d.max_rule_width 1) 2))) (usub d.max_rule_width 1)) (wrapSubU (castIsize (ry % uadd 32 (umul (usub d.max_rule_height 1) 2))) (usub d.max_rule_height 1)) ((d.get_matches_at_point (wrapSubU (castIsize (rx % uadd 32 (umul (usub d.max_rule_width 1) 2))) (usub d.max_rule_width 1)) (wrapSubU (castIsize (ry % uadd 32 (umul (usub d.max_rule_height 1) 2))) (usub d.max_rule_height 1))).getD (rPick % (d.get_matches_at_point (wrapSubU (castIsize (rx % uadd 32 (umul (usub d.max_rule_width 1) 2))) (usub d.max_rule_width 1)) (wrapSubU (castIsize (ry % uadd 32 (umul (usub d.max_rule_height 1) 2))) (usub d.max_rule_height 1))).length) (0, 0)).1 ((d.get_matches_at_point (wrapSubU (castIsize (rx % uadd 32 (umul (usub d.max_rule_width 1) 2))) (usub d.max_rule_width 1)) (wrapSubU (castIsize (ry % uadd 32 (umul (usub d.max_rule_height 1) 2))) (usub d.max_rule_height 1))).getD (rPick % (d.get_matches_at_point (wrapSubU (castIsize (rx % uadd 32 (umul (usub d.max_rule_width 1) 2))) (usub d.max_rule_width 1)) (wrapSubU (castIsize (ry % uadd 32 (umul (usub d.max_rule_height 1) 2))) (usub d.max_rule_height 1))).length) (0, 0)).2 rFail grng).update_cache
      (wrapSubU (wrapSubU (castIsize (rx % uadd 32 (umul (usub d.max_rule_width 1) 2))) (usub d.max_rule_width 1))
        (((d.apply_rule (wrapSubU (castIsize (rx % uadd 32 (umul (usub d.max_rule_width 1) 2))) (usub d.max_rule_width 1)) (wrapSubU (castIsize (ry % uadd 32 (umul (usub d.max_rule_height 1) 2))) (usub d.max_rule_height 1)) ((d.get_matches_at_point (wrapSubU (castIsize (rx % uadd 32 (umul (usub d.max_rule_width 1) 2))) (usub d.max_rule_width 1)) (wrapSubU (castIsize (ry % uadd 32 (umul (usub d.max_rule_height 1) 2))) (usub d.max_rule_height 1))).getD (rPick % (d.get_matches_at_point (wrapSubU (castIsize (rx % uadd 32 (umul (usub d.max_rule_width 1) 2))) (usub d.max_rule_width 1)) (wrapSubU (castIsize (ry % uadd 32 (umul (usub d.max_rule_height 1) 2))) (usub d.max_rule_height 1))).length) (0, 0)).1 ((d.get_matches_at_point (wrapSubU (castIsize (rx % uadd 32 (umul (usub d.max_rule_width 1) 2))) (usub d.max_rule_width 1)) (wrapSubU (castIsize (ry % uadd 32 (umul (usub d.max_rule_height 1) 2))) (usub d.max_rule_height 1))).getD (rPick % (d.get_matches_at_point (wrapSubU (castIsize (rx % uadd 32 (umul (usub d.max_rule_width 1) 2))) (usub d.max_rule_width 1)) (wrapSubU (castIsize (ry % uadd 32 (umul (usub d.max_rule_height 1) 2))) (usub d.max_rule_height 1))).length) (0, 0)).2 rFail
          grng).rules.getD ((d.get_matches_at_point (wrapSubU (castIsize (rx % uadd 32 (umul (usub d.max_rule_width 1) 2))) (usub d.max_rule_width 1)) (wrapSubU (castIsize (ry % uadd 32 (umul (usub d.max_rule_height 1) 2))) (usub d.max_rule_height 1))).getD (rPick % (d.get_matches_at_point (wrapSubU (castIsize (rx % uadd 32 (umul (usub d.max_rule_width 1) 2))) (usub d.max_rule_width 1)) (wrapSubU (castIsize (ry % uadd 32 (umul (usub d.max_rule_height 1) 2))) (usub d.max_rule_height 1))).length) (0, 0)).1 default).variants.getD ((d.get_matches_at_point (wrapSubU (castIsize (rx % uadd 32 (umul (usub d.max_rule_width 1) 2))) (usub d.max_rule_width 1)) (wrapSubU (castIsize (ry % uadd 32 (umul (usub d.max_rule_height 1) 2))) (usub d.max_rule_height 1))).getD (rPick % (d.get_matches_at_point (wrapSubU (castIsize (rx % uadd 32 (umul (usub d.max_rule_width 1) 2))) (usub d.max_rule_width 1)) (wrapSubU (castIsize (ry % uadd 32 (umul (usub d.max_rule_height 1) 2))) (usub d.max_rule_height 1))).length) (0, 0)).2
          default).origin_x)
      (wrapSubU (wrapSubU (castIsize (ry % uadd 32 (umul (usub d.max_rule_height 1) 2))) (usub d.max_rule_height 1))
        (((d.apply_rule (wrapSubU (castIsize (rx % uadd 32 (umul (usub d.max_rule_width 1) 2))) (usub d.max_rule_width 1)) (wrapSubU (castIsize (ry % uadd 32 (umul (usub d.max_rule_height 1) 2))) (usub d.max_rule_height 1)) ((d.get_matches_at_point (wrapSubU (castIsize (rx % uadd 32 (umul (usub d.max_rule_width 1) 2))) (usub d.max_rule_width 1)) (wrapSubU (castIsize (ry % uadd 32 (umul (usub d.max_rule_height 1) 2))) (usub d.max_rule_height 1))).getD (rPick % (d.get_matches_at_point (wrapSubU (castIsize (rx % uadd 32 (umul (usub d.max_rule_width 1) 2))) (usub d.max_rule_width 1)) (wrapSubU (castIsize (ry % uadd 32 (umul (usub d.max_rule_height 1) 2))) (usub d.max_rule_height 1))).length) (0, 0)).1 ((d.get_matches_at_point (wrapSubU (castIsize (rx % uadd 32 (umul (usub d.max_rule_width 1) 2))) (usub d.max_rule_width 1)) (wrapSubU (castIsize (ry % uadd 32 (umul (usub d.max_rule_height 1) 2))) (usub d.max_rule_height 1))).getD (rPick % (d.get_matches_at_point (wrapSubU (castIsize (rx % uadd 32 (umul (usub d.max_rule_width 1) 2))) (usub d.max_rule_width 1)) (wrapSubU (castIsize (ry % uadd 32 (umul (usub d.max_rule_height 1) 2))) (usub d.max_rule_height 1))).length) (0, 0)).2 rFail
          grng).rules.getD ((d.get_matches_at_point (wrapSubU (castIsize (rx % uadd 32 (umul (usub d.max_rule_width 1) 2))) (usub d.max_rule_width 1)) (wrapSubU (castIsize (ry % uadd 32 (umul (usub d.max_rule_height 1) 2))) (usub d.max_rule_height 1))).getD (rPick % (d.get_matches_at_point (wrapSubU (castIsize (rx % uadd 32 (umul (usub d.max_rule_width 1) 2))) (usub d.max_rule_width 1)) (wrapSubU (castIsize (ry % uadd 32 (umul (usub d.max_rule_height 1) 2))) (usub d.max_rule_height 1))).length) (0, 0)).1 default).variants.getD ((d.get_matches_at_point (wrapSubU (castIsize (rx % uadd 32 (umul (usub d.max_rule_width 1) 2))) (usub d.max_rule_width 1)) (wrapSubU (castIsize (ry % uadd 32 (umul (usub d.max_rule_height 1) 2))) (usub d.max_rule_height 1))).getD (rPick % (d.get_matches_at_point (wrapSubU (castIsize (rx % uadd 32 (umul (usub d.max_rule_width 1) 2))) (usub d.max_rule_width 1)) (wrapSubU (castIsize (ry % uadd 32 (umul (usub d.max_rule_height 1) 2))) (usub d.max_rule_height 1))).length) (0, 0)).2
          default).origin_y)
      (((d.apply_rule (wrapSubU (castIsize (rx % uadd 32 (umul (usub d.max_rule_width 1) 2))) (usub d.max_rule_width 1)) (wrapSubU (castIsize (ry % uadd 32 (umul (usub d.max_rule_height 1) 2))) (usub d.max_rule_height 1)) ((d.get_matches_at_point (wrapSubU (castIsize (rx % uadd 32 (umul (usub d.max_rule_width 1) 2))) (usub d.max_rule_width 1)) (wrapSubU (castIsize (ry % uadd 32 (umul (usub d.max_rule_height 1) 2))) (usub d.max_rule_height 1))).getD (rPick % (d.get_matches_at_point (wrapSubU (castIsize (rx % uadd 32 (umul (usub d.max_rule_width 1) 2))) (usub d.max_rule_width 1)) (wrapSubU (castIsize (ry % uadd 32 (umul (usub d.max_rule_height 1) 2))) (usub d.max_rule_height 1))).length) (0, 0)).1 ((d.get_matches_at_point (wrapSubU (castIsize (rx % uadd 32 (umul (usub d.max_rule_width 1) 2))) (usub d.max_rule_width 1)) (wrapSubU (castIsize (ry % uadd 32 (umul (usub d.max_rule_height 1) 2))) (usub d.max_rule_height 1))).getD (rPick % (d.get_matches_at_point (wrapSubU (castIsize (rx % uadd 32 (umul (usub d.max_rule_width 1) 2))) (usub d.max_rule_width 1)) (wrapSubU (castIsize (ry % uadd 32 (umul (usub d.max_rule_height 1) 2))) (usub d.max_rule_height 1))).length) (0, 0)).2 rFail
        grng).rules.getD ((d.get_matches_at_point (wrapSubU (castIsize (rx % uadd 32 (umul (usub d.max_rule_width 1) 2))) (usub d.max_rule_width 1)) (wrapSubU (castIsize (ry % uadd 32 (umul (usub d.max_rule_height 1) 2))) (usub d.max_rule_height 1))).getD (rPick % (d.get_matches_at_point (wrapSubU (castIsize (rx % uadd 32 (umul (usub d.max_rule_width 1) 2))) (usub d.max_rule_width 1)) (wrapSubU (castIsize (ry % uadd 32 (umul (usub d.max_rule_height 1) 2))) (usub d.max_rule_height 1))).length) (0, 0)).1 default).variants.getD ((d.get_matches_at_point (wrapSubU (castIsize (rx % uadd 32 (umul (usub d.max_rule_width 1) 2))) (usub d.max_rule_width 1)) (wrapSubU (castIsize (ry % uadd 32 (umul (usub d.max_rule_height 1) 2))) (usub d.max_rule_height 1))).getD (rPick % (d.get_matches_at_point (wrapSubU (castIsize (rx % uadd 32 (umul (usub d.max_rule_width 1) 2))) (usub d.max_rule_width 1)) (wrapSubU (castIsize (ry % uadd 32 (umul (usub d.max_rule_height 1) 2))) (usub d.max_rule_height 1))).length) (0, 0)).2 default).width
      (((d.apply_rule (wrapSubU (castIsize (rx % uadd 32 (umul (usub d.max_rule_width 1) 2))) (usub d.max_rule_width 1)) (wrapSubU (castIsize (ry % uadd 32 (umul (usub d.max_rule_height 1) 2))) (usub d.max_rule_height 1)) ((d.get_matches_at_point (wrapSubU (castIsize (rx % uadd 32 (umul (usub d.max_rule_width 1) 2))) (usub d.max_rule_width 1)) (wrapSubU (castIsize (ry % uadd 32 (umul (usub d.max_rule_height 1) 2))) (usub d.max_rule_height 1))).getD (rPick % (d.get_matches_at_point (wrapSubU (castIsize (rx % uadd 32 (umul (usub d.max_rule_width 1) 2))) (usub d.max_rule_width 1)) (wrapSubU (castIsize (ry % uadd 32 (umul (usub d.max_rule_height 1) 2))) (usub d.max_rule_height 1))).length) (0, 0)).1 ((d.get_matches_at_point (wrapSubU (castIsize (rx % uadd 32 (umul (usub d.max_rule_width 1) 2))) (usub d.max_rule_width 1)) (wrapSubU (castIsize (ry % uadd 32 (umul (usub d.max_rule_height 1) 2))) (usub d.max_rule_height 1))).getD (rPick % (d.get_matches_at_point (wrapSubU (castIsize (rx % uadd 32 (umul (usub d.max_rule_width 1) 2))) (usub d.max_rule_width 1)) (wrapSubU (castIsize (ry % uadd 32 (umul (usub d.max_rule_height 1) 2))) (usub d.max_rule_height 1))).length) (0, 0)).2 rFail
        grng).rules.getD ((d.get_matches_at_point (wrapSubU (castIsize (rx % uadd 32 (umul (usub d.max_rule_width 1) 2))) (usub d.max_rule_width 1)) (wrapSubU (castIsize (ry % uadd 32 (umul (usub d.max_rule_height 1) 2))) (usub d.max_rule_height 1))).getD (rPick % (d.get_matches_at_point (wrapSubU (castIsize (rx % uadd 32 (umul (usub d.max_rule_width 1) 2))) (usub d.max_rule_width 1)) (wrapSubU (castIsize (ry % uadd 32 (umul (usub d.max_rule_height 1) 2))) (usub d.max_rule_height 1))).length) (0, 0)).1 default).variants.getD ((d.get_matches_at_point (wrapSubU (castIsize (rx % uadd 32 (umul (usub d.max_rule_width 1) 2))) (usub d.max_rule_width 1)) (wrapSubU (castIsize (ry % uadd 32 (umul (usub d.max_rule_height 1) 2))) (usub d.max_rule_height 1))).getD (rPick % (d.get_matches_at_point (wrapSubU (castIsize (rx % uadd 32 (umul (usub d.max_rule_width 1) 2))) (usub d.max_rule_width 1)) (wrapSubU (castIsize (ry % uadd 32 (umul (usub d.max_rule_height 1) 2))) (usub d.max_rule_height 1))).length) (0, 0)).2 default).height)
    rw [(apply_rule_fields d (wrapSubU (castIsize (rx % uadd 32 (umul (usub d.max_rule_width 1) 2))) (usub d.max_rule_width 1)) (wrapSubU (castIsize (ry % uadd 32 (umul (usub d.max_rule_height 1) 2))) (usub d.max_rule_height 1)) ((d.get_matches_at_point (wrapSubU (castIsize (rx % uadd 32 (umul (usub d.max_rule_width 1) 2))) (usub d.max_rule_width 1)) (wrapSubU (castIsize (ry % uadd 32 (umul (usub d.max_rule_height 1) 2))) (usub d.max_rule_height 1))).getD (rPick % (d.get_matches_at_point (wrapSubU (castIsize (rx % uadd 32 (umul (usub d.max_rule_width 1) 2))) (usub d.max_rule_width 1)) (wrapSubU (castIsize (ry % uadd 32 (umul (usub d.max_rule_height 1) 2))) (usub d.max_rule_height 1))).length) (0, 0)).1 ((d.get_matches_at_point (wrapSubU (castIsize (rx % uadd 32 (umul (usub d.max_rule_width 1) 2))) (usub d.max_rule_width 1)) (wrapSubU (castIsize (ry % uadd 32 (umul (usub d.max_rule_height 1) 2))) (usub d.max_rule_height 1))).getD (rPick % (d.get_matches_at_point (wrapSubU (castIsize (rx % uadd 32 (umul (usub d.max_rule_width 1) 2))) (usub d.max_rule_width 1)) (wrapSubU (castIsize (ry % uadd 32 (umul (usub d.max_rule_height 1) 2))) (usub d.max_rule_height 1))).length) (0, 0)).2 rFail grng).1]
    have hpos : 0 < (d.get_matches_at_point (wrapSubU (castIsize (rx % uadd 32 (umul (usub d.max_rule_width 1) 2))) (usub d.max_rule_width 1)) (wrapSubU (castIsize (ry % uadd 32 (umul (usub d.max_rule_height 1) 2))) (usub d.max_rule_height 1))).length := by
      cases hml : (d.get_matches_at_point (wrapSubU (castIsize (rx % uadd 32 (umul (usub d.max_rule_width 1) 2))) (usub d.max_rule_width 1)) (wrapSubU (castIsize (ry % uadd 32 (umul (usub d.max_rule_height 1) 2))) (usub d.max_rule_height 1))) with
      | nil =>
        rw [hml] at hemp
        exact absurd rfl hemp
      | cons a as =>
        exact Nat.succ_pos _
    have hrvmem : ((d.get_matches_at_point (wrapSubU (castIsize (rx % uadd 32 (umul (usub d.max_rule_width 1) 2))) (usub d.max_rule_width 1)) (wrapSubU (castIsize (ry % uadd 32 (umul (usub d.max_rule_height 1) 2))) (usub d.max_rule_height 1))).getD (rPick % (d.get_matches_at_point (wrapSubU (castIsize (rx % uadd 32 (umul (usub d.max_rule_width 1) 2))) (usub d.max_rule_width 1)) (wrapSubU (castIsize (ry % uadd 32 (umul (usub d.max_rule_height 1) 2))) (usub d.max_rule_height 1))).length) (0, 0)) ∈ (d.get_matches_at_point (wrapSubU (castIsize (rx % uadd 32 (umul (usub d.max_rule_width 1) 2))) (usub d.max_rule_width 1)) (wrapSubU (castIsize (ry % uadd 32 (umul (usub d.max_rule_height 1) 2))) (usub d.max_rule_height 1))) := by
      rw [List.getD_eq_getElem _ _ (Nat.mod_lt _ hpos)]
      exact List.getElem_mem _
    obtain ⟨rc, hrc, heq⟩ := mem_get_matches_at_point d (wrapSubU (castIsize (rx % uadd 32 (umul (usub d.max_rule_width 1) 2))) (usub d.max_rule_width 1)) (wrapSubU (castIsize (ry % uadd 32 (umul (usub d.max_rule_height 1) 2))) (usub d.max_rule_height 1)) ((d.get_matches_at_point (wrapSubU (castIsize (rx % uadd 32 (umul (usub d.max_rule_width 1) 2))) (usub d.max_rule_width 1)) (wrapSubU (castIsize (ry % uadd 32 (umul (usub d.max_rule_height 1) 2))) (usub d.max_rule_height 1))).getD (rPick % (d.get_matches_at_point (wrapSubU (castIsize (rx % uadd 32 (umul (usub d.max_rule_width 1) 2))) (usub d.max_rule_width 1)) (wrapSubU (castIsize (ry % uadd 32 (umul (usub d.max_rule_height 1) 2))) (usub d.max_rule_height 1))).length) (0, 0)) hrvmem
    have h1 : ((d.get_matches_at_point (wrapSubU (castIsize (rx % uadd 32 (umul (usub d.max_rule_width 1) 2))) (usub d.max_rule_width 1)) (wrapSubU (castIsize (ry % uadd 32 (umul (usub d.max_rule_height 1) 2))) (usub d.max_rule_height 1))).getD (rPick % (d.get_matches_at_point (wrapSubU (castIsize (rx % uadd 32 (umul (usub d.max_rule_width 1) 2))) (usub d.max_rule_width 1)) (wrapSubU (castIsize (ry % uadd 32 (umul (usub d.max_rule_height 1) 2))) (usub d.max_rule_height 1))).length) (0, 0)).1 = rc.rule := by rw [heq]
    have h2 : ((d.get_matches_at_point (wrapSubU (castIsize (rx % uadd 32 (umul (usub d.max_rule_width 1) 2))) (usub d.max_rule_width 1)) (wrapSubU (castIsize (ry % uadd 32 (umul (usub d.max_rule_height 1) 2))) (usub d.max_rule_height 1))).getD (rPick % (d.get_matches_at_point (wrapSubU (castIsize (rx % uadd 32 (umul (usub d.max_rule_width 1) 2))) (usub d.max_rule_width 1)) (wrapSubU (castIsize (ry % uadd 32 (umul (usub d.max_rule_height 1) 2))) (usub d.max_rule_height 1))).length) (0, 0)).2 = rc.variant := by rw [heq]
    rw [h1, h2]
    exact apply_update_preserves d (wrapSubU (castIsize (rx % uadd 32 (umul (usub d.max_rule_width 1) 2))) (usub d.max_rule_width 1)) (wrapSubU (castIsize (ry % uadd 32 (umul (usub d.max_rule_height 1) 2))) (usub d.max_rule_height 1)) rc.rule rc.variant rFail grng hok
      (shape_entry_sane d.rules hok.1 d.cache hok.2.1 rc hrc)

/-- One rule's contribution to `canonicalShape`. -/
def blockOf (rules : List Rule) (i : Nat) : List (Nat × Nat) :=
  if (rules.getD i default).enabled then
    (List.range (rules.getD i default).variants.length).map fun vi => (i, vi)
  else []

theorem canonicalShape_eq_flatMap (rules : List Rule) :
    canonicalShape rules = (List.range rules.length).flatMap (blockOf rules) :=
  rfl

theorem filter_blockOf_ne (rules : List Rule) (i j : Nat) (hne : j ≠ i) :
    (blockOf rules j).filter (fun p => decide (p.1 ≠ i)) = blockOf rules j := by
  rw [List.filter_eq_self]
  intro p hp
  unfold blockOf at hp
  by_cases he : (rules.getD j default).enabled
  · rw [if_pos he, List.mem_map] at hp
    obtain ⟨vi, _, rfl⟩ := hp
    simpa using hne
  · rw [if_neg he] at hp
    cases hp

theorem filter_blockOf_self (rules : List Rule) (i : Nat) :
    (blockOf rules i).filter (fun p => decide (p.1 ≠ i)) = [] := by
  rw [List.filter_eq_nil_iff]
  intro p hp
  unfold blockOf at hp
  by_cases he : (rules.getD i default).enabled
  · rw [if_pos he, List.mem_map] at hp
    obtain ⟨vi, _, rfl⟩ := hp
    simp
  · rw [if_neg he] at hp
    cases hp

theorem filter_flatMap_blockOf (rules : List Rule) (i : Nat) (l : List Nat) :
    (l.flatMap (blockOf rules)).filter (fun p => decide (p.1 ≠ i)) =
      l.flatMap (fun j => if j = i then [] else blockOf rules j) := by
  induction l with
  | nil => rfl
  | cons a as ih =>
    rw [List.flatMap_cons, List.flatMap_cons, List.filter_append, ih]
    by_cases ha : a = i
    · subst ha
      rw [if_pos rfl, filter_blockOf_self]
    · rw [if_neg ha, filter_blockOf_ne rules i a ha]

theorem flatMap_update_perm {β : Type} (i : Nat) (l : List Nat)
    (f g : Nat → List β) (hi : i ∈ l) (hnd : l.Nodup)
    (hfg : ∀ j ∈ l, j ≠ i → f j = g j) :
    (l.flatMap (fun j => if j = i then [] else f j) ++ g i).Perm
      (l.flatMap g) := by
  induction l with
  | nil => cases hi
  | cons a as ih =>
    rw [List.flatMap_cons, List.flatMap_cons]
    by_cases ha : a = i
    · subst ha
      rw [if_pos rfl, List.nil_append]
      have hnotin : a ∉ as := (List.nodup_cons.mp hnd).1
      have hcongr : as.flatMap (fun j => if j = a then [] else f j) =
          as.flatMap g := by
        apply List.flatMap_congr
        intro j hj
        have hja : j ≠ a := fun h => hnotin (h ▸ hj)
        rw [if_neg hja]
        exact hfg j (List.mem_cons_of_mem _ hj) hja
      rw [hcongr]
      exact List.perm_append_comm
    · rw [if_neg ha, List.append_assoc,
        hfg a (List.mem_cons_self _ _) ha]
      have hias : i ∈ as := by
        rcases List.mem_cons.mp hi with h | h
        · exact absurd h.symm ha
        · exact h
      exact List.Perm.append_left (g a)
        (ih hias (List.nodup_cons.mp hnd).2
          (fun j hj hji => hfg j (List.mem_cons_of_mem _ hj) hji))

theorem getD_set_ne (rules : List Rule) (i j : Nat) (r' : Rule)
    (hne : j ≠ i) :
    (rules.set i r').getD j default = rules.getD j default := by
  rw [List.getD_eq_getElem?_getD, List.getD_eq_getElem?_getD,
    List.getElem?_set_ne (fun h => hne h.symm)]

theorem getD_set_self (rules : List Rule) (i : Nat) (r' : Rule)
    (hi : i < rules.length) :
    (rules.set i r').getD i default = r' := by
  rw [List.getD_eq_getElem?_getD, List.getElem?_set_self hi]
  rfl

/-- Replacing one rule: the filtered old shape plus the new rule's
block is a permutation of the new canonical shape. -/
theorem shape_after_replace (rules : List Rule) (i : Nat)
    (hi : i < rules.length) (r' : Rule) (shape0 : List (Nat × Nat))
    (hsh : shape0.Perm (canonicalShape rules)) :
    (shape0.filter (fun p => decide (p.1 ≠ i)) ++
      blockOf (rules.set i r') i).Perm (canonicalShape (rules.set i r')) := by
  have h1 := hsh.filter (fun p => decide (p.1 ≠ i))
  rw [canonicalShape_eq_flatMap, filter_flatMap_blockOf] at h1
  have h2 := flatMap_update_perm i (List.range rules.length)
    (blockOf rules) (blockOf (rules.set i r'))
    (List.mem_range.mpr hi) (List.nodup_range _)
    (fun j _ hji => by
      unfold blockOf
      rw [getD_set_ne rules i j r' hji])
  have h3 : (shape0.filter (fun p => decide (p.1 ≠ i)) ++
      blockOf (rules.set i r') i).Perm
      ((List.range rules.length).flatMap
        (fun j => if j = i then [] else blockOf rules j) ++
        blockOf (rules.set i r') i) :=
    h1.append_right _
  refine h3.trans (h2.trans ?_)
  rw [canonicalShape_eq_flatMap, List.length_set]

/-- The core of `update_cache_single_rule` after a rule replacement:
drop the rule's entries, rebuild them with a full bordered scan, and
recompute `match_cache`. -/
theorem filter_add_ok (d : Dish) (i : Nat) (r' : Rule)
    (hilen : i < d.rules.length)
    (hr : RulesSane d.rules) (hr' : ∀ v ∈ r'.variants, v.Sane)
    (hsh : (d.cache.map fun c => (c.rule, c.variant)).Perm
      (canonicalShape d.rules))
    (hent : ∀ c ∈ d.cache, EntryOK d.world d.groups d.rules c) :
    CacheOK ((addCacheRule { d with
        rules := d.rules.set i r'
        cache := d.cache.filter fun c => decide (c.rule ≠ i) } i
      r').update_match_cache) := by
  have hrS : RulesSane (d.rules.set i r') := by
    intro r hrmem v hv
    rcases List.mem_or_eq_of_mem_set hrmem with h | h
    · exact hr r h v hv
    · subst h
      exact hr' v hv
  have hset : (d.rules.set i r').getD i default = r' :=
    getD_set_self d.rules i r' hilen
  have haddeq := addCacheRule_eq { d with
      rules := d.rules.set i r'
      cache := d.cache.filter fun c => decide (c.rule ≠ i) } i
  rw [show ({ d with
      rules := d.rules.set i r'
      cache := d.cache.filter fun c => decide (c.rule ≠ i) } : Dish).rules.getD
      i default = r' from hset] at haddeq
  rw [haddeq]
  refine ⟨hrS, ?_, ?_, update_match_cache_ok _⟩
  · show ((((d.cache.filter fun c => decide (c.rule ≠ i)) ++
      entriesFor d.world d.groups (d.rules.set i r') i).map
      fun c => (c.rule, c.variant)).Perm (canonicalShape (d.rules.set i r')))
    rw [List.map_append]
    have hswap : (d.cache.filter fun c => decide (c.rule ≠ i)).map
        (fun c => (c.rule, c.variant)) =
        (d.cache.map fun c => (c.rule, c.variant)).filter
          (fun p => decide (p.1 ≠ i)) := by
      rw [List.filter_map]
      apply congrArg
      apply List.filter_congr
      intro c _
      rfl
    have hblock : (entriesFor d.world d.groups (d.rules.set i r') i).map
        (fun c => (c.rule, c.variant)) = blockOf (d.rules.set i r') i := by
      rw [entriesFor_shape]
      rfl
    rw [hswap, hblock]
    exact shape_after_replace d.rules i hilen r' _ hsh
  · intro c hc
    show EntryOK d.world d.groups (d.rules.set i r') c
    rcases List.mem_append.mp hc with hcf | hce
    · obtain ⟨hmem, hp⟩ := List.mem_filter.mp hcf
      have hcne : c.rule ≠ i := of_decide_eq_true hp
      have hveq : variantOf (d.rules.set i r') c = variantOf d.rules c := by
        unfold variantOf
        rw [getD_set_ne d.rules i c.rule r' hcne]
      unfold EntryOK
      rw [hveq]
      exact hent c hmem
    · exact entriesFor_entryOK d.world d.groups (d.rules.set i r') hrS i
        (by rw [List.length_set]; exact hilen) c hce

/-- Editing one rule (keeping its variants sane) and running
`update_cache_single_rule` on it preserves the cache invariant. -/
theorem update_rule_preserves (d : Dish) (i : Nat) (r' : Rule) (d' : Dish)
    (hok : CacheOK d) (hr' : ∀ v ∈ r'.variants, v.Sane)
    (hsome : ({ d with rules := d.rules.set i r' } : Dish).update_cache_single_rule i =
      Option.some d') :
    CacheOK d' := by
  obtain ⟨hr, hsh, hent, _⟩ := hok
  unfold Dish.update_cache_single_rule Dish.add_cache_single_rule at hsome
  dsimp only at hsome
  match h2 : (d.rules.set i r').get? i with
  | Option.none =>
    rw [h2] at hsome
    cases hsome
  | Option.some rule =>
    rw [h2] at hsome
    simp only [Option.map_some] at hsome
    obtain ⟨hilen2, hget⟩ := List.get?_eq_some.mp h2
    have hilen : i < d.rules.length := by
      rw [List.length_set] at hilen2
      exact hilen2
    have hrule : rule = r' := by
      rw [← hget, List.get_eq_getElem]
      exact List.getElem_set_self _
    rw [hrule] at hsome
    rw [← Option.some_inj.mp hsome]
    exact filter_add_ok d i r' hilen hr hr' hsh hent

/-- One engine operation, as exposed by the library and its host:

* `rebuild`: arbitrary world edits followed by `rebuild_cache`;
* `update`: world edits confined to a rectangle of bounded dimensions
  followed by `update_cache` on that rectangle (what `set_cell` +
  `update_cache(x, y, 1, 1)` in the editor does);
* `updateRule`: replacing one rule (with sane variants, as
  `generate_variants` produces for sane base patterns) followed by a
  successful `update_cache_single_rule`;
* `applyOne` / `tryOne`: the two random application operations. -/
inductive Step : Dish → Dish → Prop where
  | rebuild (d : Dish) (w' : World) :
      Step d ({ d with world := w' } : Dish).rebuild_cache
  | update (d : Dish) (w' : World) (cx cy : Int) (wd ht : Nat)
      (hwd : (wd : Int) ≤ 4294967296) (hht : (ht : Int) ≤ 4294967296)
      (hagree : ∀ a b : Nat, a < 32 → b < 32 →
        ¬ inRectN (cx, cy, wd, ht) a b → w' a b = d.world a b) :
      Step d (({ d with world := w' } : Dish).update_cache cx cy wd ht)
  | updateRule (d : Dish) (i : Nat) (r' : Rule) (d' : Dish)
      (hr' : ∀ v ∈ r'.variants, v.Sane)
      (hsome : ({ d with rules := d.rules.set i r' } : Dish).update_cache_single_rule i =
        Option.some d') :
      Step d d'
  | applyOne (d : Dish) (r1 r2 rFail : Nat) (grng : Nat → Nat → Nat) :
      Step d (d.apply_one_match r1 r2 rFail grng)
  | tryOne (d : Dish) (rx ry rPick rFail : Nat) (grng : Nat → Nat → Nat) :
      Step d (d.try_one_location rx ry rPick rFail grng)

/-- Reachability by engine operations. -/
def Reach (d d' : Dish) : Prop := Relation.ReflTransGen Step d d'

theorem step_preserves (d d' : Dish) (h : Step d d') (hok : CacheOK d) :
    CacheOK d' := by
  cases h with
  | rebuild w' => exact rebuild_establishes _ hok.1
  | update w' cx cy wd ht hwd hht hagree =>
    exact update_cache_preserves d w' cx cy wd ht hwd hht hagree hok
  | updateRule i2 r2 d2 hv2 hs2 =>
    exact update_rule_preserves d i2 r2 d' hok hv2 hs2
  | applyOne r1 r2 rFail grng =>
    exact apply_one_match_preserves d r1 r2 rFail grng hok
  | tryOne rx ry rPick rFail grng =>
    exact try_one_location_preserves d rx ry rPick rFail grng hok

theorem reach_cacheOK (d d' : Dish) (hok : CacheOK d) (h : Reach d d') :
    CacheOK d' := by
  induction h with
  | refl => exact hok
  | tail hstep hprev ih => exact step_preserves _ _ hprev ih

/-! ## Claim C1: cache consistency invariant -/

/-- Claim C1 (amended): starting from `rebuild_cache` on sane rules,
after any sequence of engine operations every cached `(rule, variant,
anchor)` matches the current world at `anchor - origin`, and for every
enabled rule and variant the cache holds an entry that is complete over
the bordered scan rectangle `[-(w-1), 32+w-1) × [-(h-1), 32+h-1)` (the
rectangle `rebuild_cache` scans).  Completeness over all signed
positions — the literal reading of the claim — is false, see
`cache_consistency_counterexample`. -/
theorem cache_consistency_invariant (d0 d : Dish) (hr : RulesSane d0.rules)
    (hreach : Reach d0.rebuild_cache d) :
    (∀ c ∈ d.cache, ∀ m ∈ c.matchList,
      matcherAt d.world d.groups (variantOf d.rules c) m = true) ∧
    (∀ i vi : Nat, i < d.rules.length →
      (d.rules.getD i default).enabled = true →
      vi < (d.rules.getD i default).variants.length →
      ∃ c ∈ d.cache, c.rule = i ∧ c.variant = vi ∧
        ∀ m, borderedRect (variantOf d.rules c) m →
          matcherAt d.world d.groups (variantOf d.rules c) m = true →
          m ∈ c.matchList) := by
  have hok := reach_cacheOK d0.rebuild_cache d (rebuild_establishes d0 hr) hreach
  obtain ⟨hrS, hsh, hent, _⟩ := hok
  refine ⟨?_, ?_⟩
  · intro c hc m hm
    exact (hent c hc).1 m hm
  · intro i vi hi he hvi
    have hmem : (i, vi) ∈ canonicalShape d.rules :=
      (mem_canonicalShape _ _ _).mpr ⟨hi, he, hvi⟩
    rw [← hsh.mem_iff, List.mem_map] at hmem
    obtain ⟨c, hc, heq⟩ := hmem
    rw [Prod.mk.injEq] at heq
    exact ⟨c, hc, heq.1, heq.2, (hent c hc).2.2⟩

/-- Witness for `cache_consistency_invariant`: the freshly rebuilt empty
dish, reached in zero steps. -/
theorem cache_consistency_invariant_witness :
    (∀ c ∈ emptyDish.rebuild_cache.cache, ∀ m ∈ c.matchList,
      matcherAt emptyDish.rebuild_cache.world emptyDish.rebuild_cache.groups
        (variantOf emptyDish.rebuild_cache.rules c) m = true) ∧
    (∀ i vi : Nat, i < emptyDish.rebuild_cache.rules.length →
      (emptyDish.rebuild_cache.rules.getD i default).enabled = true →
      vi < (emptyDish.rebuild_cache.rules.getD i default).variants.length →
      ∃ c ∈ emptyDish.rebuild_cache.cache, c.rule = i ∧ c.variant = vi ∧
        ∀ m, borderedRect (variantOf emptyDish.rebuild_cache.rules c) m →
          matcherAt emptyDish.rebuild_cache.world
            emptyDish.rebuild_cache.groups
            (variantOf emptyDish.rebuild_cache.rules c) m = true →
          m ∈ c.matchList) :=
  cache_consistency_invariant emptyDish emptyDish.rebuild_cache
    (fun r h => absurd h (List.not_mem_nil r)) Relation.ReflTransGen.refl

instance (v : SubRule) : Decidable v.Sane := by
  unfold SubRule.Sane
  infer_instance

instance (rules : List Rule) : Decidable (RulesSane rules) := by
  unfold RulesSane
  infer_instance

/-- A 1×1 pattern matching anywhere (also outside the world). -/
def anySub : SubRule :=
  { width := 1, height := 1, origin_x := 0, origin_y := 0
    contents := [(.any, .none)] }

/-- An enabled rule whose only variant is `anySub`. -/
def anyRule : Rule :=
  { name := "any", base := anySub, variants := [anySub], enabled := true
    flip_x := false, flip_y := false, rotate := false, failrate := 0 }

/-- A dish holding only `anyRule`, empty cache. -/
def anyDish : Dish :=
  { world := fun _ _ => ⟨0⟩, rules := [anyRule], types := [], groups := []
    cache := [], match_cache := [], max_rule_width := 1, max_rule_height := 1 }

/-- The single cache entry of the rebuilt `anyDish`. -/
theorem anyEntry_mem :
    scanEntry anyDish.world anyDish.groups anySub 0 0 ∈
      anyDish.rebuild_cache.cache := by
  rw [rebuild_cache_cache]
  rw [List.mem_flatMap]
  refine ⟨0, by decide, ?_⟩
  unfold entriesFor
  rw [if_pos (by decide)]
  rw [List.mem_map]
  exact ⟨0, by decide, rfl⟩

/-- Counterexample to the literal claim C1: after `rebuild_cache` on
`anyDish`, the matcher returns true at the unrecorded signed position
`(32, 0)` — the cache is only complete over the bordered scan
rectangle, not over all signed positions. -/
theorem cache_consistency_counterexample :
    ∃ c ∈ anyDish.rebuild_cache.cache,
      matcherAt anyDish.rebuild_cache.world anyDish.rebuild_cache.groups
        (variantOf anyDish.rebuild_cache.rules c) ((32 : Int), (0 : Int)) =
        true ∧
      ((32 : Int), (0 : Int)) ∉ c.matchList := by
  refine ⟨scanEntry anyDish.world anyDish.groups anySub 0 0, anyEntry_mem,
    ?_, ?_⟩
  · rw [(rebuild_fields anyDish).1, (rebuild_fields anyDish).2.1,
      (rebuild_fields anyDish).2.2]
    have hv : variantOf anyDish.rules
        (scanEntry anyDish.world anyDish.groups anySub 0 0) = anySub := by
      unfold variantOf
      rw [scanEntry_rule, scanEntry_variant]
      decide
    rw [hv]
    decide
  · intro hmem
    rw [scanEntry_matchList,
      mem_rebuildScan2 _ _ _ (by decide : anySub.Sane)] at hmem
    obtain ⟨⟨_, b2, _, _⟩, _⟩ := hmem
    exact absurd b2 (by decide)

/-! ## Claim C2: incremental update vs full rebuild -/

theorem getD_variant_sane (rules : List Rule) (hr : RulesSane rules)
    (i vi : Nat) (hi : i < rules.length)
    (hvi : vi < (rules.getD i default).variants.length) :
    ((rules.getD i default).variants.getD vi default).Sane := by
  apply hr (rules.getD i default)
  · rw [List.getD_eq_getElem _ _ hi]
    exact List.getElem_mem _
  · rw [List.getD_eq_getElem _ _ hvi]
    exact List.getElem_mem _

/-- Every entry of a rebuilt cache: valid enabled indices, and a match
list equal to the full bordered scan of its variant. -/
theorem rebuild_entry_data (d : Dish) (c' : RuleCache)
    (hc' : c' ∈ d.rebuild_cache.cache) :
    c'.rule < d.rules.length ∧
    (d.rules.getD c'.rule default).enabled = true ∧
    c'.variant < (d.rules.getD c'.rule default).variants.length ∧
    c'.matchList = rebuildScan d.world d.groups
      ((d.rules.getD c'.rule default).variants.getD c'.variant default) := by
  rw [rebuild_cache_cache, List.mem_flatMap] at hc'
  obtain ⟨i, hi, hce⟩ := hc'
  rw [List.mem_range] at hi
  unfold entriesFor at hce
  by_cases he : (d.rules.getD i default).enabled
  · rw [if_pos he, List.mem_map] at hce
    obtain ⟨vi, hvi, heq⟩ := hce
    rw [List.mem_range] at hvi
    have h1 : c'.rule = i := by
      rw [← heq]
      exact scanEntry_rule _ _ _ _ _
    have h2 : c'.variant = vi := by
      rw [← heq]
      exact scanEntry_variant _ _ _ _ _
    have h3 : c'.matchList = rebuildScan d.world d.groups
        ((d.rules.getD i default).variants.getD vi default) := by
      rw [← heq]
      exact scanEntry_matchList _ _ _ _ _
    rw [h1, h2]
    exact ⟨hi, he, hvi, h3⟩
  · rw [if_neg he] at hce
    cases hce

/-- Anchors of a rebuilt cache are bordered. -/
theorem rebuild_bordered (d0 : Dish) (hr : RulesSane d0.rules)
    (c : RuleCache) (hc : c ∈ d0.rebuild_cache.cache) (m : Int × Int)
    (hm : m ∈ c.matchList) : borderedRect (variantOf d0.rules c) m := by
  obtain ⟨hi, he, hvi, hml⟩ := rebuild_entry_data d0 c hc
  rw [hml] at hm
  have hsane := getD_variant_sane d0.rules hr c.rule c.variant hi hvi
  exact ((mem_rebuildScan2 _ _ _ hsane m).mp hm).1

/-- An entry updated over a rectangle inside the grid keeps all of its
anchors inside the bordered rectangle. -/
theorem updateEntry_bordered (w : World) (groups : List CellGroup)
    (rules : List Rule) (cx cy : Int) (wd ht : Nat) (c0 : RuleCache)
    (hsane : (variantOf rules c0).Sane)
    (hg1 : 0 ≤ cx) (hg2 : cx + (wd : Int) ≤ 32)
    (hg3 : 0 ≤ cy) (hg4 : cy + (ht : Int) ≤ 32)
    (hb0 : ∀ m ∈ c0.matchList, borderedRect (variantOf rules c0) m)
    (m : Int × Int)
    (hm : m ∈ (updateEntry w groups rules (cx, cy, wd, ht) c0).matchList) :
    borderedRect (variantOf rules c0) m := by
  rw [mem_updateEntry] at hm
  rcases hm with ⟨hold, _⟩ | ⟨h1, h2, h3, h4, _⟩
  · exact hb0 m hold
  · obtain ⟨hox, hoy, hw, hh⟩ := hsane
    dsimp only at h1 h2 h3 h4
    rw [usub_one_eq _ (by omega) hw] at h1 h2
    rw [usub_one_eq _ (by omega) hh] at h3 h4
    rw [wrapSubU_eq _ _ (by omega) (by omega)] at h1
    rw [wrapSubU_eq _ _ (by omega) (by omega)] at h3
    rw [wrapAddU_eq cx wd (by omega) (by omega),
      wrapAddU_eq _ _ (by omega) (by omega)] at h2
    rw [wrapAddU_eq cy ht (by omega) (by omega),
      wrapAddU_eq _ _ (by omega) (by omega)] at h4
    exact ⟨by omega, by omega, by omega, by omega⟩

/-- Claim C2 (amended): starting from a consistent cache whose anchors
are bordered (as `rebuild_cache` leaves them), an incremental
`update_cache` over an edited rectangle that lies inside the grid and
bounds all world changes produces, entry for entry (matched by rule and
variant), the same set of anchors a full `rebuild_cache` on the new
world produces.  For rectangles reaching outside the grid this fails,
see `update_vs_rebuild_counterexample`. -/
theorem update_cache_equals_rebuild (d : Dish) (w' : World) (cx cy : Int)
    (wd ht : Nat) (hok : CacheOK d)
    (hborder : ∀ c ∈ d.cache, ∀ m ∈ c.matchList,
      borderedRect (variantOf d.rules c) m)
    (hg1 : 0 ≤ cx) (hg2 : cx + (wd : Int) ≤ 32)
    (hg3 : 0 ≤ cy) (hg4 : cy + (ht : Int) ≤ 32)
    (hagree : ∀ a b : Nat, a < 32 → b < 32 →
      ¬ inRectN (cx, cy, wd, ht) a b → w' a b = d.world a b) :
    (∀ c ∈ (({ d with world := w' } : Dish).update_cache cx cy wd ht).cache,
      ∃ c' ∈ ({ d with world := w' } : Dish).rebuild_cache.cache,
        c'.rule = c.rule ∧ c'.variant = c.variant) ∧
    (∀ c' ∈ ({ d with world := w' } : Dish).rebuild_cache.cache,
      ∃ c ∈ (({ d with world := w' } : Dish).update_cache cx cy wd ht).cache,
        c.rule = c'.rule ∧ c.variant = c'.variant) ∧
    (∀ c ∈ (({ d with world := w' } : Dish).update_cache cx cy wd ht).cache,
      ∀ c' ∈ ({ d with world := w' } : Dish).rebuild_cache.cache,
        c.rule = c'.rule → c.variant = c'.variant →
        ∀ m : Int × Int, m ∈ c.matchList ↔ m ∈ c'.matchList) := by
  obtain ⟨hr, hsh, hent, hmc⟩ := hok
  have hokU := update_cache_preserves d w' cx cy wd ht (by omega) (by omega)
    hagree ⟨hr, hsh, hent, hmc⟩
  obtain ⟨_, hshU2, hentU, _⟩ := hokU
  have hshU : (((({ d with world := w' } : Dish).update_cache cx cy
      wd ht).cache.map fun c => (c.rule, c.variant))).Perm
      (canonicalShape d.rules) := hshU2
  have hshR : ((({ d with world := w' } : Dish).rebuild_cache.cache.map
      fun c => (c.rule, c.variant))) = canonicalShape d.rules :=
    rebuild_shape ({ d with world := w' } : Dish)
  refine ⟨?_, ?_, ?_⟩
  · intro c hc
    have h1 : (c.rule, c.variant) ∈ canonicalShape d.rules := by
      rw [← hshU.mem_iff]
      exact List.mem_map_of_mem _ hc
    rw [← hshR, List.mem_map] at h1
    obtain ⟨c', hc', heq⟩ := h1
    rw [Prod.mk.injEq] at heq
    exact ⟨c', hc', heq.1, heq.2⟩
  · intro c' hc'
    have h1 : (c'.rule, c'.variant) ∈ canonicalShape d.rules := by
      rw [← hshR]
      exact List.mem_map_of_mem _ hc'
    rw [← hshU.mem_iff, List.mem_map] at h1
    obtain ⟨c, hc, heq⟩ := h1
    rw [Prod.mk.injEq] at heq
    exact ⟨c, hc, heq.1, heq.2⟩
  · intro c hc c' hc' hrr hvv m
    obtain ⟨hi2, he2, hvi2, hml2⟩ :=
      rebuild_entry_data ({ d with world := w' } : Dish) c' hc'
    have hi : c'.rule < d.rules.length := hi2
    have hvi : c'.variant < (d.rules.getD c'.rule default).variants.length :=
      hvi2
    have hml : c'.matchList = rebuildScan w' d.groups
        ((d.rules.getD c'.rule default).variants.getD c'.variant default) :=
      hml2
    have hsane' := getD_variant_sane d.rules hr c'.rule c'.variant hi hvi
    have hc0 : c ∈ d.cache.map
        (updateEntry w' d.groups d.rules (cx, cy, wd, ht)) := hc
    rw [List.mem_map] at hc0
    obtain ⟨c0, hc0m, heq0⟩ := hc0
    have hvar0 : variantOf d.rules c = variantOf d.rules c0 := by
      rw [← heq0]
      unfold variantOf
      rw [(updateEntry_fields w' d.groups d.rules (cx, cy, wd, ht) c0).1,
        (updateEntry_fields w' d.groups d.rules (cx, cy, wd, ht) c0).2]
    have hsane0 : (variantOf d.rules c0).Sane :=
      shape_entry_sane d.rules hr d.cache hsh c0 hc0m
    have hbord : ∀ m2 ∈ c.matchList, borderedRect (variantOf d.rules c) m2 := by
      intro m2 hm2
      rw [← heq0] at hm2
      rw [hvar0]
      exact updateEntry_bordered w' d.groups d.rules cx cy wd ht c0 hsane0
        hg1 hg2 hg3 hg4 (fun m3 hm3 => hborder c0 hc0m m3 hm3) m2 hm2
    have hveq : variantOf d.rules c =
        (d.rules.getD c'.rule default).variants.getD c'.variant default := by
      unfold variantOf
      rw [hrr, hvv]
    constructor
    · intro hm
      rw [hml, mem_rebuildScan2 _ _ _ hsane']
      have hmatch : matcherAt w' d.groups (variantOf d.rules c) m = true :=
        (hentU c hc).1 m hm
      have hb := hbord m hm
      rw [hveq] at hmatch hb
      exact ⟨hb, hmatch⟩
    · intro hm
      rw [hml, mem_rebuildScan2 _ _ _ hsane'] at hm
      obtain ⟨hb, hmatch⟩ := hm
      rw [← hveq] at hb hmatch
      exact (hentU c hc).2.2 m hb hmatch

/-- Witness for `update_cache_equals_rebuild`: the rebuilt `anyDish`,
updated over the in-grid cell `(0, 0)` with no world change. -/
theorem update_cache_equals_rebuild_witness :
    (∀ c ∈ (({ anyDish.rebuild_cache with world := anyDish.rebuild_cache.world } : Dish).update_cache 0 0 1 1).cache,
      ∃ c' ∈ ({ anyDish.rebuild_cache with world := anyDish.rebuild_cache.world } : Dish).rebuild_cache.cache,
        c'.rule = c.rule ∧ c'.variant = c.variant) ∧
    (∀ c' ∈ ({ anyDish.rebuild_cache with world := anyDish.rebuild_cache.world } : Dish).rebuild_cache.cache,
      ∃ c ∈ (({ anyDish.rebuild_cache with world := anyDish.rebuild_cache.world } : Dish).update_cache 0 0 1 1).cache,
        c.rule = c'.rule ∧ c.variant = c'.variant) ∧
    (∀ c ∈ (({ anyDish.rebuild_cache with world := anyDish.rebuild_cache.world } : Dish).update_cache 0 0 1 1).cache,
      ∀ c' ∈ ({ anyDish.rebuild_cache with world := anyDish.rebuild_cache.world } : Dish).rebuild_cache.cache,
        c.rule = c'.rule → c.variant = c'.variant →
        ∀ m : Int × Int, m ∈ c.matchList ↔ m ∈ c'.matchList) :=
  update_cache_equals_rebuild anyDish.rebuild_cache
    anyDish.rebuild_cache.world 0 0 1 1
    (rebuild_establishes anyDish (by decide))
    (fun c hc m hm => rebuild_bordered anyDish (by decide) c hc m hm)
    (by decide) (by decide) (by decide) (by decide)
    (fun a b _ _ _ => rfl)

/-- Counterexample to the literal claim C2: with the always-matching
1×1 rule, updating over the rectangle `(-5, 0, 1, 1)` — which bounds
the (empty) set of world changes — pushes the out-of-grid anchor
`(-5, 0)` into the cache, while a full rebuild never records it.  The
two caches differ as sets of anchors. -/
theorem update_vs_rebuild_counterexample :
    ∃ c ∈ (anyDish.rebuild_cache.update_cache (-5) 0 1 1).cache,
      ((-5 : Int), (0 : Int)) ∈ c.matchList ∧
      ∀ c' ∈ anyDish.rebuild_cache.rebuild_cache.cache,
        ((-5 : Int), (0 : Int)) ∉ c'.matchList := by
  have hrulesEq : anyDish.rebuild_cache.rules = anyDish.rules := (rebuild_fields anyDish).2.1
  refine ⟨updateEntry anyDish.rebuild_cache.world anyDish.rebuild_cache.groups anyDish.rebuild_cache.rules
    ((-5 : Int), (0 : Int), 1, 1) (scanEntry anyDish.world anyDish.groups anySub 0 0), ?_, ?_, ?_⟩
  · exact List.mem_map_of_mem _ anyEntry_mem
  · have hve : variantOf anyDish.rebuild_cache.rules (scanEntry anyDish.world anyDish.groups anySub 0 0) = anySub := by
      unfold variantOf
      rw [scanEntry_rule, scanEntry_variant, hrulesEq]
      decide
    rw [mem_updateEntry, hve]
    refine Or.inr ⟨?_, ?_, ?_, ?_, ?_⟩
    · decide
    · decide
    · decide
    · decide
    · rw [(rebuild_fields anyDish).1, (rebuild_fields anyDish).2.2]
      decide
  · intro c' hc' hmem
    obtain ⟨hi, he, hvi, hml⟩ := rebuild_entry_data anyDish.rebuild_cache c' hc'
    have hrS : RulesSane anyDish.rebuild_cache.rules := by
      rw [hrulesEq]
      decide
    have hsane := getD_variant_sane anyDish.rebuild_cache.rules hrS c'.rule c'.variant hi hvi
    have hlen : anyDish.rebuild_cache.rules.length = 1 := by
      rw [hrulesEq]
      decide
    have h0 : c'.rule = 0 := by omega
    have hvlen : (anyDish.rebuild_cache.rules.getD c'.rule default).variants.length = 1 := by
      rw [h0, hrulesEq]
      decide
    have hv0 : c'.variant = 0 := by omega
    have hVeq : (anyDish.rebuild_cache.rules.getD c'.rule default).variants.getD c'.variant
        default = anySub := by
      rw [h0, hv0, hrulesEq]
      decide
    rw [hml, mem_rebuildScan2 _ _ _ hsane, hVeq] at hmem
    obtain ⟨⟨b1, _, _, _⟩, _⟩ := hmem
    exact absurd b1 (by decide)

/-! ## Claim C10: duplicated anchors after update_cache -/

/-- The exact shape of an updated entry's match list: the survivors of
the removal loop followed by the rescan results (duplicates and all). -/
theorem updateEntry_matchList (w : World) (groups : List CellGroup)
    (rules : List Rule) (R : Int × Int × Nat × Nat) (c : RuleCache) :
    (updateEntry w groups rules R c).matchList =
      discardLoop (fun m => overlapRect R
        (wrapSubU m.1 ((rules.getD c.rule default).variants.getD c.variant
          default).origin_x,
         wrapSubU m.2 ((rules.getD c.rule default).variants.getD c.variant
          default).origin_y,
         ((rules.getD c.rule default).variants.getD c.variant default).width,
         ((rules.getD c.rule default).variants.getD c.variant default).height))
        c.matchList 0 ++
      variantScan w groups
        ((rules.getD c.rule default).variants.getD c.variant default)
        (wrapSubU R.1 (usub ((rules.getD c.rule default).variants.getD
          c.variant default).width 1))
        (wrapAddU (wrapAddU R.1 R.2.2.1) (usub ((rules.getD c.rule
          default).variants.getD c.variant default).width 1))
        (wrapSubU R.2.1 (usub ((rules.getD c.rule default).variants.getD
          c.variant default).height 1))
        (wrapAddU (wrapAddU R.2.1 R.2.2.2) (usub ((rules.getD c.rule
          default).variants.getD c.variant default).height 1)) := by
  unfold updateEntry
  with_reducible rfl

/-- A 2×1 pattern matching anywhere. -/
def dupSub : SubRule :=
  { width := 2, height := 1, origin_x := 0, origin_y := 0
    contents := [(.any, .none), (.any, .none)] }

/-- An enabled rule whose only variant is `dupSub`. -/
def dupRule : Rule :=
  { name := "dup", base := dupSub, variants := [dupSub], enabled := true
    flip_x := false, flip_y := false, rotate := false, failrate := 0 }

/-- A dish holding only `dupRule`, empty cache. -/
def dupDish : Dish :=
  { world := fun _ _ => ⟨0⟩, rules := [dupRule], types := [], groups := []
    cache := [], match_cache := [], max_rule_width := 2, max_rule_height := 1 }

/-- The single cache entry of the rebuilt `dupDish`. -/
theorem dupEntry_mem :
    scanEntry dupDish.world dupDish.groups dupSub 0 0 ∈
      dupDish.rebuild_cache.cache := by
  rw [rebuild_cache_cache]
  rw [List.mem_flatMap]
  refine ⟨0, by decide, ?_⟩
  unfold entriesFor
  rw [if_pos (by decide)]
  rw [List.mem_map]
  exact ⟨0, by decide, rfl⟩

/-- Claim C10: a reachable state whose cache holds a duplicated anchor.
After `rebuild_cache` on the 2×1 always-matching rule, updating the
edited cell `(0, 0)` keeps the anchor `(1, 0)` — its bounding rectangle
`[1, 3) × [0, 1)` does not overlap the edited cell — and the rescan of
`[-1, 2) × [0, 1)` pushes `(1, 0)` again, so the entry's match list is
not duplicate-free. -/
theorem update_cache_duplicate_anchor :
    Reach dupDish.rebuild_cache
      (dupDish.rebuild_cache.update_cache 0 0 1 1) ∧
    ∃ c ∈ (dupDish.rebuild_cache.update_cache 0 0 1 1).cache,
      ¬ c.matchList.Nodup := by
  have hrulesEq : dupDish.rebuild_cache.rules = dupDish.rules :=
    (rebuild_fields dupDish).2.1
  have hVd : (dupDish.rebuild_cache.rules.getD
      (scanEntry dupDish.world dupDish.groups dupSub 0 0).rule
      default).variants.getD
      (scanEntry dupDish.world dupDish.groups dupSub 0 0).variant
      default = dupSub := by
    rw [scanEntry_rule, scanEntry_variant, hrulesEq]
    decide
  constructor
  · exact Relation.ReflTransGen.single
      (Step.update dupDish.rebuild_cache dupDish.rebuild_cache.world 0 0 1 1
        (by decide) (by decide) (fun a b _ _ _ => rfl))
  · refine ⟨updateEntry dupDish.rebuild_cache.world
      dupDish.rebuild_cache.groups dupDish.rebuild_cache.rules
      ((0 : Int), (0 : Int), 1, 1)
      (scanEntry dupDish.world dupDish.groups dupSub 0 0), ?_, ?_⟩
    · exact List.mem_map_of_mem _ dupEntry_mem
    · rw [updateEntry_matchList, hVd]
      intro hnd
      rw [List.nodup_append] at hnd
      have hkept : ((1 : Int), (0 : Int)) ∈ discardLoop
          (fun m => overlapRect ((0 : Int), (0 : Int), 1, 1)
            (wrapSubU m.1 dupSub.origin_x, wrapSubU m.2 dupSub.origin_y,
             dupSub.width, dupSub.height))
          (scanEntry dupDish.world dupDish.groups dupSub 0 0).matchList
          0 := by
        rw [discardLoop_mem _ _ _ (fun j hj h0 => absurd h0 (by omega))]
        refine ⟨?_, by decide⟩
        rw [scanEntry_matchList,
          mem_rebuildScan2 _ _ _ (by decide : dupSub.Sane)]
        exact ⟨⟨by decide, by decide, by decide, by decide⟩, by decide⟩
      have hscan : ((1 : Int), (0 : Int)) ∈ variantScan
          dupDish.rebuild_cache.world dupDish.rebuild_cache.groups dupSub
          (wrapSubU 0 (usub dupSub.width 1))
          (wrapAddU (wrapAddU 0 1) (usub dupSub.width 1))
          (wrapSubU 0 (usub dupSub.height 1))
          (wrapAddU (wrapAddU 0 1) (usub dupSub.height 1)) := by
        rw [mem_variantScan]
        refine ⟨by decide, by decide, by decide, by decide, ?_⟩
        rw [(rebuild_fields dupDish).1, (rebuild_fields dupDish).2.2]
        decide
      exact hnd.2.2 hkept hscan
